import Mathlib

/-!
# The dynamic array of `Vector.h`: model and verified properties

The class template `Vector<T>` of `src/Vector.h` is embedded as a record of its three
data members.  The storage block that `data_` points to is a list of slots, one per
element the block can hold; a slot is `some x` when a constructed object with value
`x` lives there and `none` when it is raw storage.  Member functions become functions
from the object (and the record of storage requests) to the object after the call.

Conventions of the model:

* `size_t` is 64 bits wide; arithmetic that the source performs in `size_t` is reduced
  with `to_size_t`.
* Copying, moving and assigning an element transfers its value.  In the member
  functions these operations and `operator new` do not fail; the functions whose name
  ends in `_may_throw` take as a parameter which element constructions throw.  Failures
  raised by the container itself (`std::length_error`, `std::out_of_range`) are results
  of type `Except`.
* Reading a slot that is raw, or lies outside the block, yields `none`; a write outside
  the block is dropped.
* `operator new` / `operator delete` calls are recorded, in order, in a `Heap` log.
  Releasing a block the container no longer points to has no effect on the three data
  members; when the block released is the one `data_` still points to (the growing
  branch of `resize(count)`), its slots are raw from then on.
* A release whose pointer argument is not the start of a block has undefined
  behaviour.  `relocate` requests one when it moves the elements of a container with
  `0 < size_` and `size_ != capacity_`, and the handlers of the constructors request one
  with `&new_data`: these calls end with `Exception.undefined_behaviour`.  `clear()`
  consists of such a release only; its model is the record of the call together with
  the members, none of which the call writes.
* An `Iterator` is the element offset of its pointer from the start of the block.
* A `Vector` carries the contents of its own block.  Where it matters whether two
  objects share a block (a copy and its source), the members are stated a second time
  over a free store that holds the blocks of all objects (`Store`, `VectorObject`); the
  lemmas `view_...` show that both statements of a member agree.
-/

namespace HadVector

/-! ## Machine integers and the element type -/

/-- Largest value of `size_t` (`SIZE_MAX`, `std::numeric_limits<size_t>::max()`). -/
def SIZE_MAX : Nat := 2 ^ 64 - 1

/-- Value of an exact natural number once stored in a `size_t` (unsigned wrap-around). -/
def to_size_t (n : Nat) : Nat := n % (SIZE_MAX + 1)

/-- Subtraction `a - b` as performed on two `size_t` values: the exact difference when
`b <= a`, and the difference wrapped around `SIZE_MAX + 1` otherwise. -/
def size_t_sub (a b : Nat) : Nat :=
  if b ≤ a then a - b else to_size_t (a + (SIZE_MAX + 1) - b)

/-- Compile-time facts about the element type `T` that the source queries:
`sizeof(T)` and the two type traits `relocate` dispatches on. -/
class ElemType (T : Type) where
  /-- The value of `sizeof(T)`; positive for every C++ object type. -/
  sizeof : Nat
  sizeof_pos : 0 < sizeof
  /-- The value of `sizeof(T)` is itself a `size_t`. -/
  sizeof_le : sizeof ≤ SIZE_MAX
  /-- The value of `std::is_nothrow_move_constructible_v<T>`. -/
  is_nothrow_move_constructible : Bool
  /-- The value of `std::is_copy_constructible_v<T>`. -/
  is_copy_constructible : Bool

/-- The element type `int`. -/
instance : ElemType Int where
  sizeof := 4
  sizeof_pos := by decide
  sizeof_le := by decide
  is_nothrow_move_constructible := true
  is_copy_constructible := true

/-- The element type `bool`, an element type with `sizeof(T) == 1`. -/
instance : ElemType Bool where
  sizeof := 1
  sizeof_pos := by decide
  sizeof_le := by decide
  is_nothrow_move_constructible := true
  is_copy_constructible := true

/-! ## Storage requests -/

/-- One call to the global allocation functions. -/
inductive HeapCall where
  /-- The call `operator new(bytes, align)`. -/
  | operator_new (bytes : Nat)
  /-- The call `operator delete(&data_[offset], bytes, align)` on the block held in
  `data_` at the time of the call. -/
  | operator_delete (offset bytes : Nat)
  /-- The call `operator delete(new_data, bytes, align)` on the block just acquired. -/
  | operator_delete_new_data (bytes : Nat)
  /-- The call `operator delete(&p, bytes, align)` whose first argument is the address
  of a pointer variable (`&data_`, `&new_data`), not the block it points to. -/
  | operator_delete_pointer (bytes : Nat)
  deriving DecidableEq, Repr

/-- The storage requests issued so far, oldest first. -/
abbrev Heap := List HeapCall

/-- The call `reinterpret_cast<T*>(operator new(bytes, align))`: a fresh block of raw
slots, as many as fit in `bytes`, and the log with the request appended. -/
def operator_new {T : Type} [ElemType T] (heap : Heap) (bytes : Nat) :
    List (Option T) × Heap :=
  (List.replicate (bytes / ElemType.sizeof T) none, heap ++ [HeapCall.operator_new bytes])

/-- The ways a call ends other than by returning. -/
inductive Exception where
  /-- The container threw `std::length_error`. -/
  | length_error
  /-- The container threw `std::out_of_range`. -/
  | out_of_range
  /-- An exception thrown by an operation of the element type. -/
  | element_failure
  /-- Not an exception: the call handed `operator delete` a pointer that `operator new`
  never returned, so its behaviour is undefined and execution does not continue. -/
  | undefined_behaviour
  deriving DecidableEq, Repr

/-! ## The container -/

/-- The data members of `Vector<T>`. -/
structure Vector (T : Type) where
  /-- The block `data_` points to, slot by slot; `[]` for `nullptr`. -/
  data_ : List (Option T)
  size_ : Nat
  capacity_ : Nat
  deriving DecidableEq, Repr

/-- A position in the block: the offset of the iterator's `ptr_` from `data_`. -/
structure Iterator where
  ptr_ : Nat
  deriving DecidableEq, Repr

/-- The expression `it + n`. -/
def Iterator.add (it : Iterator) (n : Nat) : Iterator := ⟨it.ptr_ + n⟩

/-- The expression `static_cast<size_t>(a - b)` for two iterators into one block. -/
def Iterator.sub (a b : Iterator) : Nat := size_t_sub a.ptr_ b.ptr_

namespace Vector

variable {T : Type} [ElemType T]

/-- The constructor `Vector()`. -/
def ctor_default : Vector T := { data_ := [], size_ := 0, capacity_ := 0 }

/-- The member `operator[]`: the slot `data_[position]`. -/
def operator_subscript (v : Vector T) (position : Nat) : Option T :=
  v.data_.getD position none

/-- The member `size()`. -/
def size (v : Vector T) : Nat := v.size_

/-- The member `capacity()`. -/
def capacity (v : Vector T) : Nat := v.capacity_

/-- The member `empty()`. -/
def empty (v : Vector T) : Bool := v.size_ == 0

/-- The member `max_size()`. -/
def max_size (_v : Vector T) : Nat := SIZE_MAX / ElemType.sizeof T

/-- The member `begin()`. -/
def begin (_v : Vector T) : Iterator := ⟨0⟩

/-- The member `end()`. -/
def end_ (v : Vector T) : Iterator := ⟨v.size_⟩

/-- The private member `new_possible_capacity()`. -/
def new_possible_capacity (v : Vector T) : Nat :=
  if v.capacity_ < SIZE_MAX / 2 then
    max 1 (min v.max_size (to_size_t (2 * v.capacity_)))
  else
    v.max_size

/-- The population loop of `relocate`,
`for (i = 0; i < size_; ++i) new(&new_data[i]) T(data_[i])`. -/
def relocate_loop (data : List (Option T)) (size : Nat) (new_data : List (Option T)) :
    List (Option T) :=
  (List.range size).foldl (fun nd i => nd.set i (data.getD i none)) new_data

/-- The private member `relocate(new_data, new_capacity)`.  The three branches
populate the new block in the same way and differ in the release they request.  The
two moving branches request `operator delete(&data_[size_], ...)` when
`capacity_ != size_`: for `size_ == 0` that pointer is the start of the old block, and
for any other `size_` it points into the block, so the behaviour of the call is
undefined; the members are then still the ones `relocate` was entered with, the two
assignments that end the function not being reached. -/
def relocate (v : Vector T) (heap : Heap) (new_data : List (Option T))
    (new_capacity : Nat) : Except Exception Unit × Vector T × Heap :=
  let relocated : Vector T :=
    { data_ := relocate_loop v.data_ v.size_ new_data,
      size_ := v.size_,
      capacity_ := new_capacity }
  let release_tail : Except Exception Unit × Vector T × Heap :=
    if v.capacity_ ≠ v.size_ then
      let heap1 : Heap :=
        heap ++ [HeapCall.operator_delete v.size_
          (to_size_t (size_t_sub v.capacity_ v.size_ * ElemType.sizeof T))]
      if v.size_ = 0 then (Except.ok (), relocated, heap1)
      else (Except.error Exception.undefined_behaviour, v, heap1)
    else (Except.ok (), relocated, heap)
  if ElemType.is_nothrow_move_constructible T then release_tail
  else if ElemType.is_copy_constructible T then
    (Except.ok (), relocated,
     heap ++ [HeapCall.operator_delete 0 (to_size_t (v.capacity_ * ElemType.sizeof T))])
  else release_tail

/-- The growth step shared by the appending members:
`if (size_ == capacity_) { acquire new_possible_capacity() slots; relocate }`.
Here `relocate` is entered with `size_ == capacity_`, where none of its branches
requests the release of `&data_[size_]`, so the call always returns and the step yields
the members and the log it leaves. -/
def grow_if_full (v : Vector T) (heap : Heap) : Vector T × Heap :=
  if v.size_ = v.capacity_ then
    let new_capacity := v.new_possible_capacity
    let acquired : List (Option T) × Heap :=
      operator_new heap (to_size_t (ElemType.sizeof T * new_capacity))
    (v.relocate acquired.2 acquired.1 new_capacity).2
  else (v, heap)

/-- The member `push_back(const T&)`. -/
def push_back (v : Vector T) (heap : Heap) (value : T) : Vector T × Heap :=
  let grown := v.grow_if_full heap
  ({ grown.1 with
       data_ := grown.1.data_.set grown.1.size_ (some value),
       size_ := to_size_t (grown.1.size_ + 1) }, grown.2)

/-- A series of `push_back` calls, one per value, in order. -/
def push_back_all (v : Vector T) (heap : Heap) : List T → Vector T × Heap
  | [] => (v, heap)
  | value :: rest => push_back_all (v.push_back heap value).1 (v.push_back heap value).2 rest

/-- The shifting loop of `insert`,
`for (i = start; i > index; --i) data_[i] = data_[i - 1]`. -/
def insert_shift (index : Nat) : Nat → List (Option T) → List (Option T)
  | 0, data => data
  | i + 1, data =>
    if i + 1 > index then insert_shift index i (data.set (i + 1) (data.getD i none))
    else data

/-- The member `insert(const Iterator pos, const T& value)`. -/
def insert (v : Vector T) (heap : Heap) (pos : Iterator) (value : T) :
    Iterator × Vector T × Heap :=
  let index := pos.sub v.begin
  let grown := v.grow_if_full heap
  let w := grown.1
  let placed : Vector T × Heap :=
    if index = w.size_ then
      w.push_back grown.2 value
    else
      let constructed := w.data_.set w.size_ (w.data_.getD (size_t_sub w.size_ 1) none)
      let shifted := insert_shift index (size_t_sub w.size_ 1) constructed
      ({ w with data_ := shifted.set index (some value) }, grown.2)
  let result : Vector T := { placed.1 with size_ := to_size_t (placed.1.size_ + 1) }
  (result.begin.add index, result, placed.2)

/-- The member `pop_back()`, `data_[--size_].~T()`. -/
def pop_back (v : Vector T) : Vector T :=
  let last := size_t_sub v.size_ 1
  { v with data_ := v.data_.set last none, size_ := last }

/-- The shifting loop of `erase`,
`for (i = index; i < size_ - 1; ++i) data_[i] = std::move(data_[i + 1])`. -/
def erase_shift (index bound : Nat) (data : List (Option T)) : List (Option T) :=
  (List.range' index (bound - index)).foldl (fun d i => d.set i (d.getD (i + 1) none)) data

/-- The member `erase(const Iterator pos)`. -/
def erase (v : Vector T) (pos : Iterator) : Iterator × Vector T :=
  let index := pos.sub v.begin
  if index = size_t_sub v.size_ 1 then
    let w := v.pop_back
    (w.end_, w)
  else
    let w : Vector T :=
      { v with
          data_ := erase_shift index (size_t_sub v.size_ 1) v.data_,
          size_ := size_t_sub v.size_ 1 }
    (w.begin.add index, w)

/-- The member `reserve(new_cap)`. -/
def reserve (v : Vector T) (heap : Heap) (new_cap : Nat) :
    Except Exception Unit × Vector T × Heap :=
  if new_cap ≤ v.capacity_ then
    (Except.ok (), v, heap)
  else if new_cap > v.max_size then
    (Except.error Exception.length_error, v, heap)
  else
    let acquired : List (Option T) × Heap :=
      operator_new heap (to_size_t (ElemType.sizeof T * new_cap))
    v.relocate acquired.2 acquired.1 new_cap

/-- The member `at(position)`: the element read, or the error thrown, together with
the object after the call. -/
def at_ (v : Vector T) (position : Nat) : Except Exception (Option T) × Vector T :=
  if position ≥ v.size_ then
    (Except.error Exception.out_of_range, v)
  else
    (Except.ok (v.data_.getD position none), v)

/-- The population loop of the list constructor,
`for (const auto& current : init) new (&new_data[i++]) T(current)`. -/
def fill_from_list (init : List T) (new_data : List (Option T)) : List (Option T) × Nat :=
  init.foldl (fun st current => (st.1.set st.2 (some current), st.2 + 1)) (new_data, 0)

/-- The constructor `Vector(std::initializer_list<T> init)`. -/
def ctor_initializer_list (heap : Heap) (init : List T) :
    Except Exception (Vector T) × Heap :=
  let new_size := to_size_t init.length
  if new_size > (ctor_default : Vector T).max_size then
    (Except.error Exception.length_error, heap)
  else
    let acquired : List (Option T) × Heap :=
      operator_new heap (to_size_t (ElemType.sizeof T * new_size))
    let new_data := (fill_from_list init acquired.1).1
    (Except.ok { data_ := new_data, size_ := new_size, capacity_ := new_size }, acquired.2)

/-- The construction loop `for (i = first; i < last; ++i) new (&data[i]) T(value)`. -/
def fill_loop (first last : Nat) (value : T) (data : List (Option T)) : List (Option T) :=
  (List.range' first (last - first)).foldl (fun d i => d.set i (some value)) data

/-- The destruction loop `for (i = first; i < last; ++i) data_[i].~T()`. -/
def destroy_loop (first last : Nat) (data : List (Option T)) : List (Option T) :=
  (List.range' first (last - first)).foldl (fun d i => d.set i none) data

/-- The constructor `Vector(size_t count, const T& value)`. -/
def ctor_fill (heap : Heap) (count : Nat) (value : T) : Except Exception (Vector T) × Heap :=
  if count > 0 then
    if count > (ctor_default : Vector T).max_size then
      (Except.error Exception.length_error, heap)
    else
      let acquired : List (Option T) × Heap :=
        operator_new heap (to_size_t (ElemType.sizeof T * count))
      (Except.ok { data_ := fill_loop 0 count value acquired.1,
                   size_ := count, capacity_ := count }, acquired.2)
  else (Except.ok ctor_default, heap)

/-- The constructor `Vector(size_t n)`; every element is the value of `T()`. -/
def ctor_count [Inhabited T] (heap : Heap) (n : Nat) : Except Exception (Vector T) × Heap :=
  if n > 0 then
    if n > (ctor_default : Vector T).max_size then
      (Except.error Exception.length_error, heap)
    else
      let acquired : List (Option T) × Heap :=
        operator_new heap (to_size_t (ElemType.sizeof T * n))
      (Except.ok { data_ := fill_loop 0 n default acquired.1,
                   size_ := n, capacity_ := n }, acquired.2)
  else (Except.ok ctor_default, heap)

/-- The constructor `Vector(const Vector& other)`. -/
def ctor_copy (heap : Heap) (other : Vector T) : Except Exception (Vector T) × Heap :=
  if other.size_ > 0 then
    if other.size_ > (ctor_default : Vector T).max_size then
      (Except.error Exception.length_error, heap)
    else
      let acquired : List (Option T) × Heap :=
        operator_new heap (to_size_t (ElemType.sizeof T * other.size_))
      (Except.ok { data_ := relocate_loop other.data_ other.size_ acquired.1,
                   size_ := other.size_, capacity_ := other.size_ }, acquired.2)
  else (Except.ok ctor_default, heap)

/-- The constructor `Vector(Vector&& other)`: the new object, and `other` after the
call. -/
def ctor_move (other : Vector T) : Vector T × Vector T :=
  ({ data_ := other.data_, size_ := other.size_, capacity_ := other.capacity_ },
   { data_ := [], size_ := 0, capacity_ := 0 })

/-- The three calls `std::swap(data_, other.data_)`, `std::swap(size_, other.size_)`,
`std::swap(capacity_, other.capacity_)`: `*this` and `other` after them. -/
def swap_members (v other : Vector T) : Vector T × Vector T :=
  let v1 : Vector T := { v with data_ := other.data_ }
  let o1 : Vector T := { other with data_ := v.data_ }
  let v2 : Vector T := { v1 with size_ := o1.size_ }
  let o2 : Vector T := { o1 with size_ := v1.size_ }
  ({ v2 with capacity_ := o2.capacity_ }, { o2 with capacity_ := v2.capacity_ })

/-- The member `operator=(Vector&& other)`: `*this` and `other` after the call. -/
def operator_assign_move (v other : Vector T) : Vector T × Vector T :=
  swap_members v other

/-- The member `clear()`: a single `operator delete(&data_, size_ * sizeof(T), align)`. -/
def clear (v : Vector T) (heap : Heap) : Vector T × Heap :=
  (v, heap ++ [HeapCall.operator_delete_pointer (to_size_t (v.size_ * ElemType.sizeof T))])

/-- The non-member `operator==(lhs, rhs)`. -/
def operator_eq [DecidableEq T] (lhs rhs : Vector T) : Bool :=
  if lhs.size ≠ rhs.size then false
  else (List.range lhs.size).all
    (fun i => decide (lhs.operator_subscript i = rhs.operator_subscript i))

/-- The member `resize(size_t count, const T& value)`. -/
def resize_value (v : Vector T) (heap : Heap) (count : Nat) (value : T) : Vector T × Heap :=
  if count < v.size_ then
    ({ v with data_ := destroy_loop count v.size_ v.data_, size_ := count }, heap)
  else if count ≤ v.capacity_ then
    ({ v with data_ := fill_loop v.size_ count value v.data_, size_ := count }, heap)
  else if v.capacity_ < count then
    let acquired : List (Option T) × Heap :=
      operator_new heap (to_size_t (ElemType.sizeof T * count))
    let copied := relocate_loop v.data_ v.size_ acquired.1
    ({ data_ := fill_loop v.size_ count value copied, size_ := count, capacity_ := count },
     acquired.2)
  else ({ v with size_ := count }, heap)

/-- The destructor `~Vector()`: the object after it, and the log with its
`operator delete(data_, capacity_ * sizeof(T), align)`. -/
def destructor (v : Vector T) (heap : Heap) : Vector T × Heap :=
  ({ data_ := [], size_ := 0, capacity_ := 0 },
   heap ++ [HeapCall.operator_delete 0 (to_size_t (v.capacity_ * ElemType.sizeof T))])

/-- The member `resize(size_t count)`.  In the growing branch the local `new_vector`
receives the block of the temporary `Vector(count)` by move assignment and the
temporary is destroyed; `relocate` then makes `data_` point to the block of
`new_vector`, and the destructor of `new_vector`, which runs when the branch is left,
passes that same block to `operator delete`: its slots are raw storage from then on.
When `Vector(count)` throws, the still empty `new_vector` is destroyed while the
exception propagates. -/
def resize [Inhabited T] (v : Vector T) (heap : Heap) (count : Nat) :
    Except Exception Unit × Vector T × Heap :=
  if v.size_ > count then
    (Except.ok (), { v with data_ := destroy_loop count v.size_ v.data_, size_ := count }, heap)
  else if count ≤ v.capacity_ then
    (Except.ok (), { v with data_ := fill_loop v.size_ count default v.data_, size_ := count },
     heap)
  else if v.capacity_ < count then
    match (ctor_count heap count : Except Exception (Vector T) × Heap) with
    | (Except.error e, heap1) =>
      (Except.error e, v, (destructor (ctor_default : Vector T) heap1).2)
    | (Except.ok temporary, heap1) =>
      let assigned := operator_assign_move (ctor_default : Vector T) temporary
      let new_vector := assigned.1
      let heap2 := (destructor assigned.2 heap1).2
      match v.relocate heap2 new_vector.data_ count with
      | (Except.error e, w, heap3) => (Except.error e, w, heap3)
      | (Except.ok (), w, heap3) =>
        (Except.ok (),
         { data_ := List.replicate w.data_.length none,
           size_ := count, capacity_ := w.capacity_ },
         (destructor new_vector heap3).2)
  else (Except.ok (), { v with size_ := count }, heap)

/-- The member `push_back(T&&)`. -/
def push_back_move (v : Vector T) (heap : Heap) (value : T) : Vector T × Heap :=
  let grown := v.grow_if_full heap
  ({ grown.1 with
       data_ := grown.1.data_.set grown.1.size_ (some value),
       size_ := to_size_t (grown.1.size_ + 1) }, grown.2)

/-- The member `emplace_back(args...)`, with `value` the object `T(args...)` builds:
the offset of the slot the returned reference designates, and the object after the
call. -/
def emplace_back (v : Vector T) (heap : Heap) (value : T) : Nat × Vector T × Heap :=
  let grown := v.grow_if_full heap
  (grown.1.size_,
   { grown.1 with
       data_ := grown.1.data_.set grown.1.size_ (some value),
       size_ := to_size_t (grown.1.size_ + 1) }, grown.2)

/-- The member `insert(const Iterator pos, T&& value)`. -/
def insert_move (v : Vector T) (heap : Heap) (pos : Iterator) (value : T) :
    Iterator × Vector T × Heap :=
  let index := pos.sub v.begin
  let grown := v.grow_if_full heap
  let w := grown.1
  let placed : Vector T × Heap :=
    if index = w.size_ then
      w.push_back_move grown.2 value
    else
      let shifted := insert_shift index w.size_ w.data_
      ({ w with data_ := shifted.set index (some value) }, grown.2)
  let result : Vector T := { placed.1 with size_ := to_size_t (placed.1.size_ + 1) }
  (result.begin.add index, result, placed.2)

/-- The member `emplace(const Iterator pos, args...)`, with `value` the object
`T(args...)` builds. -/
def emplace (v : Vector T) (heap : Heap) (pos : Iterator) (value : T) :
    Iterator × Vector T × Heap :=
  let index := pos.sub v.begin
  if index = v.size_ then
    let appended := v.emplace_back heap value
    (⟨appended.1⟩, appended.2.1, appended.2.2)
  else
    v.insert_move heap pos value

/-! ## Element operations that may throw -/

/-- The population loop of the copy branch of `relocate`, inside its `try`, for an
element type whose copy constructor throws on the values `copy_throws` selects: the
block `new_data` as the loop leaves it, and whether the loop was left by a throw. -/
def try_copy_loop (copy_throws : T → Bool) (data : List (Option T)) :
    List Nat → List (Option T) → List (Option T) × Bool
  | [], new_data => (new_data, false)
  | i :: rest, new_data =>
    match data.getD i none with
    | some x =>
      if copy_throws x then (new_data, true)
      else try_copy_loop copy_throws data rest (new_data.set i (some x))
    | none => try_copy_loop copy_throws data rest (new_data.set i none)

/-- The private member `relocate(new_data, new_capacity)` when element construction may
throw: the outcome, the members, the log, and the block `new_data` as the call leaves
it.  A type that is nothrow-move-constructible is relocated as in `relocate`; a
copy-constructible type is copied inside `try`, and on a throw the handler releases
`new_data` and rethrows before any member is assigned, without touching the elements
already built in `new_data`; otherwise elements are moved, and on a throw the handler
only rethrows (the moved-from state of the elements already moved is not
represented). -/
def relocate_may_throw (copy_throws : T → Bool) (v : Vector T) (heap : Heap)
    (new_data : List (Option T)) (new_capacity : Nat) :
    Except Exception Unit × Vector T × Heap × List (Option T) :=
  if ElemType.is_nothrow_move_constructible T then
    let relocated := v.relocate heap new_data new_capacity
    (relocated.1, relocated.2.1, relocated.2.2, relocate_loop v.data_ v.size_ new_data)
  else if ElemType.is_copy_constructible T then
    let copied := try_copy_loop copy_throws v.data_ (List.range v.size_) new_data
    if copied.2 then
      (Except.error Exception.element_failure, v,
        heap ++ [HeapCall.operator_delete_new_data
          (to_size_t (new_capacity * ElemType.sizeof T))],
        copied.1)
    else
      (Except.ok (), { data_ := copied.1, size_ := v.size_, capacity_ := new_capacity },
        heap ++ [HeapCall.operator_delete 0 (to_size_t (v.capacity_ * ElemType.sizeof T))],
        copied.1)
  else
    let moved := try_copy_loop copy_throws v.data_ (List.range v.size_) new_data
    if moved.2 then (Except.error Exception.element_failure, v, heap, moved.1)
    else
      let relocated := v.relocate heap new_data new_capacity
      (relocated.1, relocated.2.1, relocated.2.2, moved.1)

/-- The member `reserve(new_cap)` when element construction may throw. -/
def reserve_may_throw (copy_throws : T → Bool) (v : Vector T) (heap : Heap) (new_cap : Nat) :
    Except Exception Unit × Vector T × Heap :=
  if new_cap ≤ v.capacity_ then
    (Except.ok (), v, heap)
  else if new_cap > v.max_size then
    (Except.error Exception.length_error, v, heap)
  else
    let acquired : List (Option T) × Heap :=
      operator_new heap (to_size_t (ElemType.sizeof T * new_cap))
    let relocated := relocate_may_throw copy_throws v acquired.2 acquired.1 new_cap
    (relocated.1, relocated.2.1, relocated.2.2.1)

/-- The member `push_back(const T&)` when element construction may throw during the
relocation that growth performs; the copy of `value` itself is taken to succeed. -/
def push_back_may_throw (copy_throws : T → Bool) (v : Vector T) (heap : Heap) (value : T) :
    Except Exception Unit × Vector T × Heap :=
  if v.size_ = v.capacity_ then
    let new_capacity := v.new_possible_capacity
    let acquired : List (Option T) × Heap :=
      operator_new heap (to_size_t (ElemType.sizeof T * new_capacity))
    match relocate_may_throw copy_throws v acquired.2 acquired.1 new_capacity with
    | (Except.error e, w, heap1, _) => (Except.error e, w, heap1)
    | (Except.ok (), w, heap1, _) =>
      (Except.ok (),
       { w with data_ := w.data_.set w.size_ (some value), size_ := to_size_t (w.size_ + 1) },
       heap1)
  else
    (Except.ok (),
     { v with data_ := v.data_.set v.size_ (some value), size_ := to_size_t (v.size_ + 1) },
     heap)

/-! ## Constructors whose element construction may throw

Each of these constructors builds its elements in a block it has just acquired, inside
`try`; the handler is `operator delete(&new_data, ...); throw;`.  The argument of that
`operator delete` is the address of the local pointer variable, not the block, so the
behaviour of the call is undefined and the `throw;` after it is not reached.  The
result of each model is the outcome, the log, and the block `new_data` as the
constructor leaves it (`[]` when it acquired none). -/

/-- A construction loop inside `try`, `new (&new_data[i]) T(...)` for the indices
listed, where `throws i` tells whether the construction of element `i` throws and
`source i` is the object it is built from: the block `new_data` as the loop leaves it,
and whether the loop was left by a throw. -/
def try_construct (throws : Nat → Bool) (source : Nat → Option T) :
    List Nat → List (Option T) → List (Option T) × Bool
  | [], new_data => (new_data, false)
  | i :: rest, new_data =>
    if throws i then (new_data, true)
    else try_construct throws source rest (new_data.set i (source i))

/-- The constructor `Vector(size_t count, const T& value)` when the copy constructor of
`T` may throw. -/
def ctor_fill_may_throw (throws : Nat → Bool) (heap : Heap) (count : Nat) (value : T) :
    Except Exception (Vector T) × Heap × List (Option T) :=
  if count > 0 then
    if count > (ctor_default : Vector T).max_size then
      (Except.error Exception.length_error, heap, [])
    else
      let acquired : List (Option T) × Heap :=
        operator_new heap (to_size_t (ElemType.sizeof T * count))
      let built := try_construct throws (fun _ => some value) (List.range count) acquired.1
      if built.2 then
        (Except.error Exception.undefined_behaviour,
         acquired.2 ++ [HeapCall.operator_delete_pointer
           (to_size_t (ElemType.sizeof T * count))],
         built.1)
      else
        (Except.ok { data_ := built.1, size_ := count, capacity_ := count }, acquired.2,
         built.1)
  else (Except.ok ctor_default, heap, [])

/-- The constructor `Vector(size_t n)` when the default constructor of `T` may throw. -/
def ctor_count_may_throw [Inhabited T] (throws : Nat → Bool) (heap : Heap) (n : Nat) :
    Except Exception (Vector T) × Heap × List (Option T) :=
  if n > 0 then
    if n > (ctor_default : Vector T).max_size then
      (Except.error Exception.length_error, heap, [])
    else
      let acquired : List (Option T) × Heap :=
        operator_new heap (to_size_t (ElemType.sizeof T * n))
      let built := try_construct throws (fun _ => some default) (List.range n) acquired.1
      if built.2 then
        (Except.error Exception.undefined_behaviour,
         acquired.2 ++ [HeapCall.operator_delete_pointer (to_size_t (ElemType.sizeof T * n))],
         built.1)
      else
        (Except.ok { data_ := built.1, size_ := n, capacity_ := n }, acquired.2, built.1)
  else (Except.ok ctor_default, heap, [])

/-- The constructor `Vector(InputIt first, InputIt last)` when the copy constructor of
`T` may throw; `input` lists the objects `*first` designates from `first` up to
`last`. -/
def ctor_range_may_throw (throws : Nat → Bool) (heap : Heap) (input : List T) :
    Except Exception (Vector T) × Heap × List (Option T) :=
  let new_size := to_size_t input.length
  if new_size > (ctor_default : Vector T).max_size then
    (Except.error Exception.length_error, heap, [])
  else
    let acquired : List (Option T) × Heap :=
      operator_new heap (to_size_t (ElemType.sizeof T * new_size))
    let built := try_construct throws (fun i => input[i]?) (List.range input.length) acquired.1
    if built.2 then
      (Except.error Exception.undefined_behaviour,
       acquired.2 ++ [HeapCall.operator_delete_pointer
         (to_size_t (ElemType.sizeof T * new_size))],
       built.1)
    else
      (Except.ok { data_ := built.1, size_ := new_size, capacity_ := new_size }, acquired.2,
       built.1)

/-- The constructor `Vector(const Vector& other)` when the copy constructor of `T` may
throw. -/
def ctor_copy_may_throw (throws : Nat → Bool) (heap : Heap) (other : Vector T) :
    Except Exception (Vector T) × Heap × List (Option T) :=
  if other.size_ > 0 then
    if other.size_ > (ctor_default : Vector T).max_size then
      (Except.error Exception.length_error, heap, [])
    else
      let acquired : List (Option T) × Heap :=
        operator_new heap (to_size_t (ElemType.sizeof T * other.size_))
      let built := try_construct throws (fun i => other.operator_subscript i)
        (List.range other.size_) acquired.1
      if built.2 then
        (Except.error Exception.undefined_behaviour,
         acquired.2 ++ [HeapCall.operator_delete_pointer
           (to_size_t (ElemType.sizeof T * other.size_))],
         built.1)
      else
        (Except.ok { data_ := built.1, size_ := other.size_, capacity_ := other.size_ },
         acquired.2, built.1)
  else (Except.ok ctor_default, heap, [])

/-- The constructor `Vector(std::initializer_list<T> init)` when the constructor of `T`
it uses may throw; its three loops, selected by the traits of `T`, build the same
elements. -/
def ctor_initializer_list_may_throw (throws : Nat → Bool) (heap : Heap) (init : List T) :
    Except Exception (Vector T) × Heap × List (Option T) :=
  let new_size := to_size_t init.length
  if new_size > (ctor_default : Vector T).max_size then
    (Except.error Exception.length_error, heap, [])
  else
    let acquired : List (Option T) × Heap :=
      operator_new heap (to_size_t (ElemType.sizeof T * new_size))
    let built := try_construct throws (fun i => init[i]?) (List.range init.length) acquired.1
    if built.2 then
      (Except.error Exception.undefined_behaviour,
       acquired.2 ++ [HeapCall.operator_delete_pointer
         (to_size_t (ElemType.sizeof T * new_size))],
       built.1)
    else
      (Except.ok { data_ := built.1, size_ := new_size, capacity_ := new_size }, acquired.2,
       built.1)

end Vector

/-! ## Objects in one free store

In the definitions above every object carries the contents of its own block, so two
objects never share storage.  To tell a copy that owns its elements from one that
shares them with its source, the members a copy and its later modification involve are
also stated over a free store that holds the blocks of all objects, with `data_` the
address of a block in it. -/

/-- The free store: the contents of the blocks `operator new` has returned so far.  The
address of a block is its position in the list. -/
abbrev Store (T : Type) := List (List (Option T))

namespace Store

variable {T : Type} [ElemType T]

/-- The block a pointer designates; the pointer `none` is `nullptr`. -/
def block (store : Store T) : Option Nat → List (Option T)
  | none => []
  | some address => store.getD address []

/-- The store after the block a pointer designates received the contents given. -/
def write (store : Store T) : Option Nat → List (Option T) → Store T
  | none, _ => store
  | some address, contents => store.set address contents

/-- The call `reinterpret_cast<T*>(operator new(bytes, align))`: the address of a block
of raw slots that no earlier call returned, and the store that holds it. -/
def operator_new (store : Store T) (bytes : Nat) : Option Nat × Store T :=
  (some store.length, store ++ [List.replicate (bytes / ElemType.sizeof T) none])

/-- The call `operator delete(p, bytes, align)` on the start of a block: every slot of
the block is raw storage from then on. -/
def operator_delete (store : Store T) (p : Option Nat) : Store T :=
  store.write p (List.replicate (store.block p).length none)

end Store

/-- A `Vector<T>` object whose `data_` is the address of a block in the free store. -/
structure VectorObject (T : Type) where
  data_ : Option Nat
  size_ : Nat
  capacity_ : Nat
  deriving DecidableEq, Repr

namespace VectorObject

variable {T : Type} [ElemType T]

/-- The object with the contents of the block `data_` points to, as the members stated
on `Vector` see it. -/
def view (o : VectorObject T) (store : Store T) : Vector T :=
  { data_ := store.block o.data_, size_ := o.size_, capacity_ := o.capacity_ }

/-- The constructor `Vector()`. -/
def ctor_default : VectorObject T := { data_ := none, size_ := 0, capacity_ := 0 }

/-- The member `max_size()`. -/
def max_size (_o : VectorObject T) : Nat := SIZE_MAX / ElemType.sizeof T

/-- The member `begin()`. -/
def begin (_o : VectorObject T) : Iterator := ⟨0⟩

/-- The member `end()`. -/
def end_ (o : VectorObject T) : Iterator := ⟨o.size_⟩

/-- The private member `new_possible_capacity()`. -/
def new_possible_capacity (o : VectorObject T) : Nat :=
  if o.capacity_ < SIZE_MAX / 2 then
    max 1 (min o.max_size (to_size_t (2 * o.capacity_)))
  else
    o.max_size

/-- The constructor `Vector(const Vector& other)`: the new object and the store after
the call. -/
def ctor_copy (store : Store T) (other : VectorObject T) :
    Except Exception (VectorObject T) × Store T :=
  if other.size_ > 0 then
    if other.size_ > other.max_size then
      (Except.error Exception.length_error, store)
    else
      let acquired := store.operator_new (to_size_t (ElemType.sizeof T * other.size_))
      let new_data := acquired.1
      let copied := Vector.relocate_loop (acquired.2.block other.data_) other.size_
        (acquired.2.block new_data)
      (Except.ok { data_ := new_data, size_ := other.size_, capacity_ := other.size_ },
       acquired.2.write new_data copied)
  else (Except.ok ctor_default, store)

/-- The assignment `v[position] = value` through the member `operator[]`. -/
def operator_subscript_assign (o : VectorObject T) (store : Store T) (position : Nat)
    (value : T) : VectorObject T × Store T :=
  (o, store.write o.data_ ((store.block o.data_).set position (some value)))

/-- The private member `relocate(new_data, new_capacity)`. -/
def relocate (o : VectorObject T) (store : Store T) (new_data : Option Nat)
    (new_capacity : Nat) : Except Exception Unit × VectorObject T × Store T :=
  let populated : Store T :=
    store.write new_data (Vector.relocate_loop (store.block o.data_) o.size_ (store.block new_data))
  let relocated : VectorObject T :=
    { data_ := new_data, size_ := o.size_, capacity_ := new_capacity }
  let release_tail : Except Exception Unit × VectorObject T × Store T :=
    if o.capacity_ ≠ o.size_ then
      if o.size_ = 0 then (Except.ok (), relocated, populated.operator_delete o.data_)
      else (Except.error Exception.undefined_behaviour, o, populated)
    else (Except.ok (), relocated, populated)
  if ElemType.is_nothrow_move_constructible T then release_tail
  else if ElemType.is_copy_constructible T then
    (Except.ok (), relocated, populated.operator_delete o.data_)
  else release_tail

/-- The growth step shared by the appending members:
`if (size_ == capacity_) { acquire new_possible_capacity() slots; relocate }`. -/
def grow_if_full (o : VectorObject T) (store : Store T) : VectorObject T × Store T :=
  if o.size_ = o.capacity_ then
    let new_capacity := o.new_possible_capacity
    let acquired := store.operator_new (to_size_t (ElemType.sizeof T * new_capacity))
    (o.relocate acquired.2 acquired.1 new_capacity).2
  else (o, store)

/-- The member `push_back(const T&)`. -/
def push_back (o : VectorObject T) (store : Store T) (value : T) : VectorObject T × Store T :=
  let grown := o.grow_if_full store
  ({ grown.1 with size_ := to_size_t (grown.1.size_ + 1) },
   grown.2.write grown.1.data_ ((grown.2.block grown.1.data_).set grown.1.size_ (some value)))

/-- The member `pop_back()`, `data_[--size_].~T()`. -/
def pop_back (o : VectorObject T) (store : Store T) : VectorObject T × Store T :=
  let last := size_t_sub o.size_ 1
  ({ o with size_ := last }, store.write o.data_ ((store.block o.data_).set last none))

/-- The member `erase(const Iterator pos)`. -/
def erase (o : VectorObject T) (store : Store T) (pos : Iterator) :
    Iterator × VectorObject T × Store T :=
  let index := pos.sub o.begin
  if index = size_t_sub o.size_ 1 then
    let popped := o.pop_back store
    (popped.1.end_, popped.1, popped.2)
  else
    let w : VectorObject T := { o with size_ := size_t_sub o.size_ 1 }
    (w.begin.add index, w,
     store.write o.data_ (Vector.erase_shift index (size_t_sub o.size_ 1) (store.block o.data_)))

/-- The member `resize(size_t count, const T& value)`. -/
def resize_value (o : VectorObject T) (store : Store T) (count : Nat) (value : T) :
    VectorObject T × Store T :=
  if count < o.size_ then
    ({ o with size_ := count },
     store.write o.data_ (Vector.destroy_loop count o.size_ (store.block o.data_)))
  else if count ≤ o.capacity_ then
    ({ o with size_ := count },
     store.write o.data_ (Vector.fill_loop o.size_ count value (store.block o.data_)))
  else if o.capacity_ < count then
    let acquired := store.operator_new (to_size_t (ElemType.sizeof T * count))
    let new_data := acquired.1
    let copied := Vector.relocate_loop (acquired.2.block o.data_) o.size_ (acquired.2.block new_data)
    ({ data_ := new_data, size_ := count, capacity_ := count },
     acquired.2.write new_data (Vector.fill_loop o.size_ count value copied))
  else ({ o with size_ := count }, store)

/-- The constructor `Vector(size_t n)`; every element is the value of `T()`. -/
def ctor_count [Inhabited T] (store : Store T) (n : Nat) :
    Except Exception (VectorObject T) × Store T :=
  if n > 0 then
    if n > (ctor_default : VectorObject T).max_size then
      (Except.error Exception.length_error, store)
    else
      let acquired := store.operator_new (to_size_t (ElemType.sizeof T * n))
      let new_data := acquired.1
      (Except.ok { data_ := new_data, size_ := n, capacity_ := n },
       acquired.2.write new_data (Vector.fill_loop 0 n default (acquired.2.block new_data)))
  else (Except.ok ctor_default, store)

/-- The member `operator=(Vector&& other)`, three `std::swap` calls: `*this` and `other`
after the call. -/
def operator_assign_move (o other : VectorObject T) : VectorObject T × VectorObject T :=
  let o1 : VectorObject T := { o with data_ := other.data_ }
  let other1 : VectorObject T := { other with data_ := o.data_ }
  let o2 : VectorObject T := { o1 with size_ := other1.size_ }
  let other2 : VectorObject T := { other1 with size_ := o1.size_ }
  ({ o2 with capacity_ := other2.capacity_ }, { other2 with capacity_ := o2.capacity_ })

/-- The destructor `~Vector()`. -/
def destructor (o : VectorObject T) (store : Store T) : VectorObject T × Store T :=
  ({ data_ := none, size_ := 0, capacity_ := 0 }, store.operator_delete o.data_)

/-- The member `resize(size_t count)`. -/
def resize [Inhabited T] (o : VectorObject T) (store : Store T) (count : Nat) :
    Except Exception Unit × VectorObject T × Store T :=
  if o.size_ > count then
    (Except.ok (), { o with size_ := count },
     store.write o.data_ (Vector.destroy_loop count o.size_ (store.block o.data_)))
  else if count ≤ o.capacity_ then
    (Except.ok (), { o with size_ := count },
     store.write o.data_ (Vector.fill_loop o.size_ count default (store.block o.data_)))
  else if o.capacity_ < count then
    match (ctor_count store count : Except Exception (VectorObject T) × Store T) with
    | (Except.error e, store1) =>
      (Except.error e, o, (destructor (ctor_default : VectorObject T) store1).2)
    | (Except.ok temporary, store1) =>
      let assigned := operator_assign_move (ctor_default : VectorObject T) temporary
      let new_vector := assigned.1
      let store2 := (destructor assigned.2 store1).2
      match o.relocate store2 new_vector.data_ count with
      | (Except.error e, w, store3) => (Except.error e, w, store3)
      | (Except.ok (), w, store3) =>
        (Except.ok (), { w with size_ := count }, (destructor new_vector store3).2)
  else (Except.ok (), { o with size_ := count }, store)

end VectorObject

/-- A call that modifies a container. -/
inductive Mutation (T : Type) where
  /-- The call `push_back(value)`. -/
  | push_back (value : T)
  /-- The assignment `v[position] = value`. -/
  | assign (position : Nat) (value : T)
  /-- The call `erase(pos)`. -/
  | erase (pos : Iterator)
  /-- The call `resize(count)`. -/
  | resize (count : Nat)
  /-- The call `resize(count, value)`. -/
  | resize_value (count : Nat) (value : T)

namespace VectorObject

variable {T : Type} [ElemType T]

/-- The outcome of a modifying call on the object, the object after it and the store
after it. -/
def mutate [Inhabited T] (o : VectorObject T) (store : Store T) :
    Mutation T → Except Exception Unit × VectorObject T × Store T
  | Mutation.push_back value => (Except.ok (), o.push_back store value)
  | Mutation.assign position value =>
    (Except.ok (), o.operator_subscript_assign store position value)
  | Mutation.erase pos => (Except.ok (), (o.erase store pos).2)
  | Mutation.resize count => o.resize store count
  | Mutation.resize_value count value => (Except.ok (), o.resize_value store count value)

/-- Whether an outcome is undefined behaviour, after which execution does not continue. -/
def is_undefined : Except Exception Unit → Bool
  | Except.error Exception.undefined_behaviour => true
  | _ => false

/-- A series of modifying calls on one object, in order: the object and the store when
the series has run, or when the behaviour of one of the calls is undefined.  After a
call that throws, the series goes on with the next call. -/
def mutate_all [Inhabited T] (o : VectorObject T) (store : Store T) :
    List (Mutation T) → VectorObject T × Store T
  | [] => (o, store)
  | call :: rest =>
    if is_undefined (o.mutate store call).1 then (o.mutate store call).2
    else mutate_all (o.mutate store call).2.1 (o.mutate store call).2.2 rest

end VectorObject

/-- A free store with one block, the one of `Vector<int>{1, 2, 3}`. -/
def store_123 : Store Int := [[some 1, some 2, some 3]]

/-- The object `Vector<int>{1, 2, 3}` in `store_123`. -/
def object_123 : VectorObject Int := { data_ := some 0, size_ := 3, capacity_ := 3 }

namespace Vector

variable {T : Type} [ElemType T]

/-! ## Representation predicates -/

/-- The container holds exactly the elements `xs`, in order: `size()` is their number
and slot `i` holds a live object of value `xs[i]` for every `i < size()`. -/
def Holds (v : Vector T) (xs : List T) : Prop :=
  v.size_ = xs.length ∧ v.data_.take v.size_ = xs.map some

/-! ## Concrete containers used as inputs -/

end Vector

/-- The value of `Vector<int>{1, 2, 3}`. -/
def int_123 : Vector Int := { data_ := [some 1, some 2, some 3], size_ := 3, capacity_ := 3 }

/-- The value of `Vector<int>{4}`. -/
def int_4 : Vector Int := { data_ := [some 4], size_ := 1, capacity_ := 1 }

/-- An element type that is copy-constructible and not nothrow-move-constructible, so
that `relocate` copies it; `tag` identifies the value. -/
structure CopyOnly where
  tag : Nat
  deriving DecidableEq, Repr, Inhabited

/-- The element type `CopyOnly`. -/
instance : ElemType CopyOnly where
  sizeof := 8
  sizeof_pos := by decide
  sizeof_le := by decide
  is_nothrow_move_constructible := false
  is_copy_constructible := true

/-- A full `Vector<CopyOnly>` holding the values tagged 1, 2, 3. -/
def copy_only_123 : Vector CopyOnly :=
  { data_ := [some ⟨1⟩, some ⟨2⟩, some ⟨3⟩], size_ := 3, capacity_ := 3 }

/-- A `Vector<bool>` with no elements whose block has `SIZE_MAX / 2` slots. -/
def bool_half : Vector Bool :=
  { data_ := List.replicate (2 ^ 63 - 1) none, size_ := 0, capacity_ := 2 ^ 63 - 1 }

namespace Vector

variable {T : Type} [ElemType T]

/-! ## Arithmetic of `size_t`, `max_size()` and the growth policy -/

theorem to_size_t_of_le {n : Nat} (h : n ≤ SIZE_MAX) : to_size_t n = n := by
  unfold to_size_t
  exact Nat.mod_eq_of_lt (by omega)

theorem size_t_sub_of_le {a b : Nat} (hb : b ≤ a) :
    size_t_sub a b = a - b := by
  unfold size_t_sub
  rw [if_pos hb]

theorem max_size_le (v : Vector T) : v.max_size ≤ SIZE_MAX := by
  unfold max_size
  exact Nat.div_le_self _ _

theorem sizeof_mul_le (v : Vector T) {n : Nat} (h : n ≤ v.max_size) :
    ElemType.sizeof T * n ≤ SIZE_MAX := by
  unfold max_size at h
  calc ElemType.sizeof T * n ≤ ElemType.sizeof T * (SIZE_MAX / ElemType.sizeof T) :=
        Nat.mul_le_mul_left _ h
    _ ≤ SIZE_MAX := Nat.mul_div_le _ _

theorem operator_new_slots (v : Vector T) (heap : Heap) {n : Nat} (h : n ≤ v.max_size) :
    (operator_new heap (to_size_t (ElemType.sizeof T * n)) : List (Option T) × Heap).1
      = List.replicate n none := by
  unfold operator_new
  rw [to_size_t_of_le (sizeof_mul_le v h)]
  simp only
  rw [Nat.mul_div_cancel_left _ (ElemType.sizeof_pos (T := T))]

theorem new_possible_capacity_le (v : Vector T) (h : 0 < v.max_size) :
    v.new_possible_capacity ≤ v.max_size := by
  unfold new_possible_capacity
  split
  · exact max_le h (min_le_left _ _)
  · exact le_refl _

theorem lt_new_possible_capacity (v : Vector T) (h : v.capacity_ < v.max_size) :
    v.capacity_ < v.new_possible_capacity := by
  unfold new_possible_capacity
  split
  · rename_i hc
    have h2 : to_size_t (2 * v.capacity_) = 2 * v.capacity_ := by
      apply to_size_t_of_le
      have : SIZE_MAX / 2 * 2 ≤ SIZE_MAX := Nat.div_mul_le_self _ _
      omega
    rw [h2]
    rcases Nat.eq_zero_or_pos v.capacity_ with h0 | hpos
    · rw [h0]; exact lt_of_lt_of_le Nat.zero_lt_one (le_max_left _ _)
    · apply lt_of_lt_of_le _ (le_max_right _ _)
      apply lt_min h
      omega
  · exact h

end Vector

/-! ## The loops, as functions on the block -/

section Loops

namespace Vector

variable {T : Type}

theorem some_getD_eq_getElem? (l : List (Option T)) {j : Nat} (h : j < l.length) :
    some (l.getD j none) = l[j]? := by
  rw [List.getD_eq_getElem?_getD, List.getElem?_eq_getElem h]
  rfl

theorem take_eq_iff_getElem? {α : Type} (d : List α) (n : Nat) (ys : List α)
    (hn : n = ys.length) :
    d.take n = ys ↔ ∀ j, j < n → d[j]? = ys[j]? := by
  constructor
  · intro h j hj
    rw [← h, List.getElem?_take_of_lt hj]
  · intro h
    apply List.ext_getElem?
    intro j
    by_cases hj : j < n
    · rw [List.getElem?_take_of_lt hj, h j hj]
    · rw [List.getElem?_take, if_neg hj, List.getElem?_eq_none (by omega)]

theorem length_relocate_loop (data : List (Option T)) (size : Nat) (new_data : List (Option T)) :
    (relocate_loop data size new_data).length = new_data.length := by
  unfold relocate_loop
  induction size with
  | zero => simp
  | succ n ih =>
    rw [List.range_succ, List.foldl_append]
    simp only [List.foldl_cons, List.foldl_nil, List.length_set]
    exact ih

theorem getElem?_relocate_loop (data : List (Option T)) (size : Nat)
    (new_data : List (Option T)) (j : Nat) :
    (relocate_loop data size new_data)[j]? =
      if j < size ∧ j < new_data.length then some (data.getD j none) else new_data[j]? := by
  induction size with
  | zero => simp [relocate_loop]
  | succ n ih =>
    have hlen := length_relocate_loop data n new_data
    unfold relocate_loop at ih hlen ⊢
    rw [List.range_succ, List.foldl_append]
    simp only [List.foldl_cons, List.foldl_nil]
    rw [List.getElem?_set, ih]
    by_cases hjn : n = j
    · subst hjn
      rw [if_pos rfl, hlen]
      by_cases hl : n < new_data.length
      · simp only [hl, if_true, Nat.lt_succ_self, and_self]
      · have hnone : new_data[n]? = none := List.getElem?_eq_none (by omega)
        simp only [hl, if_false, and_false, hnone]
    · simp only [hjn, if_false]
      by_cases hj : j < n
      · have : j < n + 1 := by omega
        simp [hj, this]
      · have : ¬ j < n + 1 := by omega
        simp [hj, this]

theorem length_insert_shift (index : Nat) : ∀ (start : Nat) (data : List (Option T)),
    (insert_shift index start data).length = data.length := by
  intro start
  induction start with
  | zero => intro data; rfl
  | succ i ih =>
    intro data
    unfold insert_shift
    split
    · rw [ih, List.length_set]
    · rfl

theorem getElem?_insert_shift (index : Nat) : ∀ (start : Nat) (data : List (Option T)) (j : Nat),
    start < data.length →
    (insert_shift index start data)[j]? =
      if index < j ∧ j ≤ start then data[j - 1]? else data[j]? := by
  intro start
  induction start with
  | zero =>
    intro data j _
    have : ¬ (index < j ∧ j ≤ 0) := by omega
    rw [if_neg this]
    rfl
  | succ i ih =>
    intro data j hlen
    unfold insert_shift
    by_cases hgt : i + 1 > index
    · rw [if_pos hgt, ih _ _ (by rw [List.length_set]; omega)]
      have hread : some (data.getD i none) = data[i]? := some_getD_eq_getElem? data (by omega)
      by_cases hj1 : index < j ∧ j ≤ i
      · rw [if_pos hj1, if_pos ⟨hj1.1, by omega⟩, List.getElem?_set, if_neg (by omega)]
      · rw [if_neg hj1, List.getElem?_set]
        by_cases hj2 : i + 1 = j
        · subst hj2
          rw [if_pos rfl, if_pos hlen, if_pos ⟨hgt, le_refl _⟩, hread]
          rfl
        · rw [if_neg hj2, if_neg (by omega)]
    · rw [if_neg hgt, if_neg (by omega)]

theorem length_erase_shift (index bound : Nat) (data : List (Option T)) :
    (erase_shift index bound data).length = data.length := by
  unfold erase_shift
  generalize bound - index = n
  induction n with
  | zero => rfl
  | succ n ih =>
    rw [List.range'_1_concat, List.foldl_append]
    simp only [List.foldl_cons, List.foldl_nil, List.length_set]
    exact ih

theorem getElem?_erase_loop (index : Nat) (data : List (Option T)) :
    ∀ (n j : Nat), index + n < data.length →
    ((List.range' index n).foldl (fun d i => d.set i (d.getD (i + 1) none)) data)[j]? =
      if index ≤ j ∧ j < index + n then data[j + 1]? else data[j]? := by
  intro n
  induction n with
  | zero =>
    intro j _
    have : ¬ (index ≤ j ∧ j < index + 0) := by omega
    rw [if_neg this]
    rfl
  | succ n ih =>
    intro j hlen
    have hl : ((List.range' index n).foldl (fun d i => d.set i (d.getD (i + 1) none)) data).length
        = data.length := by
      have := length_erase_shift index (index + n) data
      unfold erase_shift at this
      rwa [Nat.add_sub_cancel_left] at this
    rw [List.range'_1_concat, List.foldl_append]
    simp only [List.foldl_cons, List.foldl_nil]
    rw [List.getElem?_set, hl]
    by_cases hj : index + n = j
    · subst hj
      rw [if_pos rfl, if_pos (by omega), if_pos ⟨by omega, by omega⟩,
        some_getD_eq_getElem? _ (by rw [hl]; omega), ih _ (by omega), if_neg (by omega)]
    · rw [if_neg hj, ih _ (by omega)]
      by_cases hj2 : index ≤ j ∧ j < index + n
      · rw [if_pos hj2, if_pos ⟨hj2.1, by omega⟩]
      · rw [if_neg hj2, if_neg (by omega)]

theorem getElem?_erase_shift (index bound : Nat) (data : List (Option T)) (j : Nat)
    (hb : bound < data.length) :
    (erase_shift index bound data)[j]? =
      if index ≤ j ∧ j < bound then data[j + 1]? else data[j]? := by
  unfold erase_shift
  by_cases hib : index ≤ bound
  · rw [getElem?_erase_loop index data (bound - index) j (by omega)]
    by_cases hj : index ≤ j ∧ j < bound
    · rw [if_pos hj, if_pos ⟨hj.1, by omega⟩]
    · rw [if_neg hj, if_neg (by omega)]
  · have h0 : bound - index = 0 := by omega
    rw [h0, if_neg (by omega)]
    rfl

theorem getElem?_insert_slot (G : List (Option T)) (s i : Nat) (x : Option T) (j : Nat)
    (hi : i < s) (hs : s < G.length) :
    ((insert_shift i (s - 1) (G.set s (G.getD (s - 1) none))).set i x)[j]? =
      if j < i then G[j]? else if j = i then some x else if j ≤ s then G[j - 1]? else G[j]? := by
  have hread : some (G.getD (s - 1) none) = G[s - 1]? := some_getD_eq_getElem? G (by omega)
  rw [List.getElem?_set, length_insert_shift, List.length_set,
    getElem?_insert_shift _ _ _ _ (by rw [List.length_set]; omega)]
  by_cases h1 : j < i
  · rw [if_neg (by omega), if_neg (by omega), if_pos h1, List.getElem?_set, if_neg (by omega)]
  · rw [if_neg h1]
    by_cases h2 : j = i
    · subst h2
      rw [if_pos rfl, if_pos (by omega), if_pos rfl]
    · rw [if_neg (fun h => h2 h.symm), if_neg h2]
      by_cases h3 : j ≤ s - 1
      · rw [if_pos ⟨by omega, h3⟩, if_pos (by omega), List.getElem?_set, if_neg (by omega)]
      · rw [if_neg (by omega), List.getElem?_set]
        by_cases h4 : s = j
        · subst h4
          rw [if_pos rfl, if_pos hs, if_pos (le_refl _), hread]
        · rw [if_neg h4, if_neg (by omega)]

theorem getElem?_take_append_cons_drop {α : Type} (xs : List α) (value : α) (i j : Nat)
    (hi : i ≤ xs.length) :
    (xs.take i ++ [value] ++ xs.drop i)[j]? =
      if j < i then xs[j]? else if j = i then some value else xs[j - 1]? := by
  have hlt : (xs.take i).length = i := by rw [List.length_take]; omega
  rw [List.append_assoc, List.getElem?_append, hlt]
  by_cases h1 : j < i
  · rw [if_pos h1, if_pos h1, List.getElem?_take_of_lt h1]
  · rw [if_neg h1, if_neg h1]
    by_cases h2 : j = i
    · subst h2
      simp
    · rw [if_neg h2]
      obtain ⟨k, hk⟩ : ∃ k, j - i = k + 1 := ⟨j - i - 1, by omega⟩
      rw [hk, List.singleton_append, List.getElem?_cons_succ, List.getElem?_drop]
      congr 1
      omega

theorem holds_iff (v : Vector T) (xs : List T) :
    v.Holds xs ↔ v.size_ = xs.length ∧ ∀ j, j < v.size_ → v.data_[j]? = (xs.map some)[j]? := by
  unfold Holds
  constructor
  · rintro ⟨h1, h2⟩
    exact ⟨h1, (take_eq_iff_getElem? _ _ _ (by simp [h1])).1 h2⟩
  · rintro ⟨h1, h2⟩
    exact ⟨h1, (take_eq_iff_getElem? _ _ _ (by simp [h1])).2 h2⟩

theorem holds_size_le_length {v : Vector T} {xs : List T} (h : v.Holds xs) :
    v.size_ ≤ v.data_.length := by
  have h2 := congrArg List.length h.2
  rw [List.length_take, List.length_map, ← h.1] at h2
  omega

end Vector

end Loops

/-! ## Growth, `push_back`, `insert` and `erase` on a container that holds a sequence -/

namespace Vector

variable {T : Type} [ElemType T]

theorem relocate_of_full (v : Vector T) (heap : Heap) (new_data : List (Option T))
    (new_capacity : Nat) (h : v.size_ = v.capacity_) :
    (v.relocate heap new_data new_capacity).1 = Except.ok () ∧
    (v.relocate heap new_data new_capacity).2.1 =
      { data_ := relocate_loop v.data_ v.size_ new_data,
        size_ := v.size_, capacity_ := new_capacity } := by
  have hne : ¬ v.capacity_ ≠ v.size_ := fun hc => hc h.symm
  unfold relocate
  dsimp only
  rw [if_neg hne]
  cases ElemType.is_nothrow_move_constructible T <;>
    cases ElemType.is_copy_constructible T <;> exact ⟨rfl, rfl⟩

theorem grow_if_full_of_full_eq (v : Vector T) (heap : Heap) (h : v.size_ = v.capacity_) :
    (v.grow_if_full heap).1 =
      { data_ := relocate_loop v.data_ v.size_
          (operator_new heap (to_size_t (ElemType.sizeof T * v.new_possible_capacity))
            : List (Option T) × Heap).1,
        size_ := v.size_, capacity_ := v.new_possible_capacity } := by
  unfold grow_if_full
  rw [if_pos h]
  exact (relocate_of_full v _ _ _ h).2

theorem grow_if_full_of_not_full (v : Vector T) (heap : Heap) (h : ¬ v.size_ = v.capacity_) :
    v.grow_if_full heap = (v, heap) := by
  unfold grow_if_full
  rw [if_neg h]

theorem grow_if_full_spec (v : Vector T) (heap : Heap)
    (hlen : v.data_.length = v.capacity_) (hsc : v.size_ ≤ v.capacity_)
    (hroom : v.size_ < v.max_size) :
    (v.grow_if_full heap).1.size_ = v.size_ ∧
    v.size_ < (v.grow_if_full heap).1.capacity_ ∧
    (v.grow_if_full heap).1.data_.length = (v.grow_if_full heap).1.capacity_ ∧
    (v.grow_if_full heap).1.capacity_
      = (if v.size_ = v.capacity_ then v.new_possible_capacity else v.capacity_) ∧
    ∀ j, j < v.size_ → (v.grow_if_full heap).1.data_[j]? = v.data_[j]? := by
  by_cases hfull : v.size_ = v.capacity_
  · have hlt : v.capacity_ < v.new_possible_capacity :=
      lt_new_possible_capacity v (by omega)
    have hle : v.new_possible_capacity ≤ v.max_size :=
      new_possible_capacity_le v (by omega)
    rw [grow_if_full_of_full_eq v heap hfull, operator_new_slots v heap hle, if_pos hfull]
    refine ⟨rfl, (by omega : v.size_ < v.new_possible_capacity), ?_, rfl, ?_⟩
    · show (relocate_loop v.data_ v.size_ (List.replicate v.new_possible_capacity none)).length
        = v.new_possible_capacity
      rw [length_relocate_loop, List.length_replicate]
    · intro j hj
      show (relocate_loop v.data_ v.size_ (List.replicate v.new_possible_capacity none))[j]?
        = v.data_[j]?
      rw [getElem?_relocate_loop, List.length_replicate, if_pos ⟨hj, by omega⟩]
      exact some_getD_eq_getElem? _ (by omega)
  · rw [grow_if_full_of_not_full v heap hfull, if_neg hfull]
    exact ⟨rfl, (by omega : v.size_ < v.capacity_), hlen, rfl, fun _ _ => rfl⟩

theorem push_back_spec (v : Vector T) (heap : Heap) (value : T) (xs : List T)
    (hx : v.Holds xs) (hlen : v.data_.length = v.capacity_) (hroom : v.size_ < v.max_size) :
    (v.push_back heap value).1.Holds (xs ++ [value]) ∧
    (v.push_back heap value).1.data_.length = (v.push_back heap value).1.capacity_ ∧
    (v.push_back heap value).1.capacity_
      = (if v.size_ = v.capacity_ then v.new_possible_capacity else v.capacity_) := by
  have hsl := holds_size_le_length hx
  obtain ⟨g1, g2, g3, g4, g5⟩ := grow_if_full_spec v heap hlen (by omega) hroom
  have hmax := max_size_le v
  have hsz : to_size_t (v.size_ + 1) = v.size_ + 1 := to_size_t_of_le (by omega)
  rw [holds_iff] at hx ⊢
  obtain ⟨hx1, hx2⟩ := hx
  unfold push_back
  simp only [g1, hsz, List.length_set]
  refine ⟨⟨by simp [hx1], ?_⟩, g3, g4⟩
  intro j hj
  rw [List.getElem?_set, List.map_append, List.getElem?_append]
  by_cases hjs : v.size_ = j
  · subst hjs
    rw [if_pos rfl, if_pos (by omega), if_neg (by simp [hx1])]
    simp [hx1]
  · rw [if_neg hjs, g5 j (by omega), hx2 j (by omega), if_pos (by simp; omega)]

theorem push_back_all_spec (vs : List T) : ∀ (v : Vector T) (heap : Heap) (xs : List T),
    v.Holds xs → v.data_.length = v.capacity_ → xs.length + vs.length ≤ v.max_size →
    (v.push_back_all heap vs).1.Holds (xs ++ vs) ∧
    (v.push_back_all heap vs).1.data_.length = (v.push_back_all heap vs).1.capacity_ := by
  induction vs with
  | nil =>
    intro v heap xs hx hlen _
    simpa [push_back_all] using ⟨hx, hlen⟩
  | cons value rest ih =>
    intro v heap xs hx hlen hroom
    have hs := hx.1
    simp only [List.length_cons] at hroom
    obtain ⟨p1, p2, _⟩ := push_back_spec v heap value xs hx hlen (by omega)
    have := ih (v.push_back heap value).1 (v.push_back heap value).2 (xs ++ [value]) p1 p2
      (by simp only [List.length_append, List.length_singleton]; exact (by unfold max_size at hroom ⊢; omega))
    simpa [push_back_all] using this

theorem iterator_sub_begin (v : Vector T) (i : Nat) :
    Iterator.sub ⟨i⟩ v.begin = i := by
  unfold Iterator.sub begin
  exact size_t_sub_of_le (Nat.zero_le _)


theorem insert_of_ne (v : Vector T) (heap : Heap) (pos : Iterator) (value : T)
    (hne : pos.sub v.begin ≠ (v.grow_if_full heap).1.size_) :
    v.insert heap pos value =
      (⟨pos.sub v.begin⟩,
       { data_ := (insert_shift (pos.sub v.begin) (size_t_sub (v.grow_if_full heap).1.size_ 1)
            ((v.grow_if_full heap).1.data_.set (v.grow_if_full heap).1.size_
              ((v.grow_if_full heap).1.data_.getD
                (size_t_sub (v.grow_if_full heap).1.size_ 1) none))).set
            (pos.sub v.begin) (some value),
         size_ := to_size_t ((v.grow_if_full heap).1.size_ + 1),
         capacity_ := (v.grow_if_full heap).1.capacity_ },
       (v.grow_if_full heap).2) := by
  unfold insert
  dsimp only
  rw [if_neg hne]
  refine Prod.ext ?_ (Prod.ext rfl rfl)
  show Iterator.mk (0 + _) = _
  rw [Nat.zero_add]

theorem insert_of_eq (v : Vector T) (heap : Heap) (pos : Iterator) (value : T)
    (heq : pos.sub v.begin = (v.grow_if_full heap).1.size_) :
    v.insert heap pos value =
      (⟨pos.sub v.begin⟩,
       { data_ := ((v.grow_if_full heap).1.push_back (v.grow_if_full heap).2 value).1.data_,
         size_ := to_size_t
           (((v.grow_if_full heap).1.push_back (v.grow_if_full heap).2 value).1.size_ + 1),
         capacity_ :=
           ((v.grow_if_full heap).1.push_back (v.grow_if_full heap).2 value).1.capacity_ },
       ((v.grow_if_full heap).1.push_back (v.grow_if_full heap).2 value).2) := by
  unfold insert
  dsimp only
  rw [if_pos heq]
  refine Prod.ext ?_ (Prod.ext rfl rfl)
  show Iterator.mk (0 + _) = _
  rw [Nat.zero_add]

theorem insert_spec_of_lt (v : Vector T) (heap : Heap) (value : T) (xs : List T) (i : Nat)
    (hx : v.Holds xs) (hlen : v.data_.length = v.capacity_) (hroom : v.size_ < v.max_size)
    (hi : i < v.size_) :
    (v.insert heap ⟨i⟩ value).2.1.Holds (xs.take i ++ [value] ++ xs.drop i) ∧
    (v.insert heap ⟨i⟩ value).2.1.size_ = v.size_ + 1 ∧
    (v.insert heap ⟨i⟩ value).1 = ⟨i⟩ ∧
    (v.insert heap ⟨i⟩ value).2.1.data_.length = (v.insert heap ⟨i⟩ value).2.1.capacity_ ∧
    (v.insert heap ⟨i⟩ value).2.1.size_ ≤ (v.insert heap ⟨i⟩ value).2.1.capacity_ := by
  have hsl := holds_size_le_length hx
  obtain ⟨g1, g2, g3, _, g5⟩ := grow_if_full_spec v heap hlen (by omega) hroom
  have hmax := max_size_le v
  have hsz : to_size_t (v.size_ + 1) = v.size_ + 1 := to_size_t_of_le (by omega)
  have hidx : Iterator.sub ⟨i⟩ v.begin = i := iterator_sub_begin v i
  have hpred : size_t_sub v.size_ 1 = v.size_ - 1 := size_t_sub_of_le (by omega)
  have hI := insert_of_ne v heap ⟨i⟩ value (by rw [hidx, g1]; omega)
  rw [hidx, g1, hsz, hpred] at hI
  rw [hI]
  rw [holds_iff] at hx
  obtain ⟨hx1, hx2⟩ := hx
  refine ⟨?_, rfl, rfl, ?_, ?_⟩
  · rw [holds_iff]
    refine ⟨?_, ?_⟩
    · show v.size_ + 1 = _
      simp only [List.length_append, List.length_take, List.length_drop, List.length_singleton]
      omega
    · intro j hj
      have hj1 : j < v.size_ + 1 := hj
      show ((insert_shift i (v.size_ - 1) _).set i (some value))[j]? = _
      rw [getElem?_insert_slot _ _ _ _ _ hi (by omega), List.getElem?_map,
        getElem?_take_append_cons_drop xs value i j (by omega)]
      by_cases h1 : j < i
      · rw [if_pos h1, if_pos h1, g5 j (by omega), hx2 j (by omega), List.getElem?_map]
      · rw [if_neg h1, if_neg h1]
        by_cases h2 : j = i
        · rw [if_pos h2, if_pos h2]
          rfl
        · rw [if_neg h2, if_neg h2, if_pos (by omega), g5 _ (by omega), hx2 _ (by omega),
            List.getElem?_map]
  · show ((insert_shift i (v.size_ - 1) _).set i (some value)).length = _
    rw [List.length_set, length_insert_shift, List.length_set]
    exact g3
  · show v.size_ + 1 ≤ (v.grow_if_full heap).1.capacity_
    omega

theorem erase_of_last (v : Vector T) (pos : Iterator)
    (h : pos.sub v.begin = size_t_sub v.size_ 1) :
    v.erase pos =
      (⟨size_t_sub v.size_ 1⟩,
       { data_ := v.data_.set (size_t_sub v.size_ 1) none,
         size_ := size_t_sub v.size_ 1,
         capacity_ := v.capacity_ }) := by
  unfold erase
  dsimp only
  rw [if_pos h]
  rfl

theorem erase_of_not_last (v : Vector T) (pos : Iterator)
    (h : pos.sub v.begin ≠ size_t_sub v.size_ 1) :
    v.erase pos =
      (⟨pos.sub v.begin⟩,
       { data_ := erase_shift (pos.sub v.begin) (size_t_sub v.size_ 1) v.data_,
         size_ := size_t_sub v.size_ 1,
         capacity_ := v.capacity_ }) := by
  unfold erase
  dsimp only
  rw [if_neg h]
  refine Prod.ext ?_ rfl
  show Iterator.mk (0 + _) = _
  rw [Nat.zero_add]

theorem erase_spec (v : Vector T) (xs : List T) (i : Nat)
    (hx : v.Holds xs) (hi : i < v.size_) :
    (v.erase ⟨i⟩).2.Holds (xs.eraseIdx i) ∧
    (v.erase ⟨i⟩).2.size_ + 1 = v.size_ ∧
    (v.erase ⟨i⟩).2.capacity_ = v.capacity_ ∧
    (v.erase ⟨i⟩).1 = ⟨i⟩ ∧
    (v.erase ⟨i⟩).2.data_.length = v.data_.length := by
  have hsl := holds_size_le_length hx
  have hidx : Iterator.sub ⟨i⟩ v.begin = i := iterator_sub_begin v i
  have hpred : size_t_sub v.size_ 1 = v.size_ - 1 := size_t_sub_of_le (by omega)
  rw [holds_iff] at hx
  obtain ⟨hx1, hx2⟩ := hx
  have hxlen : v.size_ - 1 = (xs.eraseIdx i).length := by
    rw [List.length_eraseIdx_of_lt (by omega)]; omega
  by_cases hlast : i = v.size_ - 1
  · have hE := erase_of_last v ⟨i⟩ (by rw [hidx, hpred]; exact hlast)
    rw [hpred] at hE
    rw [hE]
    refine ⟨?_, ?_, rfl, ?_, ?_⟩
    · rw [holds_iff]
      refine ⟨hxlen, ?_⟩
      intro j hj
      have hj1 : j < v.size_ - 1 := hj
      show (v.data_.set (v.size_ - 1) none)[j]? = _
      rw [List.getElem?_set, if_neg (by omega), List.getElem?_map,
        List.getElem?_eraseIdx, if_pos (by omega), hx2 j (by omega), List.getElem?_map]
    · show v.size_ - 1 + 1 = v.size_
      omega
    · show Iterator.mk (v.size_ - 1) = _
      rw [hlast]
    · show (v.data_.set (v.size_ - 1) none).length = _
      rw [List.length_set]
  · have hE := erase_of_not_last v ⟨i⟩ (by rw [hidx, hpred]; exact hlast)
    rw [hidx, hpred] at hE
    rw [hE]
    refine ⟨?_, ?_, rfl, rfl, ?_⟩
    · rw [holds_iff]
      refine ⟨hxlen, ?_⟩
      intro j hj
      have hj1 : j < v.size_ - 1 := hj
      show (erase_shift i (v.size_ - 1) v.data_)[j]? = _
      rw [getElem?_erase_shift _ _ _ _ (by omega), List.getElem?_map, List.getElem?_eraseIdx]
      by_cases hji : j < i
      · rw [if_neg (by omega), if_pos hji, hx2 j (by omega), List.getElem?_map]
      · rw [if_pos ⟨by omega, hj1⟩, if_neg hji, hx2 _ (by omega), List.getElem?_map]
    · show v.size_ - 1 + 1 = v.size_
      omega
    · show (erase_shift i (v.size_ - 1) v.data_).length = _
      rw [length_erase_shift]

theorem push_back_size_capacity (v : Vector T) (heap : Heap) (value : T) :
    (v.push_back heap value).1.size_ = to_size_t (v.size_ + 1) ∧
    (v.push_back heap value).1.capacity_
      = (if v.size_ = v.capacity_ then v.new_possible_capacity else v.capacity_) := by
  unfold push_back
  dsimp only
  by_cases h : v.size_ = v.capacity_
  · rw [grow_if_full_of_full_eq v heap h, if_pos h]
    exact ⟨rfl, rfl⟩
  · rw [grow_if_full_of_not_full v heap h, if_neg h]
    exact ⟨rfl, rfl⟩

theorem clog_two_succ_of_lt {k c : Nat} (hc : Nat.clog 2 k = c) (hk : k < 2 ^ c) :
    Nat.clog 2 (k + 1) = c := by
  apply le_antisymm
  · exact (Nat.le_pow_iff_clog_le (by decide)).1 hk
  · rw [← hc]
    exact Nat.clog_mono_right 2 (Nat.le_succ k)

theorem clog_two_succ_pow (c : Nat) : Nat.clog 2 (2 ^ c + 1) = c + 1 := by
  apply le_antisymm
  · apply (Nat.le_pow_iff_clog_le (by decide)).1
    have : 1 ≤ 2 ^ c := Nat.one_le_two_pow
    rw [pow_succ]
    omega
  · exact (Nat.pow_lt_iff_lt_clog (by decide)).1 (Nat.lt_succ_self _)

theorem pow_lt_half_of_double_le {c : Nat} (h : 2 ^ (c + 1) ≤ SIZE_MAX) :
    2 ^ c < SIZE_MAX / 2 := by
  have hc : c + 1 < 64 := by
    by_contra hn
    have : 2 ^ 64 ≤ 2 ^ (c + 1) := Nat.pow_le_pow_right (by decide) (by omega)
    unfold SIZE_MAX at h
    omega
  have h62 : 2 ^ c ≤ 2 ^ 62 := Nat.pow_le_pow_right (by decide) (by omega)
  unfold SIZE_MAX
  have : (2 : Nat) ^ 62 < (2 ^ 64 - 1) / 2 := by decide
  omega

theorem push_back_capacity_step (v : Vector T) (heap : Heap) (value : T) (k : Nat)
    (hs : v.size_ = k)
    (hc : v.capacity_ = if k = 0 then 0 else 2 ^ Nat.clog 2 k)
    (hmax : 2 ^ Nat.clog 2 (k + 1) ≤ v.max_size) :
    (v.push_back heap value).1.size_ = k + 1 ∧
    (v.push_back heap value).1.capacity_ = 2 ^ Nat.clog 2 (k + 1) := by
  have hle := max_size_le v
  have hk1 : k + 1 ≤ SIZE_MAX := by
    have := Nat.le_pow_clog (b := 2) (by decide) (k + 1)
    omega
  obtain ⟨p1, p2⟩ := push_back_size_capacity v heap value
  rw [p1, p2, hs, to_size_t_of_le hk1]
  refine ⟨rfl, ?_⟩
  by_cases hk0 : k = 0
  · subst hk0
    rw [if_pos rfl] at hc
    rw [if_pos hc.symm]
    unfold new_possible_capacity
    have h1 : v.capacity_ < SIZE_MAX / 2 := by rw [hc]; decide
    rw [if_pos h1, hc]
    have h2 : Nat.clog 2 (0 + 1) = 0 := Nat.clog_one_right 2
    rw [h2]
    have h3 : to_size_t (2 * 0) = 0 := rfl
    rw [h3, Nat.min_zero]
    rfl
  · rw [if_neg hk0] at hc
    have hkle : k ≤ 2 ^ Nat.clog 2 k := Nat.le_pow_clog (by decide) k
    by_cases hfull : k = v.capacity_
    · rw [if_pos hfull]
      have hkp : k = 2 ^ Nat.clog 2 k := hfull.trans hc
      have hcl : Nat.clog 2 (k + 1) = Nat.clog 2 k + 1 := by
        conv_lhs => rw [hkp]
        exact clog_two_succ_pow _
      rw [hcl] at hmax ⊢
      have hhalf : 2 ^ Nat.clog 2 k < SIZE_MAX / 2 := pow_lt_half_of_double_le (by omega)
      unfold new_possible_capacity
      rw [hc, if_pos hhalf]
      have hdouble : 2 * 2 ^ Nat.clog 2 k = 2 ^ (Nat.clog 2 k + 1) := by
        rw [pow_succ]; omega
      rw [to_size_t_of_le (by omega), hdouble, min_eq_right hmax]
      exact max_eq_right Nat.one_le_two_pow
    · rw [if_neg hfull, hc]
      congr 1
      exact (clog_two_succ_of_lt rfl (by omega)).symm

theorem push_back_all_capacity (vs : List T) : ∀ (v : Vector T) (heap : Heap) (k : Nat),
    v.size_ = k → v.capacity_ = (if k = 0 then 0 else 2 ^ Nat.clog 2 k) →
    2 ^ Nat.clog 2 (k + vs.length) ≤ v.max_size →
    (v.push_back_all heap vs).1.size_ = k + vs.length ∧
    (v.push_back_all heap vs).1.capacity_
      = (if k + vs.length = 0 then 0 else 2 ^ Nat.clog 2 (k + vs.length)) := by
  induction vs with
  | nil =>
    intro v heap k hs hc _
    simpa [push_back_all] using ⟨hs, hc⟩
  | cons value rest ih =>
    intro v heap k hs hc hmax
    simp only [List.length_cons] at hmax ⊢
    have hmono : 2 ^ Nat.clog 2 (k + 1) ≤ 2 ^ Nat.clog 2 (k + (rest.length + 1)) :=
      Nat.pow_le_pow_right (by decide) (Nat.clog_mono_right 2 (by omega))
    obtain ⟨p1, p2⟩ := push_back_capacity_step v heap value k hs hc (le_trans hmono hmax)
    have hstep := ih (v.push_back heap value).1 (v.push_back heap value).2 (k + 1) p1
      (by rw [p2, if_neg (by omega)])
      (by
        have he : k + 1 + rest.length = k + (rest.length + 1) := by omega
        rw [he]
        exact hmax)
    have he : k + 1 + rest.length = k + (rest.length + 1) := by omega
    rw [he] at hstep
    simpa [push_back_all] using hstep


theorem insert_at_end_spec (v : Vector T) (heap : Heap) (value : T) (xs : List T)
    (hx : v.Holds xs) (hlen : v.data_.length = v.capacity_)
    (hroom : v.size_ + 1 < v.max_size) :
    (v.insert heap v.end_ value).2.1.size_ = v.size_ + 2 ∧
    (v.insert heap v.end_ value).2.1.data_.take (v.size_ + 1) = (xs ++ [value]).map some ∧
    (v.insert heap v.end_ value).1 = ⟨v.size_⟩ := by
  have hsl := holds_size_le_length hx
  obtain ⟨g1, g2, g3, _, g5⟩ := grow_if_full_spec v heap hlen (by omega) (by omega)
  have hmax := max_size_le v
  have hidx : Iterator.sub v.end_ v.begin = v.size_ := iterator_sub_begin v v.size_
  have hw : (v.grow_if_full heap).1.Holds xs := by
    rw [holds_iff] at hx ⊢
    exact ⟨by rw [g1]; exact hx.1, fun j hj => by rw [g5 j (by omega)]; exact hx.2 j (by omega)⟩
  have hwroom : (v.grow_if_full heap).1.size_ < (v.grow_if_full heap).1.max_size := by
    rw [g1]
    exact lt_trans (Nat.lt_succ_self _) hroom
  obtain ⟨p1, _, _⟩ := push_back_spec (v.grow_if_full heap).1 (v.grow_if_full heap).2 value xs
    hw g3 hwroom
  have hps : ((v.grow_if_full heap).1.push_back (v.grow_if_full heap).2 value).1.size_
      = v.size_ + 1 := by
    rw [p1.1, List.length_append, List.length_singleton, ← hx.1]
  have htake := p1.2
  rw [hps] at htake
  have hI := insert_of_eq v heap v.end_ value (by rw [hidx, g1])
  rw [hidx, hps, to_size_t_of_le (by omega : v.size_ + 1 + 1 ≤ SIZE_MAX)] at hI
  rw [hI]
  exact ⟨rfl, htake, rfl⟩


theorem eraseIdx_take_append_cons_drop {α : Type} (xs : List α) (value : α) (i : Nat)
    (hi : i ≤ xs.length) : (xs.take i ++ [value] ++ xs.drop i).eraseIdx i = xs := by
  apply List.ext_getElem?
  intro j
  rw [List.getElem?_eraseIdx]
  by_cases hj : j < i
  · rw [if_pos hj, getElem?_take_append_cons_drop xs value i j hi, if_pos hj]
  · rw [if_neg hj, getElem?_take_append_cons_drop xs value i (j + 1) hi, if_neg (by omega),
      if_neg (by omega)]
    rfl

theorem insert_erase_roundtrip_of_lt (v : Vector T) (heap : Heap) (value : T) (xs : List T)
    (i : Nat) (hx : v.Holds xs) (hlen : v.data_.length = v.capacity_)
    (hroom : v.size_ < v.max_size) (hi : i < v.size_) :
    ((v.insert heap ⟨i⟩ value).2.1.erase (v.insert heap ⟨i⟩ value).1).2.Holds xs ∧
    ((v.insert heap ⟨i⟩ value).2.1.erase (v.insert heap ⟨i⟩ value).1).2.size_ = v.size_ := by
  obtain ⟨q1, q2, q3, _, _⟩ := insert_spec_of_lt v heap value xs i hx hlen hroom hi
  have hmax := max_size_le v
  obtain ⟨r1, r2, _, _, _⟩ := erase_spec (v.insert heap ⟨i⟩ value).2.1 _ i q1
    (by omega)
  rw [eraseIdx_take_append_cons_drop xs value i (by rw [← hx.1]; omega)] at r1
  rw [q3]
  exact ⟨r1, by omega⟩

theorem begin_add (v : Vector T) (i : Nat) : v.begin.add i = ⟨i⟩ := by
  unfold begin Iterator.add
  simp

theorem holds_ctor_default : (ctor_default : Vector T).Holds [] := ⟨rfl, rfl⟩

theorem operator_subscript_of_holds {v : Vector T} {xs : List T} (hx : v.Holds xs)
    (i : Nat) (hi : i < xs.length) : v.operator_subscript i = some xs[i] := by
  rw [holds_iff] at hx
  unfold operator_subscript
  rw [List.getD_eq_getElem?_getD, hx.2 i (by omega), List.getElem?_map,
    List.getElem?_eq_getElem hi]
  rfl


/-! ## The claims -/

/-- Claim C1.  Starting from `Vector()` and calling `push_back(v_0)`, ...,
`push_back(v_{N-1})` in that order yields `size() == N` and `operator[](i) == v_i` for
every `i < N`; `N` is at most `max_size()`, the largest count a block can be requested
for. -/
theorem push_back_sequence_read_back (vs : List T) (heap : Heap)
    (hN : vs.length ≤ (ctor_default : Vector T).max_size) :
    ((ctor_default : Vector T).push_back_all heap vs).1.size = vs.length ∧
    ∀ (i : Nat) (hi : i < vs.length),
      ((ctor_default : Vector T).push_back_all heap vs).1.operator_subscript i
        = some vs[i] := by
  obtain ⟨h1, _⟩ := push_back_all_spec vs (ctor_default : Vector T) heap []
    holds_ctor_default rfl (by simpa using hN)
  rw [List.nil_append] at h1
  exact ⟨h1.1, fun i hi => operator_subscript_of_holds h1 i hi⟩

theorem push_back_sequence_read_back_witness :
    ([10, 20, 30] : List Int).length ≤ (ctor_default : Vector Int).max_size ∧
    ((ctor_default : Vector Int).push_back_all [] [10, 20, 30]).1.size = 3 ∧
    ((ctor_default : Vector Int).push_back_all [] [10, 20, 30]).1.operator_subscript 2
      = some 30 :=
  ⟨by decide,
   (push_back_sequence_read_back ([10, 20, 30] : List Int) [] (by decide)).1,
   (push_back_sequence_read_back ([10, 20, 30] : List Int) [] (by decide)).2 2 (by decide)⟩

/-- Claim C2, evaluated where the code departs from it.  `insert(begin(), 7)` on a
default-constructed `Vector<int>` appends through `push_back`, which counts the new
element, and then counts it a second time: the call returns with `size() == 2` and
`capacity() == 1`, so `size() <= capacity()` is not preserved by `insert`. -/
theorem insert_into_empty_size_exceeds_capacity :
    ((ctor_default : Vector Int).insert [] (ctor_default : Vector Int).begin 7).2.1.size = 2 ∧
    ((ctor_default : Vector Int).insert [] (ctor_default : Vector Int).begin 7).2.1.capacity = 1 ∧
    ¬ ((ctor_default : Vector Int).insert [] (ctor_default : Vector Int).begin 7).2.1.size
        ≤ ((ctor_default : Vector Int).insert [] (ctor_default : Vector Int).begin 7).2.1.capacity := by
  decide

/-- Claim C3, evaluated where the code departs from it.  `insert(end(), 9)` on
`Vector<int>{1, 2, 3}` returns an iterator at index 3 and stores 9 there, but leaves
`size() == 5` instead of 4; the slot at index 4 is raw storage. -/
theorem insert_at_end_adds_two :
    (int_123.insert [] int_123.end_ 9).1 = ⟨3⟩ ∧
    (int_123.insert [] int_123.end_ 9).2.1.size = 5 ∧
    (int_123.insert [] int_123.end_ 9).2.1.operator_subscript 3 = some 9 ∧
    (int_123.insert [] int_123.end_ 9).2.1.operator_subscript 4 = none := by
  decide

/-- Claim C4, evaluated where the code departs from it.  On `Vector<int>{1, 2, 3}`,
`insert(end(), 9)` followed by `erase` at the returned position leaves `size() == 4`,
not 3, and the slot at index 3 raw. -/
theorem insert_erase_at_end_not_restored :
    ((int_123.insert [] int_123.end_ 9).2.1.erase (int_123.insert [] int_123.end_ 9).1).2.size
      = 4 ∧
    ((int_123.insert [] int_123.end_ 9).2.1.erase
      (int_123.insert [] int_123.end_ 9).1).2.operator_subscript 3 = none ∧
    int_123.size = 3 := by
  decide

/-- Claim C5.  For a container holding `xs` and an index `i < size()`,
`erase(begin() + i)` leaves the container holding `xs` without its `i`-th element,
decreases `size()` by exactly 1, leaves `capacity()` unchanged and returns the iterator
at index `i`: it designates the element that followed the erased one, and is `end()`
when the last element was erased. -/
theorem erase_removes_element (v : Vector T) (xs : List T) (i : Nat)
    (hx : v.Holds xs) (hi : i < v.size) :
    (v.erase (v.begin.add i)).2.Holds (xs.eraseIdx i) ∧
    (v.erase (v.begin.add i)).2.size + 1 = v.size ∧
    (v.erase (v.begin.add i)).2.capacity = v.capacity ∧
    (v.erase (v.begin.add i)).1 = (v.erase (v.begin.add i)).2.begin.add i ∧
    (∀ (h : i + 1 < xs.length),
      (v.erase (v.begin.add i)).2.operator_subscript i = some xs[i + 1]) ∧
    (i + 1 = v.size → (v.erase (v.begin.add i)).1 = (v.erase (v.begin.add i)).2.end_) := by
  unfold size at hi
  obtain ⟨e1, e2, e3, e4, _⟩ := erase_spec v xs i hx hi
  rw [begin_add, begin_add]
  refine ⟨e1, e2, e3, e4, ?_, ?_⟩
  · intro h
    have hlen : i < (xs.eraseIdx i).length := by
      rw [List.length_eraseIdx_of_lt (by omega)]; omega
    rw [operator_subscript_of_holds e1 i hlen]
    congr 1
    have h1 : (xs.eraseIdx i)[i]? = xs[i + 1]? := by
      rw [List.getElem?_eraseIdx, if_neg (by omega)]
    rw [List.getElem?_eq_getElem hlen, List.getElem?_eq_getElem h] at h1
    exact Option.some.inj h1
  · intro hlast
    unfold size at hlast
    rw [e4]
    unfold end_
    congr 1
    omega

theorem erase_removes_element_witness :
    int_123.Holds [1, 2, 3] ∧ 1 < int_123.size ∧
    (int_123.erase (int_123.begin.add 1)).2.Holds [1, 3] ∧
    (int_123.erase (int_123.begin.add 1)).2.size + 1 = int_123.size ∧
    (int_123.erase (int_123.begin.add 1)).2.capacity = int_123.capacity :=
  have h := erase_removes_element int_123 [1, 2, 3] 1 ⟨rfl, rfl⟩ (by decide)
  ⟨⟨rfl, rfl⟩, by decide, h.1, h.2.1, h.2.2.1⟩

theorem relocate_of_interior (v : Vector T) (heap : Heap) (new_data : List (Option T))
    (new_capacity : Nat)
    (hmove : ElemType.is_nothrow_move_constructible T = true
      ∨ ElemType.is_copy_constructible T = false)
    (hne : v.capacity_ ≠ v.size_) (hpos : v.size_ ≠ 0) :
    v.relocate heap new_data new_capacity =
      (Except.error Exception.undefined_behaviour, v,
       heap ++ [HeapCall.operator_delete v.size_
         (to_size_t (size_t_sub v.capacity_ v.size_ * ElemType.sizeof T))]) := by
  unfold relocate
  dsimp only
  rw [if_pos hne, if_neg hpos]
  rcases hmove with h | h
  · rw [h, if_pos rfl]
  · rw [h]
    cases ElemType.is_nothrow_move_constructible T
    · rw [if_neg (by decide), if_neg (by decide)]
    · rw [if_pos rfl]

theorem relocate_of_defined (v : Vector T) (heap : Heap) (new_data : List (Option T))
    (new_capacity : Nat)
    (hdef : (ElemType.is_nothrow_move_constructible T = false
        ∧ ElemType.is_copy_constructible T = true)
      ∨ v.capacity_ = v.size_ ∨ v.size_ = 0) :
    (v.relocate heap new_data new_capacity).1 = Except.ok () ∧
    (v.relocate heap new_data new_capacity).2.1 =
      { data_ := relocate_loop v.data_ v.size_ new_data,
        size_ := v.size_, capacity_ := new_capacity } := by
  unfold relocate
  dsimp only
  rcases hdef with ⟨h1, h2⟩ | h | h
  · rw [h1, h2, if_neg (by decide), if_pos rfl]
    exact ⟨rfl, rfl⟩
  · have hne : ¬ v.capacity_ ≠ v.size_ := fun hc => hc h
    rw [if_neg hne]
    cases ElemType.is_nothrow_move_constructible T <;>
      cases ElemType.is_copy_constructible T <;> exact ⟨rfl, rfl⟩
  · rw [if_pos h]
    by_cases hne : v.capacity_ ≠ v.size_
    · rw [if_pos hne]
      cases ElemType.is_nothrow_move_constructible T <;>
        cases ElemType.is_copy_constructible T <;> exact ⟨rfl, rfl⟩
    · rw [if_neg hne]
      cases ElemType.is_nothrow_move_constructible T <;>
        cases ElemType.is_copy_constructible T <;> exact ⟨rfl, rfl⟩

theorem reserve_of_le (v : Vector T) (heap : Heap) (n : Nat) (hle : n ≤ v.capacity_) :
    v.reserve heap n = (Except.ok (), v, heap) := by
  unfold reserve
  rw [if_pos hle]

theorem reserve_of_gt (v : Vector T) (heap : Heap) (n : Nat) (hgt : v.capacity_ < n)
    (hn : n ≤ v.max_size) :
    v.reserve heap n =
      v.relocate (heap ++ [HeapCall.operator_new (ElemType.sizeof T * n)])
        (List.replicate n none) n := by
  have hbytes := to_size_t_of_le (sizeof_mul_le v hn)
  have hslots := operator_new_slots v heap hn
  unfold reserve
  rw [if_neg (by omega), if_neg (by omega)]
  dsimp only
  rw [hslots]
  unfold operator_new
  rw [hbytes]

/-- Where `reserve(n)` returns, it keeps the elements: for `n <= max_size()` and a
container with `size() <= capacity()`, a call whose relocation requests no release of
`&data_[size_]` with `0 < size_` (the element type is copied, or the container is full
or empty) returns normally with `capacity() >= n`, `size()` and the elements below
`size()` unchanged, and changes nothing at all when `n <= capacity()` beforehand. -/
theorem reserve_spec_of_defined (v : Vector T) (heap : Heap) (n : Nat)
    (hn : n ≤ v.max_size) (hsc : v.size ≤ v.capacity)
    (hdef : n ≤ v.capacity
      ∨ (ElemType.is_nothrow_move_constructible T = false
          ∧ ElemType.is_copy_constructible T = true)
      ∨ v.capacity = v.size ∨ v.size = 0) :
    (v.reserve heap n).1 = Except.ok () ∧
    n ≤ (v.reserve heap n).2.1.capacity ∧
    (v.reserve heap n).2.1.size = v.size ∧
    (∀ i : Nat, i < v.size →
      (v.reserve heap n).2.1.operator_subscript i = v.operator_subscript i) ∧
    (n ≤ v.capacity → (v.reserve heap n).2.1 = v ∧ (v.reserve heap n).2.2 = heap) := by
  unfold size capacity at *
  by_cases hle : n ≤ v.capacity_
  · rw [reserve_of_le v heap n hle]
    exact ⟨rfl, hle, rfl, fun _ _ => rfl, fun _ => ⟨rfl, rfl⟩⟩
  · have hdef2 : (ElemType.is_nothrow_move_constructible T = false
          ∧ ElemType.is_copy_constructible T = true)
        ∨ v.capacity_ = v.size_ ∨ v.size_ = 0 := by
      rcases hdef with h | h
      · exact absurd h hle
      · exact h
    obtain ⟨r1, r2⟩ := relocate_of_defined v
      (heap ++ [HeapCall.operator_new (ElemType.sizeof T * n)]) (List.replicate n none) n hdef2
    rw [reserve_of_gt v heap n (by omega) hn, r1, r2]
    refine ⟨rfl, le_refl _, rfl, ?_, fun h => absurd h hle⟩
    intro i hi
    show (relocate_loop v.data_ v.size_ (List.replicate n none)).getD i none
      = v.data_.getD i none
    rw [List.getD_eq_getElem?_getD, getElem?_relocate_loop, List.length_replicate,
      if_pos ⟨hi, by omega⟩]
    rfl

/-- For a type that `relocate` moves, `reserve(n)` with `capacity() < n <= max_size()`
on a container with `0 < size()` and `size() != capacity()` requests the release of
`&data_[size_]`, a pointer into the middle of the old block: the behaviour of the call
is undefined, and the members are still the ones before the call. -/
theorem reserve_of_interior (v : Vector T) (heap : Heap) (n : Nat)
    (hn : n ≤ v.max_size) (hgt : v.capacity < n)
    (hmove : ElemType.is_nothrow_move_constructible T = true
      ∨ ElemType.is_copy_constructible T = false)
    (hne : v.capacity ≠ v.size) (hpos : v.size ≠ 0) :
    v.reserve heap n =
      (Except.error Exception.undefined_behaviour, v,
       heap ++ [HeapCall.operator_new (ElemType.sizeof T * n),
         HeapCall.operator_delete v.size
           (to_size_t (size_t_sub v.capacity v.size * ElemType.sizeof T))]) := by
  unfold size capacity at *
  rw [reserve_of_gt v heap n hgt hn, relocate_of_interior v _ _ _ hmove hne hpos,
    List.append_assoc]
  rfl

/-- Claim C6, evaluated where the code departs from it.  `Vector<int> v{1, 2, 3}`
followed by `v.reserve(10)` returns with the three elements, size 3 and capacity 10.
The next call `v.reserve(20)`, with `20 <= max_size()`, relocates a container with
`0 < size() < capacity()`: after moving the elements, `relocate` passes `&data_[3]`, a
pointer into the middle of the old block, to `operator delete` (28 bytes, the last
storage request), so the behaviour of the call is undefined; it does not return with
`capacity() >= 20`. -/
theorem reserve_releases_interior_pointer :
    (int_123.reserve [] 10).1 = Except.ok () ∧
    (int_123.reserve [] 10).2.1.Holds [1, 2, 3] ∧
    (int_123.reserve [] 10).2.1.size = 3 ∧
    (int_123.reserve [] 10).2.1.capacity = 10 ∧
    20 ≤ (int_123.reserve [] 10).2.1.max_size ∧
    ((int_123.reserve [] 10).2.1.reserve (int_123.reserve [] 10).2.2 20).1
      = Except.error Exception.undefined_behaviour ∧
    ((int_123.reserve [] 10).2.1.reserve (int_123.reserve [] 10).2.2 20).2.1.capacity = 10 ∧
    ((int_123.reserve [] 10).2.1.reserve (int_123.reserve [] 10).2.2 20).2.2
      = [HeapCall.operator_new 40, HeapCall.operator_new 80,
         HeapCall.operator_delete 3 28] :=
  ⟨rfl, ⟨rfl, rfl⟩, rfl, rfl, by decide, rfl, rfl, rfl⟩

/-- Claim C7.  `at(i)` fails exactly when `i >= size()`, and then with an out-of-range
error; when `i < size()` it returns the element `operator[](i)` returns; in both cases
the container is unchanged.  `Vector<int>{1, 2, 3}.at(5)` fails with out-of-range and
`Vector<int>{1, 2, 3}.at(1)` returns 2. -/
theorem at_checked_access (v : Vector T) (i : Nat) :
    ((v.at_ i).1 = Except.error Exception.out_of_range ↔ v.size ≤ i) ∧
    ((∃ e, (v.at_ i).1 = Except.error e) ↔ v.size ≤ i) ∧
    (i < v.size → (v.at_ i).1 = Except.ok (v.operator_subscript i)) ∧
    (v.at_ i).2 = v ∧
    (∀ heap : Heap, ∃ w : Vector Int,
      (ctor_initializer_list heap [1, 2, 3]).1 = Except.ok w ∧
      (w.at_ 5).1 = Except.error Exception.out_of_range ∧
      (w.at_ 1).1 = Except.ok (some 2)) := by
  have hlist : ∀ heap : Heap, ∃ w : Vector Int,
      (ctor_initializer_list heap [1, 2, 3]).1 = Except.ok w ∧
      (w.at_ 5).1 = Except.error Exception.out_of_range ∧
      (w.at_ 1).1 = Except.ok (some 2) := fun _ => ⟨int_123, rfl, rfl, rfl⟩
  unfold size
  by_cases h : i ≥ v.size_
  · have hA : v.at_ i = (Except.error Exception.out_of_range, v) := by
      unfold at_
      rw [if_pos h]
    rw [hA]
    exact ⟨⟨fun _ => h, fun _ => rfl⟩, ⟨fun _ => h, fun _ => ⟨_, rfl⟩⟩,
      fun hlt => absurd h (by omega), rfl, hlist⟩
  · have hA : v.at_ i = (Except.ok (v.data_.getD i none), v) := by
      unfold at_
      rw [if_neg h]
    rw [hA]
    refine ⟨⟨fun hc => ?_, fun hs => absurd hs h⟩, ⟨fun hc => ?_, fun hs => absurd hs h⟩,
      fun _ => rfl, rfl, hlist⟩
    · cases hc
    · obtain ⟨e, he⟩ := hc
      cases he

theorem at_checked_access_witness :
    (int_123.at_ 1).1 = Except.ok (int_123.operator_subscript 1) ∧ (int_123.at_ 1).2 = int_123 :=
  ⟨(at_checked_access int_123 1).2.2.1 (by decide), (at_checked_access int_123 1).2.2.2.1⟩

/-- Claim C8 fails as stated: for `sizeof(T) == 1` and `capacity() == SIZE_MAX / 2`,
which is below `max_size() == SIZE_MAX`, `new_possible_capacity()` returns `SIZE_MAX`
while `max(1, min(max_size(), 2 * capacity()))` is `SIZE_MAX - 1`. -/
theorem new_possible_capacity_formula_fails :
    bool_half.capacity ≤ bool_half.max_size ∧
    bool_half.new_possible_capacity = 2 ^ 64 - 1 ∧
    max 1 (min bool_half.max_size (2 * bool_half.capacity)) = 2 ^ 64 - 2 ∧
    bool_half.new_possible_capacity
      ≠ max 1 (min bool_half.max_size (2 * bool_half.capacity)) := by
  decide

/-- Claim C8, amended.  For every element size and every capacity
`c <= max_size()`, `new_possible_capacity()` equals `max(1, min(max_size(), 2 * c))` in
exact arithmetic, except when `sizeof(T) == 1` and `c == SIZE_MAX / 2`, where it is
`max_size() == SIZE_MAX`, one more than `2 * c`; in particular it is `max_size()`
whenever `2 * c` exceeds `max_size()`. -/
theorem new_possible_capacity_formula (v : Vector T) (hc : v.capacity ≤ v.max_size) :
    (¬ (ElemType.sizeof T = 1 ∧ v.capacity = SIZE_MAX / 2) →
      v.new_possible_capacity = max 1 (min v.max_size (2 * v.capacity))) ∧
    (ElemType.sizeof T = 1 ∧ v.capacity = SIZE_MAX / 2 →
      v.new_possible_capacity = v.max_size ∧ v.max_size = SIZE_MAX ∧
      v.max_size = 2 * v.capacity + 1) ∧
    (v.max_size < 2 * v.capacity → v.new_possible_capacity = v.max_size) := by
  unfold capacity at *
  have hmax := max_size_le v
  have hhalf : SIZE_MAX / 2 * 2 + 1 = SIZE_MAX := by decide
  have hbig : 1 ≤ SIZE_MAX / 2 := by decide
  have hwrap : v.capacity_ < SIZE_MAX / 2 → to_size_t (2 * v.capacity_) = 2 * v.capacity_ :=
    fun h => to_size_t_of_le (by omega)
  refine ⟨?_, ?_, ?_⟩
  · intro hne
    unfold new_possible_capacity
    by_cases hlt : v.capacity_ < SIZE_MAX / 2
    · rw [if_pos hlt, hwrap hlt]
    · rw [if_neg hlt]
      have hmin : min v.max_size (2 * v.capacity_) = v.max_size := by
        apply min_eq_left
        by_cases h1 : ElemType.sizeof T = 1
        · have hcap : v.capacity_ ≠ SIZE_MAX / 2 := fun h => hne ⟨h1, h⟩
          omega
        · have h2 : 2 ≤ ElemType.sizeof T := by
            have := ElemType.sizeof_pos (T := T)
            omega
          have h3 : v.max_size ≤ SIZE_MAX / 2 := by
            unfold max_size
            exact Nat.div_le_div_left h2 (by decide)
          omega
      have hone : 1 ≤ v.max_size := by omega
      rw [hmin]
      exact (max_eq_right hone).symm
  · rintro ⟨h1, h2⟩
    have hm : v.max_size = SIZE_MAX := by
      unfold max_size
      rw [h1, Nat.div_one]
    unfold new_possible_capacity
    rw [if_neg (by omega)]
    exact ⟨rfl, hm, by omega⟩
  · intro h2c
    unfold new_possible_capacity
    by_cases hlt : v.capacity_ < SIZE_MAX / 2
    · rw [if_pos hlt, hwrap hlt, min_eq_left (by omega)]
      exact max_eq_right (by omega)
    · rw [if_neg hlt]

theorem new_possible_capacity_formula_witness :
    int_123.capacity ≤ int_123.max_size ∧
    int_123.new_possible_capacity = max 1 (min int_123.max_size (2 * int_123.capacity)) :=
  ⟨by decide, (new_possible_capacity_formula int_123 (by decide)).1 (by decide)⟩

theorem clog_two_values :
    Nat.clog 2 1 = 0 ∧ Nat.clog 2 2 = 1 ∧ Nat.clog 2 3 = 2 ∧ Nat.clog 2 4 = 2 ∧
    Nat.clog 2 5 = 3 :=
  ⟨Nat.clog_one_right 2, clog_two_succ_pow 0, clog_two_succ_pow 1, Nat.clog_pow 2 2 (by decide),
   clog_two_succ_pow 2⟩

theorem capacity_after_pushes (vs : List T) (heap : Heap) (k : Nat)
    (hk1 : 1 ≤ k) (hk2 : k ≤ vs.length)
    (hmax : 2 ^ Nat.clog 2 k ≤ (ctor_default : Vector T).max_size) :
    ((ctor_default : Vector T).push_back_all heap (vs.take k)).1.capacity_
      = 2 ^ Nat.clog 2 k := by
  have hlen : (vs.take k).length = k := by rw [List.length_take]; omega
  obtain ⟨_, h2⟩ := push_back_all_capacity (vs.take k) (ctor_default : Vector T) heap 0 rfl rfl
    (by rw [hlen, Nat.zero_add]; exact hmax)
  rw [hlen, Nat.zero_add, if_neg (by omega)] at h2
  exact h2

/-- Claim C9.  Starting from `Vector()`, after the `k`-th of a series of `push_back`
calls (`k >= 1`) the capacity is `2 ^ clog2 k`, the least power of two that is at least
`k`, provided that power does not exceed `max_size()`, so that no doubling was clamped;
after calls 1 to 5 the capacities are 1, 2, 4, 4, 8. -/
theorem push_back_capacity_powers_of_two (vs : List T) (heap : Heap) (k : Nat)
    (hk1 : 1 ≤ k) (hk2 : k ≤ vs.length)
    (hmax : 2 ^ Nat.clog 2 k ≤ (ctor_default : Vector T).max_size) :
    ((ctor_default : Vector T).push_back_all heap (vs.take k)).1.capacity
      = 2 ^ Nat.clog 2 k ∧
    k ≤ ((ctor_default : Vector T).push_back_all heap (vs.take k)).1.capacity ∧
    (∀ m : Nat, k ≤ 2 ^ m →
      ((ctor_default : Vector T).push_back_all heap (vs.take k)).1.capacity ≤ 2 ^ m) ∧
    (5 ≤ k →
      [1, 2, 3, 4, 5].map
        (fun n => ((ctor_default : Vector T).push_back_all heap (vs.take n)).1.capacity)
        = [1, 2, 4, 4, 8]) := by
  unfold capacity
  have hcap := capacity_after_pushes vs heap k hk1 hk2 hmax
  refine ⟨hcap, ?_, ?_, ?_⟩
  · rw [hcap]
    exact Nat.le_pow_clog (by decide) k
  · intro m hm
    rw [hcap]
    exact Nat.pow_le_pow_right (by decide) ((Nat.le_pow_iff_clog_le (by decide)).1 hm)
  · intro h5
    have hsmall : ∀ n : Nat, 1 ≤ n → n ≤ 5 →
        ((ctor_default : Vector T).push_back_all heap (vs.take n)).1.capacity_
          = 2 ^ Nat.clog 2 n := by
      intro n hn1 hn5
      apply capacity_after_pushes vs heap n hn1 (by omega)
      exact le_trans
        (Nat.pow_le_pow_right (by decide) (Nat.clog_mono_right 2 (by omega))) hmax
    obtain ⟨c1, c2, c3, c4, c5⟩ := clog_two_values
    simp only [List.map_cons, List.map_nil]
    rw [hsmall 1 (by omega) (by omega), hsmall 2 (by omega) (by omega),
      hsmall 3 (by omega) (by omega), hsmall 4 (by omega) (by omega),
      hsmall 5 (by omega) (by omega), c1, c2, c3, c4, c5]
    rfl

theorem push_back_capacity_powers_of_two_witness :
    1 ≤ 5 ∧ 5 ≤ ([10, 20, 30, 40, 50] : List Int).length ∧
    2 ^ Nat.clog 2 5 ≤ (ctor_default : Vector Int).max_size ∧
    ((ctor_default : Vector Int).push_back_all [] (([10, 20, 30, 40, 50] : List Int).take 5)).1.capacity
      = 2 ^ Nat.clog 2 5 ∧
    [1, 2, 3, 4, 5].map
        (fun n => ((ctor_default : Vector Int).push_back_all []
          (([10, 20, 30, 40, 50] : List Int).take n)).1.capacity)
        = [1, 2, 4, 4, 8] :=
  have hmax : 2 ^ Nat.clog 2 5 ≤ (ctor_default : Vector Int).max_size := by
    rw [clog_two_values.2.2.2.2]; decide
  have h := push_back_capacity_powers_of_two ([10, 20, 30, 40, 50] : List Int) [] 5
    (by decide) (by decide) hmax
  ⟨by decide, by decide, hmax, h.1, h.2.2.2 (by decide)⟩

/-- Claim C10.  For a container whose capacity is within `max_size()` and every
`n > max_size()`, `reserve(n)` fails with a length error; no storage request is issued
before the failure, and the elements, size and capacity are unchanged. -/
theorem reserve_length_error_no_effect (v : Vector T) (heap : Heap) (n : Nat)
    (hn : v.max_size < n) (hcap : v.capacity ≤ v.max_size) :
    (v.reserve heap n).1 = Except.error Exception.length_error ∧
    (v.reserve heap n).2.2 = heap ∧
    (v.reserve heap n).2.1 = v := by
  unfold capacity at hcap
  unfold reserve
  rw [if_neg (by omega), if_pos hn]
  exact ⟨rfl, rfl, rfl⟩

theorem reserve_length_error_no_effect_witness :
    int_123.max_size < 2 ^ 62 ∧ int_123.capacity ≤ int_123.max_size ∧
    (int_123.reserve [] (2 ^ 62)).1 = Except.error Exception.length_error ∧
    (int_123.reserve [] (2 ^ 62)).2.2 = [] ∧
    (int_123.reserve [] (2 ^ 62)).2.1 = int_123 :=
  have h := reserve_length_error_no_effect int_123 [] (2 ^ 62) (by decide) (by decide)
  ⟨by decide, by decide, h.1, h.2.1, h.2.2⟩

theorem resize_value_capacity_of_gt (v : Vector T) (heap : Heap) (count : Nat) (value : T)
    (h1 : ¬ count < v.size_) (h2 : ¬ count ≤ v.capacity_) :
    (v.resize_value heap count value).1.capacity_ = count ∧
    (v.resize_value heap count value).1.size_ = count := by
  unfold resize_value
  rw [if_neg h1, if_neg h2, if_pos (by omega)]
  exact ⟨rfl, rfl⟩

/-- Claim C11, evaluated where the code departs from it.  `2^62` exceeds `max_size()`
of `Vector<int>`; `resize(2^62, 0)` on a default-constructed `Vector<int>` raises no
error and records `capacity() == 2^62`, whereas `resize(2^62)` and `reserve(2^62)` on
the same container fail with a length error. -/
theorem resize_value_capacity_exceeds_max_size :
    (ctor_default : Vector Int).max_size < 2 ^ 62 ∧
    ((ctor_default : Vector Int).resize_value [] (2 ^ 62) 0).1.capacity_ = 2 ^ 62 ∧
    ((ctor_default : Vector Int).resize [] (2 ^ 62)).1
      = Except.error Exception.length_error ∧
    ((ctor_default : Vector Int).reserve [] (2 ^ 62)).1
      = Except.error Exception.length_error :=
  ⟨by decide,
   (resize_value_capacity_of_gt (ctor_default : Vector Int) [] (2 ^ 62) 0
      (by decide) (by decide)).1,
   rfl, rfl⟩

theorem operator_eq_iff [DecidableEq T] (a b : Vector T) :
    operator_eq a b = true ↔
      a.size = b.size ∧ ∀ i : Nat, i < a.size → a.operator_subscript i = b.operator_subscript i := by
  unfold operator_eq
  by_cases hs : a.size = b.size
  · have hn : ¬ a.size ≠ b.size := fun h => h hs
    rw [if_neg hn, List.all_eq_true]
    constructor
    · intro h
      exact ⟨hs, fun i hi => of_decide_eq_true (h i (List.mem_range.2 hi))⟩
    · rintro ⟨_, h⟩ i hi
      exact decide_eq_true (h i (List.mem_range.1 hi))
  · rw [if_pos hs]
    constructor
    · intro h
      cases h
    · rintro ⟨h, _⟩
      exact absurd h hs

theorem ctor_copy_of_pos (heap : Heap) (a : Vector T) (hpos : 0 < a.size_)
    (hmax : a.size_ ≤ a.max_size) :
    ctor_copy heap a =
      (Except.ok { data_ := relocate_loop a.data_ a.size_ (List.replicate a.size_ none),
                   size_ := a.size_, capacity_ := a.size_ },
       heap ++ [HeapCall.operator_new (ElemType.sizeof T * a.size_)]) := by
  have hnot : ¬ a.size_ > (ctor_default : Vector T).max_size := by
    unfold max_size at hmax ⊢
    omega
  have hslots := operator_new_slots a heap hmax
  have hbytes := to_size_t_of_le (sizeof_mul_le a hmax)
  unfold ctor_copy
  rw [if_pos hpos, if_neg hnot]
  dsimp only
  rw [hslots]
  unfold operator_new
  rw [hbytes]

/-- The copy constructor on a container `A` holding `xs`, with `size()` within
`max_size()`, returns a container `B` with `A == B`, the same size and the same
elements in order, in a newly acquired block with exactly `size()` slots. -/
theorem ctor_copy_spec [DecidableEq T] (a : Vector T) (xs : List T)
    (heap : Heap) (hx : a.Holds xs) (hmax : a.size ≤ a.max_size) :
    ∃ b : Vector T,
      (ctor_copy heap a).1 = Except.ok b ∧
      operator_eq a b = true ∧
      b.size = a.size ∧
      b.Holds xs ∧
      b.capacity = a.size ∧
      b.data_.length = a.size ∧
      (0 < a.size →
        (ctor_copy heap a).2 = heap ++ [HeapCall.operator_new (ElemType.sizeof T * a.size)]) := by
  unfold size capacity at *
  have hsl := holds_size_le_length hx
  by_cases hpos : 0 < a.size_
  · have hC := ctor_copy_of_pos heap a hpos hmax
    have hget : ∀ j, j < a.size_ →
        (relocate_loop a.data_ a.size_ (List.replicate a.size_ none))[j]? = a.data_[j]? := by
      intro j hj
      rw [getElem?_relocate_loop, List.length_replicate, if_pos ⟨hj, hj⟩]
      exact some_getD_eq_getElem? _ (by omega)
    refine ⟨{ data_ := relocate_loop a.data_ a.size_ (List.replicate a.size_ none),
              size_ := a.size_, capacity_ := a.size_ },
      by rw [hC], ?_, rfl, ?_, rfl, ?_, fun _ => by rw [hC]⟩
    · rw [operator_eq_iff]
      refine ⟨rfl, ?_⟩
      intro i hi
      show a.data_.getD i none
        = (relocate_loop a.data_ a.size_ (List.replicate a.size_ none)).getD i none
      rw [List.getD_eq_getElem?_getD, List.getD_eq_getElem?_getD, hget i hi]
    · rw [holds_iff]
      rw [holds_iff] at hx
      refine ⟨hx.1, fun j hj => ?_⟩
      show (relocate_loop a.data_ a.size_ (List.replicate a.size_ none))[j]? = _
      rw [hget j hj]
      exact hx.2 j hj
    · show (relocate_loop a.data_ a.size_ (List.replicate a.size_ none)).length = _
      rw [length_relocate_loop, List.length_replicate]
  · have h0 : a.size_ = 0 := by omega
    have hC : ctor_copy heap a = (Except.ok ctor_default, heap) := by
      unfold ctor_copy
      rw [if_neg hpos]
    have hxs : xs = [] := List.eq_nil_of_length_eq_zero (by rw [← hx.1]; exact h0)
    refine ⟨ctor_default, by rw [hC], ?_, h0.symm, ?_, h0.symm, h0.symm,
      fun h => absurd h hpos⟩
    · rw [operator_eq_iff]
      exact ⟨h0, fun i hi => absurd hi (by unfold size; omega)⟩
    · rw [hxs]
      exact holds_ctor_default

/-- Claim C13.  Move-constructing `B` from `A` leaves `A` with `size() == 0`,
`capacity() == 0` and no storage, and gives `B` the three members `A` had: `A`'s block
with its elements in the original order, `A`'s size and `A`'s capacity. -/
theorem move_constructed_takes_all (a : Vector T) :
    (ctor_move a).2.size = 0 ∧ (ctor_move a).2.capacity = 0 ∧ (ctor_move a).2.data_ = [] ∧
    (ctor_move a).1 = a ∧
    (ctor_move a).1.size = a.size ∧ (ctor_move a).1.capacity = a.capacity ∧
    (∀ xs : List T, a.Holds xs → (ctor_move a).1.Holds xs) :=
  ⟨rfl, rfl, rfl, rfl, rfl, rfl, fun _ h => h⟩

theorem move_constructed_takes_all_witness :
    (ctor_move int_123).2.size = 0 ∧ (ctor_move int_123).1.Holds [1, 2, 3] :=
  ⟨(move_constructed_takes_all int_123).1,
   (move_constructed_takes_all int_123).2.2.2.2.2.2 [1, 2, 3] ⟨rfl, rfl⟩⟩

/-- Claim C14 fails as stated: after `A = std::move(B)` with `A` equal to
`Vector<int>{1, 2, 3}` and `B` equal to `Vector<int>{4}`, the source `B` has
`size() == 3`, not 0. -/
theorem move_assign_source_not_empty :
    (operator_assign_move int_123 int_4).2.size = 3 ∧
    (operator_assign_move int_123 int_4).2.size ≠ 0 ∧
    (operator_assign_move int_123 int_4).1 = int_4 := by
  decide

/-- Claim C14, amended.  After the move-assignment `A = std::move(B)` the target `A`
holds `B`'s original contents in the original order, with `B`'s size and capacity, and
the source `B` holds `A`'s original contents, size and capacity: the two objects are
exchanged, and the source is left empty exactly when the target was empty before. -/
theorem move_assign_exchanges (a b : Vector T) :
    (operator_assign_move a b).1 = b ∧ (operator_assign_move a b).2 = a ∧
    (∀ xs : List T, b.Holds xs → (operator_assign_move a b).1.Holds xs) ∧
    ((operator_assign_move a b).2.size = 0 ↔ a.size = 0) :=
  ⟨rfl, rfl, fun _ h => h, Iff.rfl⟩

theorem move_assign_exchanges_witness :
    (operator_assign_move int_123 int_4).1 = int_4 ∧
    (operator_assign_move int_123 int_4).1.Holds [4] :=
  ⟨(move_assign_exchanges int_123 int_4).1,
   (move_assign_exchanges int_123 int_4).2.2.1 [4] ⟨rfl, rfl⟩⟩

/-- Claim C15, evaluated where the code departs from it.  `clear()` on
`Vector<int>{1, 2, 3}` returns with `size() == 3` and `empty()` false: it issues one
`operator delete` on the address of `data_` and assigns no member; in general the
object after `clear()` is the object before it. -/
theorem clear_leaves_size :
    (int_123.clear []).1.size = 3 ∧ (int_123.clear []).1.empty = false ∧
    (int_123.clear []).2 = [HeapCall.operator_delete_pointer 12] ∧
    (∀ (U : Type) [ElemType U] (v : Vector U) (heap : Heap), (v.clear heap).1 = v) :=
  ⟨by decide, by decide, by decide, fun _ _ _ _ => rfl⟩

/-- Claim C17.  `operator==(A, B)` is true if and only if `A.size() == B.size()` and
`A[i] == B[i]` for every `i < A.size()`; the capacities do not enter the result. -/
theorem operator_eq_spec [DecidableEq T] (a b : Vector T) :
    (operator_eq a b = true ↔
      a.size = b.size ∧
      ∀ i : Nat, i < a.size → a.operator_subscript i = b.operator_subscript i) ∧
    (∀ c d : Nat,
      operator_eq { a with capacity_ := c } { b with capacity_ := d } = operator_eq a b) :=
  ⟨operator_eq_iff a b, fun _ _ => rfl⟩

theorem operator_eq_spec_witness :
    operator_eq int_123 { int_123 with capacity_ := 8 } = true ∧
    operator_eq int_123 int_4 = false :=
  ⟨(operator_eq_spec int_123 { int_123 with capacity_ := 8 }).1.2
     ⟨rfl, fun _ _ => rfl⟩,
   by decide⟩

theorem foldl_set_range' {α : Type} (g : Nat → α) (first : Nat) (data : List α) :
    ∀ (n j : Nat),
    ((List.range' first n).foldl (fun d i => d.set i (g i)) data)[j]? =
      if first ≤ j ∧ j < first + n ∧ j < data.length then some (g j) else data[j]? := by
  intro n
  induction n with
  | zero =>
    intro j
    rw [if_neg (by omega)]
    rfl
  | succ n ih =>
    intro j
    have hl : ∀ m : Nat,
        ((List.range' first m).foldl (fun d i => d.set i (g i)) data).length = data.length := by
      intro m
      induction m with
      | zero => rfl
      | succ m ihm =>
        rw [List.range'_1_concat, List.foldl_append]
        show (List.set _ _ _).length = _
        rw [List.length_set]
        exact ihm
    rw [List.range'_1_concat, List.foldl_append]
    show (List.set _ (first + n) (g (first + n)))[j]? = _
    rw [List.getElem?_set, hl n, ih j]
    by_cases hj : first + n = j
    · subst hj
      rw [if_pos rfl]
      by_cases hlen : first + n < data.length
      · rw [if_pos hlen, if_pos ⟨by omega, by omega, hlen⟩]
      · rw [if_neg hlen, if_neg (by omega), List.getElem?_eq_none (by omega)]
    · rw [if_neg hj]
      by_cases hc : first ≤ j ∧ j < first + n ∧ j < data.length
      · rw [if_pos hc, if_pos ⟨hc.1, by omega, hc.2.2⟩]
      · rw [if_neg hc, if_neg (by omega)]

theorem length_foldl_set_range' {α : Type} (g : Nat → α) (first : Nat) (data : List α) :
    ∀ n : Nat,
    ((List.range' first n).foldl (fun d i => d.set i (g i)) data).length = data.length := by
  intro n
  induction n with
  | zero => rfl
  | succ n ih =>
    rw [List.range'_1_concat, List.foldl_append]
    show (List.set _ _ _).length = _
    rw [List.length_set]
    exact ih

theorem getElem?_fill_loop (first last : Nat) (value : T) (data : List (Option T)) (j : Nat) :
    (fill_loop first last value data)[j]? =
      if first ≤ j ∧ j < last ∧ j < data.length then some (some value) else data[j]? := by
  unfold fill_loop
  rw [foldl_set_range' (fun _ => some value) first data (last - first) j]
  by_cases hc : first ≤ j ∧ j < last ∧ j < data.length
  · rw [if_pos hc, if_pos ⟨hc.1, by omega, hc.2.2⟩]
  · rw [if_neg hc, if_neg (by omega)]

theorem length_fill_loop (first last : Nat) (value : T) (data : List (Option T)) :
    (fill_loop first last value data).length = data.length := by
  unfold fill_loop
  exact length_foldl_set_range' (fun _ => some value) first data (last - first)

theorem getElem?_destroy_loop (first last : Nat) (data : List (Option T)) (j : Nat) :
    (destroy_loop first last data)[j]? =
      if first ≤ j ∧ j < last ∧ j < data.length then some none else data[j]? := by
  unfold destroy_loop
  rw [foldl_set_range' (fun _ => (none : Option T)) first data (last - first) j]
  by_cases hc : first ≤ j ∧ j < last ∧ j < data.length
  · rw [if_pos hc, if_pos ⟨hc.1, by omega, hc.2.2⟩]
  · rw [if_neg hc, if_neg (by omega)]

theorem length_destroy_loop (first last : Nat) (data : List (Option T)) :
    (destroy_loop first last data).length = data.length := by
  unfold destroy_loop
  exact length_foldl_set_range' (fun _ => (none : Option T)) first data (last - first)

theorem subscript_of_getElem? (d : List (Option T)) (i : Nat) (x : Option T)
    (h : d[i]? = some x) : d.getD i none = x := by
  rw [List.getD_eq_getElem?_getD, h]
  rfl

/-- Claim C18.  For a container holding `xs` (size `m`) whose block has `capacity()`
slots, every `n <= max_size()` and every value `v`, after `resize(n, v)`:
`size() == n`, `size() <= capacity()`, element `i` equals `xs[i]` for `i < min(m, n)`,
and element `i` equals `v` for `m <= i < n`. -/
theorem resize_value_spec (v : Vector T) (heap : Heap) (xs : List T) (n : Nat) (value : T)
    (hx : v.Holds xs) (hlen : v.data_.length = v.capacity_) (hn : n ≤ v.max_size) :
    (v.resize_value heap n value).1.size = n ∧
    (v.resize_value heap n value).1.size ≤ (v.resize_value heap n value).1.capacity ∧
    (∀ (i : Nat) (hi : i < xs.length), i < n →
      (v.resize_value heap n value).1.operator_subscript i = some xs[i]) ∧
    (∀ i : Nat, xs.length ≤ i → i < n →
      (v.resize_value heap n value).1.operator_subscript i = some value) := by
  unfold size capacity operator_subscript
  have hsl := holds_size_le_length hx
  rw [holds_iff] at hx
  obtain ⟨hx1, hx2⟩ := hx
  have hold : ∀ (i : Nat) (hi : i < xs.length), v.data_[i]? = some (some xs[i]) := by
    intro i hi
    rw [hx2 i (by omega), List.getElem?_map, List.getElem?_eq_getElem hi]
    rfl
  by_cases h1 : n < v.size_
  · have hR : (v.resize_value heap n value).1 =
        { data_ := destroy_loop n v.size_ v.data_, size_ := n, capacity_ := v.capacity_ } := by
      unfold resize_value
      rw [if_pos h1]
    rw [hR]
    refine ⟨rfl, ?_, ?_, ?_⟩
    · show n ≤ v.capacity_
      omega
    · intro i hi hin
      apply subscript_of_getElem?
      show (destroy_loop n v.size_ v.data_)[i]? = _
      rw [getElem?_destroy_loop, if_neg (by omega)]
      exact hold i hi
    · intro i him hin
      omega
  · by_cases h2 : n ≤ v.capacity_
    · have hR : (v.resize_value heap n value).1 =
          { data_ := fill_loop v.size_ n value v.data_, size_ := n,
            capacity_ := v.capacity_ } := by
        unfold resize_value
        rw [if_neg h1, if_pos h2]
      rw [hR]
      refine ⟨rfl, h2, ?_, ?_⟩
      · intro i hi hin
        apply subscript_of_getElem?
        show (fill_loop v.size_ n value v.data_)[i]? = _
        rw [getElem?_fill_loop, if_neg (by omega)]
        exact hold i hi
      · intro i him hin
        apply subscript_of_getElem?
        show (fill_loop v.size_ n value v.data_)[i]? = _
        rw [getElem?_fill_loop, if_pos ⟨by omega, hin, by omega⟩]
    · have hR : (v.resize_value heap n value).1 =
          { data_ := fill_loop v.size_ n value
              (relocate_loop v.data_ v.size_ (List.replicate n none)),
            size_ := n, capacity_ := n } := by
        unfold resize_value
        rw [if_neg h1, if_neg h2, if_pos (by omega)]
        dsimp only
        rw [operator_new_slots v heap hn]
      rw [hR]
      refine ⟨rfl, le_refl _, ?_, ?_⟩
      · intro i hi hin
        apply subscript_of_getElem?
        show (fill_loop v.size_ n value _)[i]? = _
        rw [getElem?_fill_loop, if_neg (by omega), getElem?_relocate_loop,
          List.length_replicate, if_pos ⟨by omega, hin⟩,
          some_getD_eq_getElem? _ (by omega)]
        exact hold i hi
      · intro i him hin
        apply subscript_of_getElem?
        show (fill_loop v.size_ n value _)[i]? = _
        rw [getElem?_fill_loop, length_relocate_loop, List.length_replicate,
          if_pos ⟨by omega, hin, hin⟩]

theorem resize_value_spec_witness :
    int_123.Holds [1, 2, 3] ∧ int_123.data_.length = int_123.capacity_ ∧
    5 ≤ int_123.max_size ∧
    (int_123.resize_value [] 5 7).1.size = 5 ∧
    (int_123.resize_value [] 5 7).1.size ≤ (int_123.resize_value [] 5 7).1.capacity ∧
    (int_123.resize_value [] 5 7).1.operator_subscript 1 = some 2 ∧
    (int_123.resize_value [] 5 7).1.operator_subscript 4 = some 7 :=
  have h := resize_value_spec int_123 [] [1, 2, 3] 5 7 ⟨rfl, rfl⟩ rfl (by decide)
  ⟨⟨rfl, rfl⟩, rfl, by decide, h.1, h.2.1, h.2.2.1 1 (by decide) (by decide),
   h.2.2.2 4 (by decide) (by decide)⟩

/-- Claim C19, evaluated where the code departs from it.  On `Vector<int>{1, 2, 3}`
(capacity 3), `resize(5)` takes the growing branch: the elements are relocated into the
block of the local `new_vector`, and the destructor of `new_vector` then releases that
block (the last storage request is the `operator delete` of the 20 bytes just
acquired, after the one of the emptied temporary) while `data_` still points to it.  After the following `resize(3)`,
`size() == 3` but the slot at index 0 is released storage, not the element 1. -/
theorem resize_grow_then_shrink_loses_elements :
    (int_123.resize [] 5).1 = Except.ok () ∧
    (int_123.resize [] 5).2.1.size = 5 ∧
    (int_123.resize [] 5).2.2
      = [HeapCall.operator_new 20, HeapCall.operator_delete 0 0,
         HeapCall.operator_delete 0 20] ∧
    ((int_123.resize [] 5).2.1.resize (int_123.resize [] 5).2.2 3).2.1.size = 3 ∧
    ((int_123.resize [] 5).2.1.resize (int_123.resize [] 5).2.2 3).2.1.operator_subscript 0
      = none ∧
    int_123.operator_subscript 0 = some 1 :=
  ⟨rfl, rfl, rfl, rfl, rfl, rfl⟩

theorem try_copy_loop_throws (copy_throws : T → Bool) (data : List (Option T)) :
    ∀ (indices : List Nat) (new_data : List (Option T)),
    (∃ i, i ∈ indices ∧ ∃ x, data.getD i none = some x ∧ copy_throws x = true) →
    (try_copy_loop copy_throws data indices new_data).2 = true := by
  intro indices
  induction indices with
  | nil =>
    rintro _ ⟨i, hi, _⟩
    cases hi
  | cons k rest ih =>
    rintro new_data ⟨i, hi, x, hx, ht⟩
    unfold try_copy_loop
    cases hk : data.getD k none with
    | none =>
      have hne : i ≠ k := by
        intro h
        rw [h, hk] at hx
        cases hx
      have hmem : i ∈ rest := by
        cases hi with
        | head => exact absurd rfl hne
        | tail _ h => exact h
      exact ih _ ⟨i, hmem, x, hx, ht⟩
    | some y =>
      show (if copy_throws y = true then (new_data, true)
        else try_copy_loop copy_throws data rest (new_data.set k (some y))).2 = true
      by_cases hy : copy_throws y = true
      · rw [if_pos hy]
      · rw [if_neg hy]
        have hne : i ≠ k := by
          intro h
          rw [h, hk] at hx
          cases hx
          exact hy ht
        have hmem : i ∈ rest := by
          cases hi with
          | head => exact absurd rfl hne
          | tail _ h => exact h
        exact ih _ ⟨i, hmem, x, hx, ht⟩

theorem relocate_may_throw_of_copy_throws (copy_throws : T → Bool) (v : Vector T)
    (heap : Heap) (new_data : List (Option T)) (new_capacity : Nat)
    (hnm : ElemType.is_nothrow_move_constructible T = false)
    (hcc : ElemType.is_copy_constructible T = true)
    (hthrow : ∃ i, i < v.size_ ∧ ∃ x, v.data_.getD i none = some x ∧ copy_throws x = true) :
    relocate_may_throw copy_throws v heap new_data new_capacity =
      (Except.error Exception.element_failure, v,
        heap ++ [HeapCall.operator_delete_new_data
          (to_size_t (new_capacity * ElemType.sizeof T))],
        (try_copy_loop copy_throws v.data_ (List.range v.size_) new_data).1) := by
  obtain ⟨i, hi, x, hx, ht⟩ := hthrow
  have hthrown := try_copy_loop_throws copy_throws v.data_ (List.range v.size_) new_data
    ⟨i, List.mem_range.2 hi, x, hx, ht⟩
  unfold relocate_may_throw
  rw [hnm, hcc]
  dsimp only
  rw [if_neg (by decide), if_pos rfl, if_pos hthrown]

/-- Claim C20.  For an element type that `relocate` copies (copy-constructible, not
nothrow-move-constructible), if the copy of some element at an index below `size()`
throws while `reserve(n)` (with `capacity() < n <= max_size()`) or the growth of a full
`push_back` populates the new block, the call ends with that failure and the
container's elements, size and capacity are exactly as before the call. -/
theorem copy_relocation_failure_leaves_container (copy_throws : T → Bool) (v : Vector T)
    (heap : Heap) (n : Nat) (value : T)
    (hnm : ElemType.is_nothrow_move_constructible T = false)
    (hcc : ElemType.is_copy_constructible T = true)
    (hthrow : ∃ i, i < v.size ∧ ∃ x, v.operator_subscript i = some x ∧ copy_throws x = true) :
    (v.capacity < n → n ≤ v.max_size →
      (reserve_may_throw copy_throws v heap n).1 = Except.error Exception.element_failure ∧
      (reserve_may_throw copy_throws v heap n).2.1 = v) ∧
    (v.size = v.capacity →
      (push_back_may_throw copy_throws v heap value).1
        = Except.error Exception.element_failure ∧
      (push_back_may_throw copy_throws v heap value).2.1 = v) := by
  unfold size capacity operator_subscript at *
  constructor
  · intro hgt hn
    unfold reserve_may_throw
    rw [if_neg (by omega), if_neg (by omega)]
    dsimp only
    rw [relocate_may_throw_of_copy_throws copy_throws v _ _ _ hnm hcc hthrow]
    exact ⟨rfl, rfl⟩
  · intro hfull
    unfold push_back_may_throw
    rw [if_pos hfull]
    dsimp only
    rw [relocate_may_throw_of_copy_throws copy_throws v _ _ _ hnm hcc hthrow]
    exact ⟨rfl, rfl⟩

theorem copy_relocation_failure_leaves_container_witness :
    (reserve_may_throw (fun x : CopyOnly => decide (x.tag = 2)) copy_only_123 [] 10).1
      = Except.error Exception.element_failure ∧
    (reserve_may_throw (fun x : CopyOnly => decide (x.tag = 2)) copy_only_123 [] 10).2.1
      = copy_only_123 ∧
    (push_back_may_throw (fun x : CopyOnly => decide (x.tag = 2)) copy_only_123 [] ⟨4⟩).2.1
      = copy_only_123 :=
  have h := copy_relocation_failure_leaves_container (fun x : CopyOnly => decide (x.tag = 2))
    copy_only_123 [] 10 ⟨4⟩ rfl rfl ⟨1, by decide, ⟨2⟩, rfl, rfl⟩
  ⟨(h.1 (by decide) (by decide)).1, (h.1 (by decide) (by decide)).2, (h.2 rfl).2⟩

theorem try_copy_loop_no_throw (data : List (Option T)) :
    ∀ (indices : List Nat) (new_data : List (Option T)),
    try_copy_loop (fun _ => false) data indices new_data =
      (indices.foldl (fun nd i => nd.set i (data.getD i none)) new_data, false) := by
  intro indices
  induction indices with
  | nil => intro new_data; rfl
  | cons k rest ih =>
    intro new_data
    unfold try_copy_loop
    rw [List.foldl_cons]
    cases hk : data.getD k none with
    | none => exact ih _
    | some y =>
      show (if false = true then (new_data, true)
        else try_copy_loop (fun _ => false) data rest (new_data.set k (some y))) = _
      rw [if_neg (by decide)]
      exact ih _

theorem relocate_may_throw_no_throw (v : Vector T) (heap : Heap)
    (new_data : List (Option T)) (new_capacity : Nat) :
    (relocate_may_throw (fun _ => false) v heap new_data new_capacity).1
      = (v.relocate heap new_data new_capacity).1 ∧
    (relocate_may_throw (fun _ => false) v heap new_data new_capacity).2.1
      = (v.relocate heap new_data new_capacity).2.1 ∧
    (relocate_may_throw (fun _ => false) v heap new_data new_capacity).2.2.1
      = (v.relocate heap new_data new_capacity).2.2 := by
  unfold relocate_may_throw
  rw [try_copy_loop_no_throw]
  cases hnm : ElemType.is_nothrow_move_constructible T with
  | true => exact ⟨rfl, rfl, rfl⟩
  | false =>
    cases hcc : ElemType.is_copy_constructible T with
    | true =>
      unfold relocate relocate_loop
      rw [hnm, hcc]
      exact ⟨rfl, rfl, rfl⟩
    | false => exact ⟨rfl, rfl, rfl⟩

theorem reserve_may_throw_no_throw (v : Vector T) (heap : Heap) (n : Nat) :
    reserve_may_throw (fun _ => false) v heap n = v.reserve heap n := by
  unfold reserve_may_throw reserve
  by_cases h1 : n ≤ v.capacity_
  · rw [if_pos h1, if_pos h1]
  · rw [if_neg h1, if_neg h1]
    by_cases h2 : n > v.max_size
    · rw [if_pos h2, if_pos h2]
    · rw [if_neg h2, if_neg h2]
      obtain ⟨r1, r2, r3⟩ := relocate_may_throw_no_throw v
        (operator_new heap (to_size_t (ElemType.sizeof T * n)) : List (Option T) × Heap).2
        (operator_new heap (to_size_t (ElemType.sizeof T * n)) : List (Option T) × Heap).1 n
      exact Prod.ext r1 (Prod.ext r2 r3)

theorem try_copy_loop_range' (copy_throws : T → Bool) (data : List (Option T)) (k : Nat)
    (x : T) (hx : data.getD k none = some x) (ht : copy_throws x = true) :
    ∀ (n s : Nat) (new_data : List (Option T)), s ≤ k → k < s + n →
    (∀ (i : Nat) (y : T), s ≤ i → i < k → data.getD i none = some y → copy_throws y = false) →
    try_copy_loop copy_throws data (List.range' s n) new_data =
      ((List.range' s (k - s)).foldl (fun d i => d.set i (data.getD i none)) new_data,
       true) := by
  intro n
  induction n with
  | zero =>
    intro s new_data h1 h2 _
    omega
  | succ n ih =>
    intro s new_data h1 h2 hok
    rw [List.range'_succ]
    unfold try_copy_loop
    by_cases hs : s = k
    · subst hs
      rw [hx, Nat.sub_self]
      show (if copy_throws x = true then (new_data, true) else _) = _
      rw [if_pos ht]
      rfl
    · have hk : k - s = (k - (s + 1)) + 1 := by omega
      rw [hk, List.range'_succ, List.foldl_cons]
      cases hd : data.getD s none with
      | none =>
        exact ih (s + 1) _ (by omega) (by omega) (fun i y hi1 hi2 => hok i y (by omega) hi2)
      | some y =>
        have hy : copy_throws y = false := hok s y (le_refl _) (by omega) hd
        show (if copy_throws y = true then (new_data, true) else _) = _
        rw [if_neg (by rw [hy]; decide)]
        exact ih (s + 1) _ (by omega) (by omega) (fun i y hi1 hi2 => hok i y (by omega) hi2)

theorem try_construct_range' (throws : Nat → Bool) (source : Nat → Option T) (k : Nat)
    (hfail : throws k = true) :
    ∀ (n s : Nat) (new_data : List (Option T)), s ≤ k → k < s + n →
    (∀ i, s ≤ i → i < k → throws i = false) →
    try_construct throws source (List.range' s n) new_data =
      ((List.range' s (k - s)).foldl (fun d i => d.set i (source i)) new_data, true) := by
  intro n
  induction n with
  | zero =>
    intro s new_data h1 h2 _
    omega
  | succ n ih =>
    intro s new_data h1 h2 hok
    rw [List.range'_succ]
    unfold try_construct
    by_cases hs : s = k
    · subst hs
      rw [if_pos hfail, Nat.sub_self]
      rfl
    · have hns : throws s = false := hok s (le_refl _) (by omega)
      have hk : k - s = (k - (s + 1)) + 1 := by omega
      rw [if_neg (by rw [hns]; decide), ih (s + 1) _ (by omega) (by omega)
        (fun i hi1 hi2 => hok i (by omega) hi2), hk, List.range'_succ, List.foldl_cons]

/-- A construction loop whose first throw is at element `k` leaves in `new_data` the
`k` elements it built, each in its slot, and nothing else changed. -/
theorem try_construct_first_failure (throws : Nat → Bool) (source : Nat → Option T)
    (count k : Nat) (new_data : List (Option T)) (hk : k < count) (hlen : count ≤ new_data.length)
    (hfail : throws k = true) (hok : ∀ i, i < k → throws i = false) :
    (try_construct throws source (List.range count) new_data).2 = true ∧
    ∀ j : Nat, j < k →
      (try_construct throws source (List.range count) new_data).1.getD j none = source j := by
  rw [List.range_eq_range', try_construct_range' throws source k hfail count 0 new_data
    (Nat.zero_le _) (by omega) (fun i _ hi => hok i hi), Nat.sub_zero]
  refine ⟨rfl, fun j hj => ?_⟩
  apply subscript_of_getElem?
  show ((List.range' 0 k).foldl (fun d i => d.set i (source i)) new_data)[j]? = _
  rw [foldl_set_range' source 0 new_data k j, if_pos ⟨Nat.zero_le _, by omega, by omega⟩]

/-- The copy loop of `relocate` whose first throw is at element `k` leaves in
`new_data` the copies of the `k` elements before it, each in its slot. -/
theorem try_copy_loop_first_failure (copy_throws : T → Bool) (data : List (Option T))
    (size k : Nat) (x : T) (new_data : List (Option T)) (hk : k < size)
    (hlen : size ≤ new_data.length)
    (hx : data.getD k none = some x) (ht : copy_throws x = true)
    (hok : ∀ (i : Nat) (y : T), i < k → data.getD i none = some y → copy_throws y = false) :
    (try_copy_loop copy_throws data (List.range size) new_data).2 = true ∧
    ∀ j : Nat, j < k →
      (try_copy_loop copy_throws data (List.range size) new_data).1.getD j none
        = data.getD j none := by
  rw [List.range_eq_range', try_copy_loop_range' copy_throws data k x hx ht size 0 new_data
    (Nat.zero_le _) (by omega) (fun i y _ hi => hok i y hi), Nat.sub_zero]
  refine ⟨rfl, fun j hj => ?_⟩
  apply subscript_of_getElem?
  show ((List.range' 0 k).foldl (fun d i => d.set i (data.getD i none)) new_data)[j]? = _
  rw [foldl_set_range' (fun i => data.getD i none) 0 new_data k j,
    if_pos ⟨Nat.zero_le _, by omega, by omega⟩]

theorem try_construct_no_throw (source : Nat → Option T) :
    ∀ (indices : List Nat) (new_data : List (Option T)),
    try_construct (fun _ => false) source indices new_data =
      (indices.foldl (fun d i => d.set i (source i)) new_data, false) := by
  intro indices
  induction indices with
  | nil => intro new_data; rfl
  | cons k rest ih =>
    intro new_data
    unfold try_construct
    rw [if_neg (by decide), List.foldl_cons]
    exact ih _

theorem fill_loop_zero (count : Nat) (value : T) (data : List (Option T)) :
    fill_loop 0 count value data =
      (List.range count).foldl (fun d i => d.set i (some value)) data := by
  unfold fill_loop
  rw [Nat.sub_zero, List.range_eq_range']

theorem fill_from_list_foldl (source : Nat → Option T) :
    ∀ (init : List T) (new_data : List (Option T)) (s : Nat),
    (∀ (i : Nat) (hi : i < init.length), source (s + i) = some init[i]) →
    init.foldl (fun st current => (st.1.set st.2 (some current), st.2 + 1)) (new_data, s) =
      ((List.range' s init.length).foldl (fun d i => d.set i (source i)) new_data,
       s + init.length) := by
  intro init
  induction init with
  | nil => intro new_data s _; rfl
  | cons a rest ih =>
    intro new_data s hsrc
    have h0 : source s = some a := hsrc 0 (Nat.succ_pos _)
    rw [List.foldl_cons, List.length_cons, List.range'_succ, List.foldl_cons, h0]
    show rest.foldl _ (new_data.set s (some a), s + 1) = _
    rw [ih (new_data.set s (some a)) (s + 1) (fun i hi => by
      have hnext := hsrc (i + 1) (Nat.succ_lt_succ hi)
      have e : s + 1 + i = s + (i + 1) := by omega
      rw [e, hnext]
      rfl)]
    congr 1
    omega

/-- When no construction throws, the models of the constructors with `try` blocks give
the outcome, the members and the log of the constructors modelled without them. -/
theorem ctor_may_throw_no_throw [Inhabited T] (heap : Heap) (count : Nat) (value : T)
    (init : List T) (other : Vector T) :
    ((ctor_fill_may_throw (fun _ => false) heap count value).1,
      (ctor_fill_may_throw (fun _ => false) heap count value).2.1)
      = ctor_fill heap count value ∧
    ((ctor_count_may_throw (fun _ => false) heap count
        : Except Exception (Vector T) × Heap × List (Option T)).1,
      (ctor_count_may_throw (fun _ => false) heap count
        : Except Exception (Vector T) × Heap × List (Option T)).2.1)
      = ctor_count heap count ∧
    ((ctor_copy_may_throw (fun _ => false) heap other).1,
      (ctor_copy_may_throw (fun _ => false) heap other).2.1)
      = ctor_copy heap other ∧
    ((ctor_initializer_list_may_throw (fun _ => false) heap init).1,
      (ctor_initializer_list_may_throw (fun _ => false) heap init).2.1)
      = ctor_initializer_list heap init := by
  refine ⟨?_, ?_, ?_, ?_⟩
  · unfold ctor_fill_may_throw ctor_fill
    by_cases h1 : count > 0
    · rw [if_pos h1, if_pos h1]
      by_cases h2 : count > (ctor_default : Vector T).max_size
      · rw [if_pos h2, if_pos h2]
      · rw [if_neg h2, if_neg h2]
        dsimp only
        rw [try_construct_no_throw, if_neg (by simp), fill_loop_zero]
    · rw [if_neg h1, if_neg h1]
  · unfold ctor_count_may_throw ctor_count
    by_cases h1 : count > 0
    · rw [if_pos h1, if_pos h1]
      by_cases h2 : count > (ctor_default : Vector T).max_size
      · rw [if_pos h2, if_pos h2]
      · rw [if_neg h2, if_neg h2]
        dsimp only
        rw [try_construct_no_throw, if_neg (by simp), fill_loop_zero]
    · rw [if_neg h1, if_neg h1]
  · unfold ctor_copy_may_throw ctor_copy
    by_cases h1 : other.size_ > 0
    · rw [if_pos h1, if_pos h1]
      by_cases h2 : other.size_ > (ctor_default : Vector T).max_size
      · rw [if_pos h2, if_pos h2]
      · rw [if_neg h2, if_neg h2]
        dsimp only
        rw [try_construct_no_throw, if_neg (by simp)]
        rfl
    · rw [if_neg h1, if_neg h1]
  · unfold ctor_initializer_list_may_throw ctor_initializer_list
    dsimp only
    by_cases h2 : to_size_t init.length > (ctor_default : Vector T).max_size
    · rw [if_pos h2, if_pos h2]
    · rw [if_neg h2, if_neg h2, try_construct_no_throw, if_neg (by simp)]
      unfold fill_from_list
      rw [fill_from_list_foldl (fun i => init[i]?) init _ 0 (fun i hi => by
        rw [Nat.zero_add]
        exact List.getElem?_eq_getElem hi), List.range_eq_range']

theorem ctor_fill_may_throw_block (throws : Nat → Bool) (heap : Heap) (count : Nat) (value : T)
    (hpos : 0 < count) (hmax : count ≤ (ctor_default : Vector T).max_size) :
    (ctor_fill_may_throw throws heap count value).2.2 =
      (try_construct throws (fun _ => some value) (List.range count)
        (List.replicate count none)).1 := by
  unfold ctor_fill_may_throw
  rw [if_pos hpos, if_neg (by omega)]
  dsimp only
  rw [operator_new_slots (ctor_default : Vector T) heap hmax]
  split <;> rfl

theorem ctor_count_may_throw_block [Inhabited T] (throws : Nat → Bool) (heap : Heap)
    (n : Nat) (hpos : 0 < n) (hmax : n ≤ (ctor_default : Vector T).max_size) :
    (ctor_count_may_throw throws heap n : Except Exception (Vector T) × Heap × List (Option T)).2.2 =
      (try_construct throws (fun _ => some (default : T)) (List.range n)
        (List.replicate n none)).1 := by
  unfold ctor_count_may_throw
  rw [if_pos hpos, if_neg (by omega)]
  dsimp only
  rw [operator_new_slots (ctor_default : Vector T) heap hmax]
  split <;> rfl

theorem ctor_range_may_throw_block (throws : Nat → Bool) (heap : Heap) (input : List T)
    (hmax : input.length ≤ (ctor_default : Vector T).max_size) :
    (ctor_range_may_throw throws heap input).2.2 =
      (try_construct throws (fun i => input[i]?) (List.range input.length)
        (List.replicate input.length none)).1 := by
  have hsz : to_size_t input.length = input.length :=
    to_size_t_of_le (le_trans hmax (max_size_le _))
  unfold ctor_range_may_throw
  dsimp only
  rw [hsz, if_neg (by omega), operator_new_slots (ctor_default : Vector T) heap hmax]
  split <;> rfl

theorem ctor_initializer_list_may_throw_block (throws : Nat → Bool) (heap : Heap)
    (init : List T) (hmax : init.length ≤ (ctor_default : Vector T).max_size) :
    (ctor_initializer_list_may_throw throws heap init).2.2 =
      (try_construct throws (fun i => init[i]?) (List.range init.length)
        (List.replicate init.length none)).1 := by
  have hsz : to_size_t init.length = init.length :=
    to_size_t_of_le (le_trans hmax (max_size_le _))
  unfold ctor_initializer_list_may_throw
  dsimp only
  rw [hsz, if_neg (by omega), operator_new_slots (ctor_default : Vector T) heap hmax]
  split <;> rfl

theorem ctor_copy_may_throw_block (throws : Nat → Bool) (heap : Heap) (other : Vector T)
    (hpos : 0 < other.size_) (hmax : other.size_ ≤ (ctor_default : Vector T).max_size) :
    (ctor_copy_may_throw throws heap other).2.2 =
      (try_construct throws (fun i => other.operator_subscript i) (List.range other.size_)
        (List.replicate other.size_ none)).1 := by
  unfold ctor_copy_may_throw
  rw [if_pos hpos, if_neg (by omega)]
  dsimp only
  rw [operator_new_slots (ctor_default : Vector T) heap hmax]
  split <;> rfl

/-- Claim C21 fails as stated.  `Vector<CopyOnly>` holding the values tagged 1, 2, 3 is
relocated into a block of 6 slots and the copy of the second element throws: the
handler releases the new block and rethrows while slot 0 of that block still holds the
copy built there, which is never destroyed.  `Vector<int>(3, 7)` whose third copy
throws leaves the two elements built in the new block alive as well, and its handler
passes the address of the pointer variable, not the block, to `operator delete`. -/
theorem batch_failure_leaves_elements_alive :
    relocate_may_throw (fun x : CopyOnly => decide (x.tag = 2)) copy_only_123 []
        (List.replicate 6 none) 6
      = (Except.error Exception.element_failure, copy_only_123,
         [HeapCall.operator_delete_new_data 48],
         [some ⟨1⟩, none, none, none, none, none]) ∧
    ctor_fill_may_throw (fun i => decide (i = 2)) [] 3 (7 : Int)
      = (Except.error Exception.undefined_behaviour,
         [HeapCall.operator_new 12, HeapCall.operator_delete_pointer 12],
         [some 7, some 7, none]) :=
  ⟨rfl, rfl⟩

/-- Claim C21, amended.  In every batch construction into a freshly acquired block (the
constructors `Vector(count, value)`, `Vector(n)`, the range, list and copy
constructors, and copy-based `relocate`): if the construction of element `k` is the
first to fail, none of the `k` elements already constructed in that block is
destroyed: when the call is left, each slot below `k` of the block still holds the
object built there.  In copy-based `relocate` the failure is re-signalled to the
caller, the one release requested is that of the block `new_data` just acquired, and
the members of the container are unchanged. -/
theorem batch_failure_destroys_no_element [Inhabited T] (throws : Nat → Bool) (k : Nat)
    (hfail : throws k = true) (hok : ∀ i : Nat, i < k → throws i = false)
    (heap : Heap) (count : Nat) (value : T) (input : List T) (other : Vector T)
    (xs : List T) (hx : other.Holds xs) :
    (k < count → count ≤ other.max_size →
      ∀ j : Nat, j < k →
        (ctor_fill_may_throw throws heap count value).2.2.getD j none = some value ∧
        (ctor_count_may_throw throws heap count
          : Except Exception (Vector T) × Heap × List (Option T)).2.2.getD j none
          = some default) ∧
    (k < input.length → input.length ≤ other.max_size →
      ∀ (j : Nat) (hj : j < input.length), j < k →
        (ctor_range_may_throw throws heap input).2.2.getD j none = some input[j] ∧
        (ctor_initializer_list_may_throw throws heap input).2.2.getD j none
          = some input[j]) ∧
    (k < other.size → other.size ≤ other.max_size →
      ∀ (j : Nat) (hj : j < xs.length), j < k →
        (ctor_copy_may_throw throws heap other).2.2.getD j none = some xs[j]) ∧
    (∀ (copy_throws : T → Bool) (new_data : List (Option T)) (new_capacity : Nat) (x : T),
      ElemType.is_nothrow_move_constructible T = false →
      ElemType.is_copy_constructible T = true →
      other.size ≤ new_data.length →
      xs[k]? = some x → copy_throws x = true →
      (∀ (i : Nat) (y : T), i < k → xs[i]? = some y → copy_throws y = false) →
      (relocate_may_throw copy_throws other heap new_data new_capacity).1
        = Except.error Exception.element_failure ∧
      (relocate_may_throw copy_throws other heap new_data new_capacity).2.1 = other ∧
      (relocate_may_throw copy_throws other heap new_data new_capacity).2.2.1
        = heap ++ [HeapCall.operator_delete_new_data
            (to_size_t (new_capacity * ElemType.sizeof T))] ∧
      ∀ (j : Nat) (hj : j < xs.length), j < k →
        (relocate_may_throw copy_throws other heap new_data new_capacity).2.2.2.getD j none
          = some xs[j]) := by
  unfold size
  have hsx : other.size_ = xs.length := hx.1
  refine ⟨?_, ?_, ?_, ?_⟩
  · intro hk hmax j hj
    rw [ctor_fill_may_throw_block throws heap count value (by omega) hmax,
      ctor_count_may_throw_block throws heap count (by omega) hmax]
    exact ⟨(try_construct_first_failure throws _ count k _ hk
        (by rw [List.length_replicate]) hfail hok).2 j hj,
      (try_construct_first_failure throws _ count k _ hk
        (by rw [List.length_replicate]) hfail hok).2 j hj⟩
  · intro hk hmax j hjl hj
    rw [ctor_range_may_throw_block throws heap input hmax,
      ctor_initializer_list_may_throw_block throws heap input hmax,
      (try_construct_first_failure throws (fun i => input[i]?) input.length k _ hk
        (by rw [List.length_replicate]) hfail hok).2 j hj]
    exact ⟨List.getElem?_eq_getElem hjl, List.getElem?_eq_getElem hjl⟩
  · intro hk hmax j hjl hj
    rw [ctor_copy_may_throw_block throws heap other (by omega) hmax,
      (try_construct_first_failure throws _ other.size_ k _ hk
        (by rw [List.length_replicate]) hfail hok).2 j hj]
    exact operator_subscript_of_holds hx j hjl
  · intro copy_throws new_data new_capacity x hnm hcc hlen hxk hthrow hcopies
    have hkx : k < xs.length := by
      by_contra hcon
      rw [List.getElem?_eq_none (by omega)] at hxk
      cases hxk
    have hsub : ∀ (i : Nat) (hi : i < xs.length), other.data_.getD i none = some xs[i] :=
      fun i hi => operator_subscript_of_holds hx i hi
    have hxe : xs[k] = x := by
      rw [List.getElem?_eq_getElem hkx] at hxk
      exact Option.some.inj hxk
    have hdk : other.data_.getD k none = some x := by rw [hsub k hkx, hxe]
    have hF := try_copy_loop_first_failure copy_throws other.data_ other.size_ k x
      new_data (by omega) hlen hdk hthrow
      (fun i y hi hy => by
        have hil : i < xs.length := by omega
        rw [hsub i hil] at hy
        exact hcopies i y hi (by rw [List.getElem?_eq_getElem hil]; exact hy))
    rw [relocate_may_throw_of_copy_throws copy_throws other heap new_data new_capacity hnm hcc
      ⟨k, by omega, x, hdk, hthrow⟩]
    refine ⟨rfl, rfl, rfl, fun j hjl hj => ?_⟩
    show (try_copy_loop copy_throws other.data_ (List.range other.size_) new_data).1.getD j none
      = _
    rw [hF.2 j hj]
    exact hsub j hjl

theorem batch_failure_destroys_no_element_witness :
    (ctor_fill_may_throw (fun i => decide (i = 2)) [] 3 (7 : Int)).2.2.getD 1 none = some 7 ∧
    (ctor_copy_may_throw (fun i => decide (i = 2)) [] int_123).2.2.getD 1 none = some 2 ∧
    (relocate_may_throw (fun x : CopyOnly => decide (x.tag = 3)) copy_only_123 []
        (List.replicate 6 none) 6).1 = Except.error Exception.element_failure ∧
    (relocate_may_throw (fun x : CopyOnly => decide (x.tag = 3)) copy_only_123 []
        (List.replicate 6 none) 6).2.2.2.getD 1 none = some ⟨2⟩ :=
  have h := batch_failure_destroys_no_element (fun i => decide (i = 2)) 2 (by decide)
    (fun i hi => decide_eq_false (by omega)) [] 3 (7 : Int) [1, 2, 3] int_123 [1, 2, 3]
    ⟨rfl, rfl⟩
  have g := batch_failure_destroys_no_element (fun i => decide (i = 2)) 2 (by decide)
    (fun i hi => decide_eq_false (by omega)) [] 3 (⟨7⟩ : CopyOnly) [⟨1⟩, ⟨2⟩, ⟨3⟩]
    copy_only_123 [⟨1⟩, ⟨2⟩, ⟨3⟩] ⟨rfl, rfl⟩
  have r := g.2.2.2 (fun x : CopyOnly => decide (x.tag = 3)) (List.replicate 6 none) 6 ⟨3⟩
    rfl rfl (by decide) rfl rfl
    (fun i y hi hy => by
      have h2 : i = 0 ∨ i = 1 := by omega
      rcases h2 with h2 | h2 <;> subst h2 <;> cases hy <;> rfl)
  ⟨(h.1 (by decide) (by decide) 1 (by decide)).1,
   h.2.2.1 (by decide) (by decide) 1 (by decide) (by decide),
   r.1, r.2.2.2 1 (by decide) (by decide)⟩

theorem max_size_pos (v : Vector T) : 0 < v.max_size := by
  unfold max_size
  exact Nat.div_pos (ElemType.sizeof_le (T := T)) (ElemType.sizeof_pos (T := T))

theorem grow_if_full_of_full (v : Vector T) (heap : Heap) (h : v.size_ = v.capacity_) :
    (v.grow_if_full heap).1.size_ = v.size_ ∧
    (v.grow_if_full heap).1.capacity_ = v.new_possible_capacity := by
  rw [grow_if_full_of_full_eq v heap h]
  exact ⟨rfl, rfl⟩

theorem new_possible_capacity_of_max (v : Vector T) (h : v.capacity_ = v.max_size) :
    v.new_possible_capacity = v.capacity_ := by
  have hpos := max_size_pos v
  have hmax := max_size_le v
  unfold new_possible_capacity
  by_cases hlt : v.capacity_ < SIZE_MAX / 2
  · have h2 : to_size_t (2 * v.capacity_) = 2 * v.capacity_ := by
      apply to_size_t_of_le
      have : SIZE_MAX / 2 * 2 ≤ SIZE_MAX := Nat.div_mul_le_self _ _
      omega
    rw [if_pos hlt, h2, ← h, min_eq_left (by omega)]
    exact max_eq_right (by omega)
  · rw [if_neg hlt, h]

/-- Claim C22.  For a capacity `c < max_size()`, `new_possible_capacity()` returns `n`
with `c < n <= max_size()`, so a full container has `size() < capacity()` after the
growth step and before the new element is constructed; for `c == max_size()` it
returns `c` itself, and `push_back` on such a full container leaves the capacity at
`c` (the model of `push_back` has no failure result: the source raises no
length error there). -/
theorem new_possible_capacity_makes_room (v : Vector T) (heap : Heap) (value : T) :
    (v.capacity < v.max_size →
      v.capacity < v.new_possible_capacity ∧ v.new_possible_capacity ≤ v.max_size ∧
      (v.size = v.capacity →
        (v.grow_if_full heap).1.size < (v.grow_if_full heap).1.capacity)) ∧
    (v.capacity = v.max_size →
      v.new_possible_capacity = v.capacity ∧
      (v.size = v.capacity → (v.push_back heap value).1.capacity = v.capacity)) := by
  unfold size capacity
  constructor
  · intro hc
    have hlt := lt_new_possible_capacity v hc
    refine ⟨hlt, new_possible_capacity_le v (by omega), fun hfull => ?_⟩
    obtain ⟨g1, g2⟩ := grow_if_full_of_full v heap hfull
    rw [g1, g2]
    omega
  · intro hc
    have hn := new_possible_capacity_of_max v hc
    refine ⟨hn, fun hfull => ?_⟩
    rw [(push_back_size_capacity v heap value).2, if_pos hfull]
    exact hn

theorem new_possible_capacity_makes_room_witness :
    int_123.capacity < int_123.new_possible_capacity ∧
    (int_123.grow_if_full []).1.size < (int_123.grow_if_full []).1.capacity :=
  have h := (new_possible_capacity_makes_room int_123 [] 0).1 (by decide)
  ⟨h.1, h.2.2 rfl⟩

theorem emplace_of_ne (v : Vector T) (heap : Heap) (pos : Iterator) (value : T)
    (h : pos.sub v.begin ≠ v.size_) :
    v.emplace heap pos value = v.insert_move heap pos value := by
  unfold emplace
  dsimp only
  rw [if_neg h]

/-- Claim C23, evaluated where the code departs from it.  On `Vector<int>{1, 2, 3}`,
`emplace(end(), 9)` appends through `emplace_back` and leaves `size() == 4`, while
`insert(end(), 9)`, in both overloads, leaves `size() == 5`: the resulting containers
differ although both calls return an iterator at index 3. -/
theorem emplace_and_insert_differ_at_end :
    (int_123.emplace [] int_123.end_ 9).2.1.size = 4 ∧
    (int_123.insert_move [] int_123.end_ 9).2.1.size = 5 ∧
    (int_123.insert [] int_123.end_ 9).2.1.size = 5 ∧
    (int_123.emplace [] int_123.end_ 9).1 = ⟨3⟩ ∧
    (int_123.insert_move [] int_123.end_ 9).1 = ⟨3⟩ ∧
    (int_123.emplace [] int_123.end_ 9).2.1 ≠ (int_123.insert_move [] int_123.end_ 9).2.1 ∧
    (int_123.emplace [] int_123.end_ 9).2.1 ≠ (int_123.insert [] int_123.end_ 9).2.1 := by
  decide

theorem insert_shift_from_size_eq (G : List (Option T)) (s i : Nat) (x : Option T)
    (hi : i < s) (hs : s < G.length) :
    (insert_shift i s G).set i x =
      (insert_shift i (s - 1) (G.set s (G.getD (s - 1) none))).set i x := by
  apply List.ext_getElem?
  intro j
  rw [getElem?_insert_slot G s i x j hi hs, List.getElem?_set, length_insert_shift,
    getElem?_insert_shift i s G j hs]
  by_cases h1 : j < i
  · rw [if_neg (by omega), if_neg (by omega), if_pos h1]
  · rw [if_neg h1]
    by_cases h2 : j = i
    · subst h2
      rw [if_pos rfl, if_pos (by omega), if_pos rfl]
    · rw [if_neg (fun h => h2 h.symm), if_neg h2]
      by_cases h3 : j ≤ s
      · rw [if_pos ⟨by omega, h3⟩, if_pos h3]
      · rw [if_neg (by omega), if_neg h3]

theorem insert_move_of_ne (v : Vector T) (heap : Heap) (pos : Iterator) (value : T)
    (hne : pos.sub v.begin ≠ (v.grow_if_full heap).1.size_) :
    v.insert_move heap pos value =
      (⟨pos.sub v.begin⟩,
       { data_ := (insert_shift (pos.sub v.begin) (v.grow_if_full heap).1.size_
            (v.grow_if_full heap).1.data_).set (pos.sub v.begin) (some value),
         size_ := to_size_t ((v.grow_if_full heap).1.size_ + 1),
         capacity_ := (v.grow_if_full heap).1.capacity_ },
       (v.grow_if_full heap).2) := by
  unfold insert_move
  dsimp only
  rw [if_neg hne]
  refine Prod.ext ?_ (Prod.ext rfl rfl)
  show Iterator.mk (0 + _) = _
  rw [Nat.zero_add]

theorem emplace_eq_insert_of_lt (v : Vector T) (heap : Heap) (value : T) (i : Nat)
    (hlen : v.data_.length = v.capacity_) (hsc : v.size_ ≤ v.capacity_)
    (hroom : v.size_ < v.max_size) (hi : i < v.size_) :
    v.emplace heap ⟨i⟩ value = v.insert heap ⟨i⟩ value ∧
    v.insert_move heap ⟨i⟩ value = v.insert heap ⟨i⟩ value := by
  obtain ⟨g1, g2, g3, _, _⟩ := grow_if_full_spec v heap hlen hsc hroom
  have hidx : Iterator.sub ⟨i⟩ v.begin = i := iterator_sub_begin v i
  have hpred : size_t_sub v.size_ 1 = v.size_ - 1 := size_t_sub_of_le (by omega)
  have hM := insert_move_of_ne v heap ⟨i⟩ value (by rw [hidx, g1]; omega)
  have hI := insert_of_ne v heap ⟨i⟩ value (by rw [hidx, g1]; omega)
  rw [hidx, g1] at hM
  rw [hidx, g1, hpred] at hI
  have hEq : v.insert_move heap ⟨i⟩ value = v.insert heap ⟨i⟩ value := by
    rw [hM, hI, insert_shift_from_size_eq _ v.size_ i (some value) hi (by omega)]
  exact ⟨by rw [emplace_of_ne v heap ⟨i⟩ value (by rw [hidx]; omega), hEq], hEq⟩

/-- When `Vector(count)` throws in the growing branch of `resize(count)`, the call ends
with the length error, the container is unchanged, and the one storage request is the
`operator delete(nullptr, 0)` of the destructor of the local `new_vector`. -/
theorem resize_length_error_log :
    (int_123.resize [] (2 ^ 63)).1 = Except.error Exception.length_error ∧
    (int_123.resize [] (2 ^ 63)).2.1 = int_123 ∧
    (int_123.resize [] (2 ^ 63)).2.2 = [HeapCall.operator_delete 0 0] :=
  ⟨rfl, rfl, rfl⟩

theorem resize_of_shrink [Inhabited T] (v : Vector T) (heap : Heap) (count : Nat)
    (h : v.size_ > count) :
    v.resize heap count =
      (Except.ok (),
       { data_ := destroy_loop count v.size_ v.data_, size_ := count,
         capacity_ := v.capacity_ }, heap) := by
  unfold resize
  rw [if_pos h]

theorem resize_of_within_capacity [Inhabited T] (v : Vector T) (heap : Heap) (count : Nat)
    (h1 : ¬ v.size_ > count) (h2 : count ≤ v.capacity_) :
    v.resize heap count =
      (Except.ok (),
       { data_ := fill_loop v.size_ count default v.data_, size_ := count,
         capacity_ := v.capacity_ }, heap) := by
  unfold resize
  rw [if_neg h1, if_pos h2]

theorem resize_within_capacity_round_trip [Inhabited T] (v : Vector T) (heap : Heap)
    (xs : List T) (n : Nat) (hx : v.Holds xs) (hlen : v.data_.length = v.capacity_)
    (hn : n ≤ v.capacity_) :
    ((v.resize heap n).2.1.resize (v.resize heap n).2.2 v.size_).2.1.size_ = v.size_ ∧
    ∀ (i : Nat) (hi : i < xs.length), i < n →
      ((v.resize heap n).2.1.resize (v.resize heap n).2.2 v.size_).2.1.data_.getD i none
        = some xs[i] := by
  have hsl := holds_size_le_length hx
  rw [holds_iff] at hx
  obtain ⟨hx1, hx2⟩ := hx
  have hold : ∀ (i : Nat) (hi : i < xs.length), v.data_[i]? = some (some xs[i]) := by
    intro i hi
    rw [hx2 i (by omega), List.getElem?_map, List.getElem?_eq_getElem hi]
    rfl
  by_cases h1 : v.size_ > n
  · rw [resize_of_shrink v heap n h1]
    rw [resize_of_within_capacity _ heap v.size_ (by show ¬ n > v.size_; omega)
      (by show v.size_ ≤ v.capacity_; omega)]
    refine ⟨rfl, fun i hi hin => ?_⟩
    apply subscript_of_getElem?
    show (fill_loop n v.size_ default (destroy_loop n v.size_ v.data_))[i]? = _
    rw [getElem?_fill_loop, if_neg (by omega), getElem?_destroy_loop, if_neg (by omega)]
    exact hold i hi
  · rw [resize_of_within_capacity v heap n h1 hn]
    by_cases h2 : n > v.size_
    · rw [resize_of_shrink _ heap v.size_ (by show n > v.size_; exact h2)]
      refine ⟨rfl, fun i hi hin => ?_⟩
      apply subscript_of_getElem?
      show (destroy_loop v.size_ n (fill_loop v.size_ n default v.data_))[i]? = _
      rw [getElem?_destroy_loop, if_neg (by omega), getElem?_fill_loop, if_neg (by omega)]
      exact hold i hi
    · rw [resize_of_within_capacity _ heap v.size_ (by show ¬ n > v.size_; exact h2)
        (by show v.size_ ≤ v.capacity_; omega)]
      refine ⟨rfl, fun i hi hin => ?_⟩
      apply subscript_of_getElem?
      show (fill_loop n v.size_ default (fill_loop v.size_ n default v.data_))[i]? = _
      rw [getElem?_fill_loop, if_neg (by omega), getElem?_fill_loop, if_neg (by omega)]
      exact hold i hi

theorem relocate_loop_copy_spec [DecidableEq T] (a : Vector T) (xs : List T)
    (hx : a.Holds xs) :
    operator_eq a { data_ := relocate_loop a.data_ a.size_ (List.replicate a.size_ none),
                    size_ := a.size_, capacity_ := a.size_ } = true ∧
    ({ data_ := relocate_loop a.data_ a.size_ (List.replicate a.size_ none),
       size_ := a.size_, capacity_ := a.size_ } : Vector T).Holds xs := by
  have hsl := holds_size_le_length hx
  have hget : ∀ j, j < a.size_ →
      (relocate_loop a.data_ a.size_ (List.replicate a.size_ none))[j]? = a.data_[j]? := by
    intro j hj
    rw [getElem?_relocate_loop, List.length_replicate, if_pos ⟨hj, hj⟩]
    exact some_getD_eq_getElem? _ (by omega)
  constructor
  · rw [operator_eq_iff]
    refine ⟨rfl, ?_⟩
    intro i hi
    show a.data_.getD i none
      = (relocate_loop a.data_ a.size_ (List.replicate a.size_ none)).getD i none
    rw [List.getD_eq_getElem?_getD, List.getD_eq_getElem?_getD, hget i hi]
  · rw [holds_iff]
    rw [holds_iff] at hx
    refine ⟨hx.1, fun j hj => ?_⟩
    show (relocate_loop a.data_ a.size_ (List.replicate a.size_ none))[j]? = _
    rw [hget j hj]
    exact hx.2 j hj

end Vector

/-! ## Objects in one free store

The lemmas of this part show that no call on an object changes a block the object does
not point to, and that the members stated over the free store agree with the members
stated on `Vector`. -/

namespace Store

variable {T : Type} [ElemType T]

theorem length_write (s : Store T) (q : Option Nat) (c : List (Option T)) :
    (s.write q c).length = s.length := by
  cases q with
  | none => rfl
  | some a => exact List.length_set _ _ _

theorem getD_write_of_ne (s : Store T) (q : Option Nat) (c : List (Option T)) (p : Nat)
    (h : q ≠ some p) : (s.write q c).getD p [] = s.getD p [] := by
  cases q with
  | none => rfl
  | some a =>
    have hne : a ≠ p := fun e => h (by rw [e])
    show (s.set a c).getD p [] = s.getD p []
    rw [List.getD_eq_getElem?_getD, List.getD_eq_getElem?_getD, List.getElem?_set_ne hne]

theorem block_write_self (s : Store T) (p : Nat) (c : List (Option T)) (h : p < s.length) :
    (s.write (some p) c).block (some p) = c := by
  show (s.set p c).getD p [] = c
  rw [List.getD_eq_getElem?_getD, List.getElem?_set_self h]
  rfl

theorem length_operator_new (s : Store T) (bytes : Nat) :
    (s.operator_new bytes).2.length = s.length + 1 := by
  unfold operator_new
  simp

theorem getD_operator_new (s : Store T) (bytes : Nat) (p : Nat) (h : p < s.length) :
    (s.operator_new bytes).2.getD p [] = s.getD p [] := by
  unfold operator_new
  show (s ++ _).getD p [] = s.getD p []
  rw [List.getD_eq_getElem?_getD, List.getD_eq_getElem?_getD, List.getElem?_append_left h]

theorem operator_new_ne (s : Store T) (bytes : Nat) (p : Nat) (h : p < s.length) :
    (s.operator_new bytes).1 ≠ some p := by
  unfold operator_new
  intro e
  have := Option.some.inj e
  omega

theorem block_operator_new_self (s : Store T) (bytes : Nat) :
    (s.operator_new bytes).2.block (s.operator_new bytes).1
      = List.replicate (bytes / ElemType.sizeof T) none := by
  unfold operator_new
  show (s ++ [_]).getD s.length [] = _
  rw [List.getD_eq_getElem?_getD, List.getElem?_append_right (le_refl _), Nat.sub_self]
  rfl

theorem length_operator_delete (s : Store T) (q : Option Nat) :
    (s.operator_delete q).length = s.length := by
  unfold operator_delete
  exact length_write _ _ _

theorem getD_operator_delete_of_ne (s : Store T) (q : Option Nat) (p : Nat)
    (h : q ≠ some p) : (s.operator_delete q).getD p [] = s.getD p [] := by
  unfold operator_delete
  exact getD_write_of_ne _ _ _ _ h

theorem block_write_self_of_length (s : Store T) (q : Option Nat) (c : List (Option T))
    (hin : ∀ p : Nat, q = some p → p < s.length) (hlen : c.length = (s.block q).length) :
    (s.write q c).block q = c := by
  cases q with
  | none =>
    have h0 : c.length = 0 := hlen
    show [] = c
    exact (List.eq_nil_of_length_eq_zero h0).symm
  | some p => exact block_write_self s p c (hin p rfl)

theorem block_write_of_ne (s : Store T) (q q2 : Option Nat) (c : List (Option T))
    (h : q ≠ q2) : (s.write q c).block q2 = s.block q2 := by
  cases q2 with
  | none => rfl
  | some p => exact getD_write_of_ne s q c p h

theorem block_operator_new (s : Store T) (bytes : Nat) (q : Option Nat)
    (hin : ∀ p : Nat, q = some p → p < s.length) :
    (s.operator_new bytes).2.block q = s.block q := by
  cases q with
  | none => rfl
  | some p => exact getD_operator_new s bytes p (hin p rfl)

theorem operator_new_ne_of_in (s : Store T) (bytes : Nat) (q : Option Nat)
    (hin : ∀ p : Nat, q = some p → p < s.length) : (s.operator_new bytes).1 ≠ q := by
  cases q with
  | none =>
    intro e
    cases e
  | some p => exact operator_new_ne s bytes p (hin p rfl)

theorem block_operator_delete_of_ne (s : Store T) (q q2 : Option Nat) (h : q ≠ q2) :
    (s.operator_delete q).block q2 = s.block q2 := by
  unfold operator_delete
  exact block_write_of_ne _ _ _ _ h

end Store

namespace VectorObject

variable {T : Type} [ElemType T]

theorem relocate_keeps (o : VectorObject T) (s : Store T) (new_data : Option Nat)
    (new_capacity : Nat) (p : Nat) (hp : p < s.length) (ho : o.data_ ≠ some p)
    (hn : new_data ≠ some p) :
    p < (o.relocate s new_data new_capacity).2.2.length ∧
    (o.relocate s new_data new_capacity).2.1.data_ ≠ some p ∧
    (o.relocate s new_data new_capacity).2.2.getD p [] = s.getD p [] := by
  unfold relocate
  dsimp only
  split_ifs <;>
    refine ⟨?_, ?_, ?_⟩ <;>
    first
      | exact ho
      | exact hn
      | (rw [Store.length_operator_delete, Store.length_write]; exact hp)
      | (rw [Store.length_write]; exact hp)
      | (rw [Store.getD_operator_delete_of_ne _ _ _ ho, Store.getD_write_of_ne _ _ _ _ hn])
      | (rw [Store.getD_write_of_ne _ _ _ _ hn])

theorem grow_if_full_keeps (o : VectorObject T) (s : Store T) (p : Nat)
    (hp : p < s.length) (ho : o.data_ ≠ some p) :
    p < (o.grow_if_full s).2.length ∧
    (o.grow_if_full s).1.data_ ≠ some p ∧
    (o.grow_if_full s).2.getD p [] = s.getD p [] := by
  unfold grow_if_full
  split_ifs
  · dsimp only
    obtain ⟨r1, r2, r3⟩ := relocate_keeps o
      (s.operator_new (to_size_t (ElemType.sizeof T * o.new_possible_capacity))).2
      (s.operator_new (to_size_t (ElemType.sizeof T * o.new_possible_capacity))).1
      o.new_possible_capacity p
      (by rw [Store.length_operator_new]; omega) ho (Store.operator_new_ne s _ p hp)
    exact ⟨r1, r2, by rw [r3, Store.getD_operator_new s _ p hp]⟩
  · exact ⟨hp, ho, rfl⟩

theorem push_back_keeps (o : VectorObject T) (s : Store T) (value : T) (p : Nat)
    (hp : p < s.length) (ho : o.data_ ≠ some p) :
    p < (o.push_back s value).2.length ∧
    (o.push_back s value).1.data_ ≠ some p ∧
    (o.push_back s value).2.getD p [] = s.getD p [] := by
  obtain ⟨g1, g2, g3⟩ := grow_if_full_keeps o s p hp ho
  unfold push_back
  dsimp only
  exact ⟨by rw [Store.length_write]; exact g1, g2,
    by rw [Store.getD_write_of_ne _ _ _ _ g2, g3]⟩

theorem operator_subscript_assign_keeps (o : VectorObject T) (s : Store T) (position : Nat)
    (value : T) (p : Nat) (hp : p < s.length) (ho : o.data_ ≠ some p) :
    p < (o.operator_subscript_assign s position value).2.length ∧
    (o.operator_subscript_assign s position value).1.data_ ≠ some p ∧
    (o.operator_subscript_assign s position value).2.getD p [] = s.getD p [] := by
  unfold operator_subscript_assign
  exact ⟨by rw [Store.length_write]; exact hp, ho, Store.getD_write_of_ne _ _ _ _ ho⟩

theorem erase_keeps (o : VectorObject T) (s : Store T) (pos : Iterator) (p : Nat)
    (hp : p < s.length) (ho : o.data_ ≠ some p) :
    p < (o.erase s pos).2.2.length ∧
    (o.erase s pos).2.1.data_ ≠ some p ∧
    (o.erase s pos).2.2.getD p [] = s.getD p [] := by
  unfold erase pop_back
  dsimp only
  split_ifs <;>
    exact ⟨by rw [Store.length_write]; exact hp, ho, Store.getD_write_of_ne _ _ _ _ ho⟩

theorem resize_value_keeps (o : VectorObject T) (s : Store T) (count : Nat) (value : T)
    (p : Nat) (hp : p < s.length) (ho : o.data_ ≠ some p) :
    p < (o.resize_value s count value).2.length ∧
    (o.resize_value s count value).1.data_ ≠ some p ∧
    (o.resize_value s count value).2.getD p [] = s.getD p [] := by
  unfold resize_value
  dsimp only
  split_ifs
  · exact ⟨by rw [Store.length_write]; exact hp, ho, Store.getD_write_of_ne _ _ _ _ ho⟩
  · exact ⟨by rw [Store.length_write]; exact hp, ho, Store.getD_write_of_ne _ _ _ _ ho⟩
  · have hn := Store.operator_new_ne s (to_size_t (ElemType.sizeof T * count)) p hp
    exact ⟨by rw [Store.length_write, Store.length_operator_new]; omega, hn,
      by rw [Store.getD_write_of_ne _ _ _ _ hn, Store.getD_operator_new s _ p hp]⟩
  · exact ⟨hp, ho, rfl⟩

theorem ctor_count_keeps [Inhabited T] (s : Store T) (n : Nat) (p : Nat) (hp : p < s.length) :
    p < (ctor_count s n : Except Exception (VectorObject T) × Store T).2.length ∧
    (ctor_count s n : Except Exception (VectorObject T) × Store T).2.getD p [] = s.getD p [] ∧
    ∀ b : VectorObject T,
      (ctor_count s n : Except Exception (VectorObject T) × Store T).1 = Except.ok b →
      b.data_ ≠ some p := by
  unfold ctor_count
  split_ifs
  · exact ⟨hp, rfl, fun b hb => by cases hb⟩
  · have hn := Store.operator_new_ne s (to_size_t (ElemType.sizeof T * n)) p hp
    refine ⟨by rw [Store.length_write, Store.length_operator_new]; omega,
      by rw [Store.getD_write_of_ne _ _ _ _ hn, Store.getD_operator_new s _ p hp], ?_⟩
    intro b hb
    cases hb
    exact hn
  · refine ⟨hp, rfl, ?_⟩
    intro b hb
    cases hb
    intro e
    cases e

theorem destructor_keeps (o : VectorObject T) (s : Store T) (p : Nat) (hp : p < s.length)
    (ho : o.data_ ≠ some p) :
    p < (o.destructor s).2.length ∧ (o.destructor s).2.getD p [] = s.getD p [] := by
  unfold destructor
  exact ⟨by rw [Store.length_operator_delete]; exact hp,
    Store.getD_operator_delete_of_ne _ _ _ ho⟩

theorem resize_keeps [Inhabited T] (o : VectorObject T) (s : Store T) (count : Nat)
    (p : Nat) (hp : p < s.length) (ho : o.data_ ≠ some p) :
    p < (o.resize s count).2.2.length ∧
    (o.resize s count).2.1.data_ ≠ some p ∧
    (o.resize s count).2.2.getD p [] = s.getD p [] := by
  unfold resize
  split_ifs
  · exact ⟨by rw [Store.length_write]; exact hp, ho, Store.getD_write_of_ne _ _ _ _ ho⟩
  · exact ⟨by rw [Store.length_write]; exact hp, ho, Store.getD_write_of_ne _ _ _ _ ho⟩
  · obtain ⟨c1, c2, c3⟩ := ctor_count_keeps (T := T) s count p hp
    rcases hC : (ctor_count s count : Except Exception (VectorObject T) × Store T)
      with ⟨outcome, store1⟩
    rw [hC] at c1 c2 c3
    have hnone : (none : Option Nat) ≠ some p := fun e => by cases e
    cases outcome with
    | error e =>
      obtain ⟨d1, d2⟩ := destructor_keeps (ctor_default : VectorObject T) store1 p c1 hnone
      exact ⟨d1, ho, by rw [d2]; exact c2⟩
    | ok temporary =>
      have ht : temporary.data_ ≠ some p := c3 temporary rfl
      dsimp only
      obtain ⟨d1, d2⟩ := destructor_keeps
        (operator_assign_move (ctor_default : VectorObject T) temporary).2 store1 p c1 hnone
      obtain ⟨r1, r2, r3⟩ := relocate_keeps o
        ((operator_assign_move (ctor_default : VectorObject T) temporary).2.destructor store1).2
        (operator_assign_move (ctor_default : VectorObject T) temporary).1.data_ count p d1 ho ht
      rcases hR : o.relocate
        ((operator_assign_move (ctor_default : VectorObject T) temporary).2.destructor store1).2
        (operator_assign_move (ctor_default : VectorObject T) temporary).1.data_ count
        with ⟨outcome2, w, store3⟩
      rw [hR] at r1 r2 r3
      cases outcome2 with
      | error e => exact ⟨r1, r2, by rw [r3, d2]; exact c2⟩
      | ok u =>
        obtain ⟨e1, e2⟩ := destructor_keeps
          (operator_assign_move (ctor_default : VectorObject T) temporary).1 store3 p r1 ht
        exact ⟨e1, r2, by rw [e2, r3, d2]; exact c2⟩
  · exact ⟨hp, ho, rfl⟩

theorem mutate_keeps [Inhabited T] (o : VectorObject T) (s : Store T) (call : Mutation T)
    (p : Nat) (hp : p < s.length) (ho : o.data_ ≠ some p) :
    p < (o.mutate s call).2.2.length ∧
    (o.mutate s call).2.1.data_ ≠ some p ∧
    (o.mutate s call).2.2.getD p [] = s.getD p [] := by
  cases call with
  | push_back value => exact push_back_keeps o s value p hp ho
  | assign position value => exact operator_subscript_assign_keeps o s position value p hp ho
  | erase pos => exact erase_keeps o s pos p hp ho
  | resize count => exact resize_keeps o s count p hp ho
  | resize_value count value => exact resize_value_keeps o s count value p hp ho

/-- No series of modifying calls on an object changes a block of the store that the
object does not point to. -/
theorem mutate_all_keeps [Inhabited T] (calls : List (Mutation T)) :
    ∀ (o : VectorObject T) (s : Store T) (p : Nat), p < s.length → o.data_ ≠ some p →
    (o.mutate_all s calls).2.getD p [] = s.getD p [] := by
  induction calls with
  | nil =>
    intro o s p _ _
    rfl
  | cons call rest ih =>
    intro o s p hp ho
    obtain ⟨m1, m2, m3⟩ := mutate_keeps o s call p hp ho
    unfold mutate_all
    split_ifs
    · exact m3
    · rw [ih _ _ p m1 m2, m3]

theorem view_eq (o : VectorObject T) (s : Store T) (d : List (Option T)) (n c : Nat)
    (hd : s.block o.data_ = d) (hn : o.size_ = n) (hc : o.capacity_ = c) :
    o.view s = { data_ := d, size_ := n, capacity_ := c } := by
  unfold view
  rw [hd, hn, hc]

/-- The assignment `v[position] = value` stated over the free store writes the slot of
the object's own block. -/
theorem view_operator_subscript_assign (o : VectorObject T) (s : Store T) (position : Nat)
    (value : T) (hin : ∀ p : Nat, o.data_ = some p → p < s.length) :
    (o.operator_subscript_assign s position value).1.view
        (o.operator_subscript_assign s position value).2
      = { o.view s with data_ := (o.view s).data_.set position (some value) } := by
  unfold operator_subscript_assign
  exact view_eq _ _ _ _ _
    (Store.block_write_self_of_length s o.data_ _ hin (List.length_set _ _ _)) rfl rfl

/-- The member `erase` stated over the free store agrees with `Vector.erase`. -/
theorem view_erase (o : VectorObject T) (s : Store T) (pos : Iterator)
    (hin : ∀ p : Nat, o.data_ = some p → p < s.length) :
    (o.erase s pos).1 = ((o.view s).erase pos).1 ∧
    (o.erase s pos).2.1.view (o.erase s pos).2.2 = ((o.view s).erase pos).2 := by
  unfold erase Vector.erase pop_back Vector.pop_back
  dsimp only
  by_cases h : pos.sub o.begin = size_t_sub o.size_ 1
  · have h2 : pos.sub (o.view s).begin = size_t_sub (o.view s).size_ 1 := h
    rw [if_pos h, if_pos h2]
    exact ⟨rfl, view_eq _ _ _ _ _
      (Store.block_write_self_of_length s o.data_ _ hin (List.length_set _ _ _)) rfl rfl⟩
  · have h2 : ¬ pos.sub (o.view s).begin = size_t_sub (o.view s).size_ 1 := h
    rw [if_neg h, if_neg h2]
    exact ⟨rfl, view_eq _ _ _ _ _
      (Store.block_write_self_of_length s o.data_ _ hin
        (Vector.length_erase_shift _ _ _)) rfl rfl⟩

/-- The member `resize(count, value)` stated over the free store agrees with
`Vector.resize_value`. -/
theorem view_resize_value (o : VectorObject T) (s : Store T) (heap : Heap) (count : Nat)
    (value : T) (hin : ∀ p : Nat, o.data_ = some p → p < s.length) :
    (o.resize_value s count value).1.view (o.resize_value s count value).2
      = ((o.view s).resize_value heap count value).1 := by
  unfold resize_value Vector.resize_value
  by_cases h1 : count < o.size_
  · have h1v : count < (o.view s).size_ := h1
    rw [if_pos h1, if_pos h1v]
    exact view_eq _ _ _ _ _
      (Store.block_write_self_of_length s o.data_ _ hin
        (Vector.length_destroy_loop _ _ _)) rfl rfl
  · have h1v : ¬ count < (o.view s).size_ := h1
    rw [if_neg h1, if_neg h1v]
    by_cases h2 : count ≤ o.capacity_
    · have h2v : count ≤ (o.view s).capacity_ := h2
      rw [if_pos h2, if_pos h2v]
      exact view_eq _ _ _ _ _
        (Store.block_write_self_of_length s o.data_ _ hin
          (Vector.length_fill_loop _ _ _ _)) rfl rfl
    · have h2v : ¬ count ≤ (o.view s).capacity_ := h2
      rw [if_neg h2, if_neg h2v]
      by_cases h3 : o.capacity_ < count
      · have h3v : (o.view s).capacity_ < count := h3
        rw [if_pos h3, if_pos h3v]
        dsimp only
        refine view_eq _ _ _ _ _ ?_ rfl rfl
        have hfresh : ∀ p : Nat, (s.operator_new
            (to_size_t (ElemType.sizeof T * count))).1 = some p →
            p < (s.operator_new (to_size_t (ElemType.sizeof T * count))).2.length := by
          intro p hp
          rw [Store.length_operator_new]
          have := Option.some.inj hp
          omega
        rw [Store.block_write_self_of_length _ _ _ hfresh (by
            rw [Vector.length_fill_loop, Vector.length_relocate_loop]),
          Store.block_operator_new s _ o.data_ hin, Store.block_operator_new_self]
        rfl
      · have h3v : ¬ (o.view s).capacity_ < count := h3
        rw [if_neg h3, if_neg h3v]
        rfl

/-- The private member `relocate` stated over the free store agrees with
`Vector.relocate`, for a new block that is one of the store's and is not the object's
own. -/
theorem view_relocate (o : VectorObject T) (s : Store T) (heap : Heap) (new_data : Option Nat)
    (new_capacity : Nat) (hn : ∀ p : Nat, new_data = some p → p < s.length)
    (hne : o.data_ ≠ new_data) :
    (o.relocate s new_data new_capacity).1
      = ((o.view s).relocate heap (s.block new_data) new_capacity).1 ∧
    (o.relocate s new_data new_capacity).2.1.view (o.relocate s new_data new_capacity).2.2
      = ((o.view s).relocate heap (s.block new_data) new_capacity).2.1 := by
  have hpop : (s.write new_data (Vector.relocate_loop (s.block o.data_) o.size_
      (s.block new_data))).block new_data
      = Vector.relocate_loop (s.block o.data_) o.size_ (s.block new_data) :=
    Store.block_write_self_of_length s new_data _ hn (Vector.length_relocate_loop _ _ _)
  have hdel : ((s.write new_data (Vector.relocate_loop (s.block o.data_) o.size_
      (s.block new_data))).operator_delete o.data_).block new_data
      = Vector.relocate_loop (s.block o.data_) o.size_ (s.block new_data) := by
    rw [Store.block_operator_delete_of_ne _ _ _ hne, hpop]
  have hold : (s.write new_data (Vector.relocate_loop (s.block o.data_) o.size_
      (s.block new_data))).block o.data_ = s.block o.data_ :=
    Store.block_write_of_ne _ _ _ _ (fun e => hne e.symm)
  unfold relocate Vector.relocate
  dsimp only
  have hv1 : (o.view s).capacity_ = o.capacity_ := rfl
  have hv2 : (o.view s).size_ = o.size_ := rfl
  have hv3 : (o.view s).data_ = s.block o.data_ := rfl
  rw [hv1, hv2, hv3]
  split_ifs <;>
    first
      | exact ⟨rfl, view_eq _ _ _ _ _ hdel rfl rfl⟩
      | exact ⟨rfl, view_eq _ _ _ _ _ hpop rfl rfl⟩
      | exact ⟨rfl, view_eq _ _ _ _ _ hold rfl rfl⟩

theorem relocate_full_data (o : VectorObject T) (s : Store T) (new_data : Option Nat)
    (new_capacity : Nat) (hfull : o.size_ = o.capacity_) :
    (o.relocate s new_data new_capacity).2.1.data_ = new_data ∧
    (o.relocate s new_data new_capacity).2.1.size_ = o.size_ ∧
    (o.relocate s new_data new_capacity).2.1.capacity_ = new_capacity := by
  have hne : ¬ o.capacity_ ≠ o.size_ := fun hc => hc hfull.symm
  unfold relocate
  dsimp only
  rw [if_neg hne]
  split_ifs <;> exact ⟨rfl, rfl, rfl⟩

theorem relocate_full_length (o : VectorObject T) (s : Store T) (new_data : Option Nat)
    (new_capacity : Nat) (hfull : o.size_ = o.capacity_) :
    (o.relocate s new_data new_capacity).2.2.length = s.length := by
  have hne : ¬ o.capacity_ ≠ o.size_ := fun hc => hc hfull.symm
  unfold relocate
  dsimp only
  rw [if_neg hne]
  split_ifs <;>
    first
      | (rw [Store.length_operator_delete, Store.length_write])
      | (rw [Store.length_write])

/-- The member `push_back` stated over the free store agrees with `Vector.push_back`. -/
theorem view_push_back (o : VectorObject T) (s : Store T) (heap : Heap) (value : T)
    (hin : ∀ p : Nat, o.data_ = some p → p < s.length) :
    (o.push_back s value).1.view (o.push_back s value).2
      = ((o.view s).push_back heap value).1 := by
  have hgrow : (o.grow_if_full s).1.view (o.grow_if_full s).2
        = ((o.view s).grow_if_full heap).1 ∧
      ∀ p : Nat, (o.grow_if_full s).1.data_ = some p → p < (o.grow_if_full s).2.length := by
    unfold grow_if_full Vector.grow_if_full
    by_cases hfull : o.size_ = o.capacity_
    · have hfv : (o.view s).size_ = (o.view s).capacity_ := hfull
      rw [if_pos hfull, if_pos hfv]
      dsimp only
      have hfresh : ∀ p : Nat, (s.operator_new
          (to_size_t (ElemType.sizeof T * o.new_possible_capacity))).1 = some p →
          p < (s.operator_new
            (to_size_t (ElemType.sizeof T * o.new_possible_capacity))).2.length := by
        intro p hp
        rw [Store.length_operator_new]
        have := Option.some.inj hp
        omega
      have hR := view_relocate o
        (s.operator_new (to_size_t (ElemType.sizeof T * o.new_possible_capacity))).2
        (operator_new heap (to_size_t (ElemType.sizeof T * o.new_possible_capacity))
          : List (Option T) × Heap).2
        (s.operator_new (to_size_t (ElemType.sizeof T * o.new_possible_capacity))).1
        o.new_possible_capacity hfresh
        (fun e => Store.operator_new_ne_of_in s _ o.data_ hin e.symm)
      have hview : o.view (s.operator_new
          (to_size_t (ElemType.sizeof T * o.new_possible_capacity))).2 = o.view s :=
        view_eq _ _ _ _ _ (Store.block_operator_new s _ o.data_ hin) rfl rfl
      rw [hview, Store.block_operator_new_self] at hR
      refine ⟨hR.2, ?_⟩
      intro p hp
      obtain ⟨k1, _, _⟩ := relocate_full_data o
        (s.operator_new (to_size_t (ElemType.sizeof T * o.new_possible_capacity))).2
        (s.operator_new (to_size_t (ElemType.sizeof T * o.new_possible_capacity))).1
        o.new_possible_capacity hfull
      rw [k1] at hp
      rw [relocate_full_length o _ _ _ hfull]
      exact hfresh p hp
    · have hfv : ¬ (o.view s).size_ = (o.view s).capacity_ := hfull
      rw [if_neg hfull, if_neg hfv]
      exact ⟨rfl, hin⟩
  obtain ⟨g1, g2⟩ := hgrow
  unfold push_back Vector.push_back
  dsimp only
  rw [← g1]
  exact view_eq _ _ _ _ _
    (Store.block_write_self_of_length _ _ _ g2 (List.length_set _ _ _)) rfl rfl

theorem relocate_ok_data (o : VectorObject T) (s : Store T) (new_data : Option Nat)
    (new_capacity : Nat) (hok : (o.relocate s new_data new_capacity).1 = Except.ok ()) :
    (o.relocate s new_data new_capacity).2.1.data_ = new_data := by
  revert hok
  unfold relocate
  dsimp only
  split_ifs <;> intro hok <;> first | rfl | cases hok

theorem relocate_length (o : VectorObject T) (s : Store T) (new_data : Option Nat)
    (new_capacity : Nat) :
    (o.relocate s new_data new_capacity).2.2.length = s.length := by
  unfold relocate
  dsimp only
  split_ifs <;>
    first
      | (rw [Store.length_operator_delete, Store.length_write])
      | (rw [Store.length_write])

/-- The copy constructor stated over the free store agrees with `Vector.ctor_copy`. -/
theorem view_ctor_copy (s : Store T) (a : VectorObject T) (heap : Heap)
    (hin : ∀ p : Nat, a.data_ = some p → p < s.length) :
    (∀ e, (ctor_copy s a).1 = Except.error e →
      (Vector.ctor_copy heap (a.view s)).1 = Except.error e) ∧
    (∀ b, (ctor_copy s a).1 = Except.ok b →
      (Vector.ctor_copy heap (a.view s)).1 = Except.ok (b.view (ctor_copy s a).2)) := by
  unfold ctor_copy Vector.ctor_copy
  by_cases h1 : a.size_ > 0
  · have h1v : (a.view s).size_ > 0 := h1
    rw [if_pos h1, if_pos h1v]
    by_cases h2 : a.size_ > a.max_size
    · have h2v : (a.view s).size_ > (Vector.ctor_default : Vector T).max_size := h2
      rw [if_pos h2, if_pos h2v]
      exact ⟨fun e he => (by cases he; rfl), fun b hb => (by cases hb)⟩
    · have h2v : ¬ (a.view s).size_ > (Vector.ctor_default : Vector T).max_size := h2
      rw [if_neg h2, if_neg h2v]
      dsimp only
      refine ⟨fun e he => (by cases he), fun b hb => ?_⟩
      cases hb
      have hfresh : ∀ p : Nat, (s.operator_new
          (to_size_t (ElemType.sizeof T * a.size_))).1 = some p →
          p < (s.operator_new (to_size_t (ElemType.sizeof T * a.size_))).2.length := by
        intro p hp
        rw [Store.length_operator_new]
        have := Option.some.inj hp
        omega
      congr 1
      symm
      refine view_eq _ _ _ _ _ ?_ rfl rfl
      rw [Store.block_write_self_of_length _ _ _ hfresh (by
          rw [Vector.length_relocate_loop]),
        Store.block_operator_new s _ a.data_ hin, Store.block_operator_new_self]
      rfl
  · have h1v : ¬ (a.view s).size_ > 0 := h1
    rw [if_neg h1, if_neg h1v]
    refine ⟨fun e he => (by cases he), fun b hb => ?_⟩
    cases hb
    rfl

/-- The member `resize(count)` stated over the free store agrees with `Vector.resize`:
same outcome, and the object read from the store is the one `Vector.resize` leaves,
the released block of the growing branch included. -/
theorem view_resize [Inhabited T] (o : VectorObject T) (s : Store T) (heap : Heap)
    (count : Nat) (hin : ∀ p : Nat, o.data_ = some p → p < s.length) :
    (o.resize s count).1 = ((o.view s).resize heap count).1 ∧
    (o.resize s count).2.1.view (o.resize s count).2.2
      = ((o.view s).resize heap count).2.1 := by
  unfold resize Vector.resize
  by_cases h1 : o.size_ > count
  · have h1v : (o.view s).size_ > count := h1
    rw [if_pos h1, if_pos h1v]
    exact ⟨rfl, view_eq _ _ _ _ _
      (Store.block_write_self_of_length s o.data_ _ hin
        (Vector.length_destroy_loop _ _ _)) rfl rfl⟩
  · have h1v : ¬ (o.view s).size_ > count := h1
    rw [if_neg h1, if_neg h1v]
    by_cases h2 : count ≤ o.capacity_
    · have h2v : count ≤ (o.view s).capacity_ := h2
      rw [if_pos h2, if_pos h2v]
      exact ⟨rfl, view_eq _ _ _ _ _
        (Store.block_write_self_of_length s o.data_ _ hin
          (Vector.length_fill_loop _ _ _ _)) rfl rfl⟩
    · have h2v : ¬ count ≤ (o.view s).capacity_ := h2
      rw [if_neg h2, if_neg h2v]
      by_cases h3 : o.capacity_ < count
      · have h3v : (o.view s).capacity_ < count := h3
        rw [if_pos h3, if_pos h3v]
        have hpos : count > 0 := by omega
        by_cases h4 : count > (ctor_default : VectorObject T).max_size
        · have h4v : count > (Vector.ctor_default : Vector T).max_size := h4
          have hC : (ctor_count s count : Except Exception (VectorObject T) × Store T)
              = (Except.error Exception.length_error, s) := by
            unfold ctor_count
            rw [if_pos hpos, if_pos h4]
          have hCv : (Vector.ctor_count heap count : Except Exception (Vector T) × Heap)
              = (Except.error Exception.length_error, heap) := by
            unfold Vector.ctor_count
            rw [if_pos hpos, if_pos h4v]
          rw [hC, hCv]
          exact ⟨rfl, rfl⟩
        · have h4v : ¬ count > (Vector.ctor_default : Vector T).max_size := h4
          have hfresh : ∀ p : Nat, (s.operator_new
              (to_size_t (ElemType.sizeof T * count))).1 = some p →
              p < (s.operator_new (to_size_t (ElemType.sizeof T * count))).2.length := by
            intro p hp
            rw [Store.length_operator_new]
            have := Option.some.inj hp
            omega
          have hC : (ctor_count s count : Except Exception (VectorObject T) × Store T)
              = (Except.ok { data_ :=
                               (s.operator_new (to_size_t (ElemType.sizeof T * count))).1,
                             size_ := count, capacity_ := count },
                 (s.operator_new (to_size_t (ElemType.sizeof T * count))).2.write
                   (s.operator_new (to_size_t (ElemType.sizeof T * count))).1
                   (Vector.fill_loop 0 count default
                     ((s.operator_new (to_size_t (ElemType.sizeof T * count))).2.block
                       (s.operator_new (to_size_t (ElemType.sizeof T * count))).1))) := by
            unfold ctor_count
            rw [if_pos hpos, if_neg h4]
          have hCv : (Vector.ctor_count heap count : Except Exception (Vector T) × Heap)
              = (Except.ok { data_ := Vector.fill_loop 0 count default
                               (operator_new heap (to_size_t (ElemType.sizeof T * count))
                                 : List (Option T) × Heap).1,
                             size_ := count, capacity_ := count },
                 (operator_new heap (to_size_t (ElemType.sizeof T * count))
                   : List (Option T) × Heap).2) := by
            unfold Vector.ctor_count
            rw [if_pos hpos, if_neg h4v]
          rw [hC, hCv]
          dsimp only
          generalize hs1 : (s.operator_new (to_size_t (ElemType.sizeof T * count))).2.write
            (s.operator_new (to_size_t (ElemType.sizeof T * count))).1
            (Vector.fill_loop 0 count default
              ((s.operator_new (to_size_t (ElemType.sizeof T * count))).2.block
                (s.operator_new (to_size_t (ElemType.sizeof T * count))).1)) = store1
          generalize hnd : (s.operator_new (to_size_t (ElemType.sizeof T * count))).1 = nd
            at hs1 hfresh
          have hlen1 : store1.length = s.length + 1 := by
            rw [← hs1, Store.length_write, Store.length_operator_new]
          have hndin : ∀ p : Nat, nd = some p → p < store1.length := by
            intro p hp
            rw [hlen1, ← Store.length_operator_new s (to_size_t (ElemType.sizeof T * count))]
            exact hfresh p hp
          have hone : o.data_ ≠ nd := by
            rw [← hnd]
            exact fun e => Store.operator_new_ne_of_in s _ o.data_ hin e.symm
          have hblock : store1.block nd = Vector.fill_loop 0 count default
              (operator_new heap (to_size_t (ElemType.sizeof T * count))
                : List (Option T) × Heap).1 := by
            rw [← hs1, Store.block_write_self_of_length _ _ _ hfresh (by
              rw [Vector.length_fill_loop]), ← hnd, Store.block_operator_new_self]
            rfl
          have hov : o.view store1 = o.view s := by
            refine view_eq _ _ _ _ _ ?_ rfl rfl
            rw [← hs1, Store.block_write_of_ne _ _ _ _ (fun e => hone e.symm),
              Store.block_operator_new s _ o.data_ hin]
          have hdel : ∀ st : Store T, st.operator_delete none = st := fun _ => rfl
          have hR := view_relocate o store1
            ((Vector.destructor (Vector.operator_assign_move (Vector.ctor_default : Vector T)
                { data_ := Vector.fill_loop 0 count default
                    (operator_new heap (to_size_t (ElemType.sizeof T * count))
                      : List (Option T) × Heap).1,
                  size_ := count, capacity_ := count }).2
              (operator_new heap (to_size_t (ElemType.sizeof T * count))
                : List (Option T) × Heap).2).2)
            nd count hndin hone
          rw [hov, hblock] at hR
          have hL := relocate_length o store1 nd count
          have hD := relocate_ok_data o store1 nd count
          have hnv : (Vector.operator_assign_move (Vector.ctor_default : Vector T)
              { data_ := Vector.fill_loop 0 count default
                  (operator_new heap (to_size_t (ElemType.sizeof T * count))
                    : List (Option T) × Heap).1,
                size_ := count, capacity_ := count }).1.data_
              = Vector.fill_loop 0 count default
                  (operator_new heap (to_size_t (ElemType.sizeof T * count))
                    : List (Option T) × Heap).1 := rfl
          rw [hnv]
          have hst : ((operator_assign_move (ctor_default : VectorObject T)
              { data_ := nd, size_ := count, capacity_ := count }).2.destructor store1).2
              = store1 := rfl
          have hnd2 : (operator_assign_move (ctor_default : VectorObject T)
              { data_ := nd, size_ := count, capacity_ := count }).1.data_ = nd := rfl
          rw [hst, hnd2]
          rcases hrel : o.relocate store1 nd count with ⟨outcome, w, store3⟩
          rw [hrel] at hR hL hD
          rcases hrelv : (o.view s).relocate
            ((Vector.destructor (Vector.operator_assign_move (Vector.ctor_default : Vector T)
                { data_ := Vector.fill_loop 0 count default
                    (operator_new heap (to_size_t (ElemType.sizeof T * count))
                      : List (Option T) × Heap).1,
                  size_ := count, capacity_ := count }).2
              (operator_new heap (to_size_t (ElemType.sizeof T * count))
                : List (Option T) × Heap).2).2)
            (Vector.fill_loop 0 count default
              (operator_new heap (to_size_t (ElemType.sizeof T * count))
                : List (Option T) × Heap).1) count with ⟨outcomev, wv, heap3⟩
          rw [hrelv] at hR
          obtain ⟨hR1, hR2⟩ := hR
          have hR1' : outcome = outcomev := hR1
          have hR2' : w.view store3 = wv := hR2
          subst hR1'
          cases outcome with
          | error e => exact ⟨rfl, hR2'⟩
          | ok u =>
            cases u
            have hwd : w.data_ = nd := hD rfl
            refine ⟨rfl, ?_⟩
            show ({ w with size_ := count } : VectorObject T).view (store3.operator_delete nd)
              = { data_ := List.replicate wv.data_.length none, size_ := count,
                  capacity_ := wv.capacity_ }
            rw [← hR2']
            refine view_eq _ _ _ _ _ ?_ rfl rfl
            show (store3.operator_delete nd).block w.data_ = _
            rw [hwd]
            unfold Store.operator_delete
            rw [Store.block_write_self_of_length _ _ _ (by
              intro p hp
              have hL2 : store3.length = store1.length := hL
              rw [hL2]
              exact hndin p hp) (by rw [List.length_replicate])]
            show _ = List.replicate (store3.block w.data_).length none
            rw [hwd]
      · have h3v : ¬ (o.view s).capacity_ < count := h3
        rw [if_neg h3, if_neg h3v]
        exact ⟨rfl, rfl⟩

theorem ctor_copy_stored_of_pos (s : Store T) (a : VectorObject T) (p : Nat)
    (hd : a.data_ = some p) (hp : p < s.length) (hpos : 0 < a.size_)
    (hmax : a.size_ ≤ a.max_size) :
    ctor_copy s a =
      (Except.ok { data_ := some s.length, size_ := a.size_, capacity_ := a.size_ },
       (s ++ [List.replicate a.size_ none]).set s.length
         (Vector.relocate_loop (s.getD p []) a.size_ (List.replicate a.size_ none))) := by
  have hle : ElemType.sizeof T * a.size_ ≤ SIZE_MAX :=
    Vector.sizeof_mul_le (Vector.ctor_default : Vector T) hmax
  have hbytes : to_size_t (ElemType.sizeof T * a.size_) / ElemType.sizeof T = a.size_ := by
    rw [Vector.to_size_t_of_le hle, Nat.mul_div_cancel_left _ (ElemType.sizeof_pos (T := T))]
  have hnew : s.operator_new (to_size_t (ElemType.sizeof T * a.size_)) =
      (some s.length, s ++ [List.replicate a.size_ none]) := by
    unfold Store.operator_new
    rw [hbytes]
  have hold : (s ++ [List.replicate a.size_ none] : Store T).block (some p) = s.getD p [] := by
    show (s ++ _).getD p [] = _
    rw [List.getD_eq_getElem?_getD, List.getD_eq_getElem?_getD, List.getElem?_append_left hp]
  have hfresh : (s ++ [List.replicate a.size_ none] : Store T).block (some s.length)
      = List.replicate a.size_ none := by
    show (s ++ [_]).getD s.length [] = _
    rw [List.getD_eq_getElem?_getD, List.getElem?_append_right (le_refl _), Nat.sub_self]
    rfl
  unfold ctor_copy
  rw [if_pos hpos, if_neg (by omega)]
  dsimp only
  rw [hnew]
  dsimp only
  rw [hd, hold, hfresh]
  rfl

theorem ctor_copy_stored_of_zero (s : Store T) (a : VectorObject T) (h0 : a.size_ = 0) :
    ctor_copy s a = (Except.ok ctor_default, s) := by
  unfold ctor_copy
  rw [if_neg (by omega)]

/-- Claim C12.  Let `A` be a container holding `xs`, its block one of the free store,
with `size()` within `max_size()`.  The copy constructor returns a container `B` with
`A == B`, the same size and the same elements in order; `A`, its block included, is
as before the copy; and after any series of `push_back`, `operator[]` assignment,
`erase`, `resize(n)` and `resize(n, value)` calls on `B`, `A` still has the size, the
capacity and the block contents it had before the copy. -/
theorem copy_constructed_is_independent [DecidableEq T] [Inhabited T] (s : Store T)
    (a : VectorObject T) (xs : List T) (hx : (a.view s).Holds xs)
    (hin : ∀ p : Nat, a.data_ = some p → p < s.length) (hmax : a.size_ ≤ a.max_size) :
    ∃ (b : VectorObject T) (s1 : Store T),
      ctor_copy s a = (Except.ok b, s1) ∧
      Vector.operator_eq (a.view s1) (b.view s1) = true ∧
      (b.view s1).size = (a.view s).size ∧
      (b.view s1).Holds xs ∧
      a.view s1 = a.view s ∧
      ∀ calls : List (Mutation T), a.view (b.mutate_all s1 calls).2 = a.view s := by
  have hview : ∀ (s2 : Store T) (p : Nat), a.data_ = some p →
      s2.getD p [] = s.getD p [] → a.view s2 = a.view s := by
    intro s2 p hd he
    unfold view Store.block
    rw [hd]
    dsimp only
    rw [he]
  by_cases hpos : 0 < a.size_
  · have hsome : ∃ p, a.data_ = some p := by
      cases hd : a.data_ with
      | some p => exact ⟨p, rfl⟩
      | none =>
        exfalso
        have h1 : (a.view s).size_ = xs.length := hx.1
        have h2 : ((a.view s).data_.take (a.view s).size_).length = (xs.map some).length := by
          rw [hx.2]
        have h3 : (a.view s).data_ = [] := by
          unfold view Store.block
          rw [hd]
        rw [h3, List.take_nil, List.length_map, List.length_nil] at h2
        have h4 : (a.view s).size_ = a.size_ := rfl
        omega
    obtain ⟨p, hd⟩ := hsome
    have hp := hin p hd
    have hne : (some s.length : Option Nat) ≠ some p := by
      intro e
      have := Option.some.inj e
      omega
    have hlen1 : p < ((s ++ [List.replicate a.size_ none]).set s.length
        (Vector.relocate_loop (s.getD p []) a.size_ (List.replicate a.size_ none))).length := by
      rw [List.length_set, List.length_append]
      omega
    have hkeep : ((s ++ [List.replicate a.size_ none]).set s.length
        (Vector.relocate_loop (s.getD p []) a.size_ (List.replicate a.size_ none))).getD p []
        = s.getD p [] := by
      rw [List.getD_eq_getElem?_getD, List.getD_eq_getElem?_getD,
        List.getElem?_set_ne (by omega), List.getElem?_append_left hp]
    have hav := hview _ p hd hkeep
    have hbv : ({ data_ := some s.length, size_ := a.size_, capacity_ := a.size_ }
          : VectorObject T).view ((s ++ [List.replicate a.size_ none]).set s.length
            (Vector.relocate_loop (s.getD p []) a.size_ (List.replicate a.size_ none)))
        = { data_ := Vector.relocate_loop (a.view s).data_ (a.view s).size_
              (List.replicate (a.view s).size_ none),
            size_ := (a.view s).size_, capacity_ := (a.view s).size_ } := by
      have hb : (a.view s).data_ = s.getD p [] := by
        unfold view Store.block
        rw [hd]
      rw [hb]
      unfold view Store.block
      dsimp only
      rw [List.getD_eq_getElem?_getD, List.getElem?_set_self (by
        rw [List.length_append, List.length_singleton]; omega)]
      rfl
    obtain ⟨q1, q2⟩ := Vector.relocate_loop_copy_spec (a.view s) xs hx
    refine ⟨_, _, ctor_copy_stored_of_pos s a p hd hp hpos hmax, ?_, ?_, ?_, hav, ?_⟩
    · rw [hav, hbv]
      exact q1
    · rw [hbv]
      rfl
    · rw [hbv]
      exact q2
    · intro calls
      apply hview _ p hd
      rw [mutate_all_keeps calls _ _ p hlen1 hne, hkeep]
  · have h0 : a.size_ = 0 := by omega
    have hxs : xs = [] := List.eq_nil_of_length_eq_zero (by rw [← hx.1]; exact h0)
    refine ⟨_, _, ctor_copy_stored_of_zero s a h0, ?_, ?_, ?_, rfl, ?_⟩
    · rw [Vector.operator_eq_iff]
      exact ⟨h0, fun i hi => absurd hi (by
        show ¬ i < a.size_
        omega)⟩
    · show 0 = a.size_
      omega
    · rw [hxs]
      exact ⟨rfl, rfl⟩
    · intro calls
      cases hd : a.data_ with
      | none =>
        unfold view Store.block
        rw [hd]
      | some p =>
        apply hview _ p hd
        exact mutate_all_keeps calls _ _ p (hin p hd) (fun e => by cases e)

theorem copy_constructed_is_independent_witness :
    ∃ (b : VectorObject Int) (s1 : Store Int),
      ctor_copy store_123 object_123 = (Except.ok b, s1) ∧
      Vector.operator_eq (object_123.view s1) (b.view s1) = true ∧
      (b.view s1).Holds [1, 2, 3] ∧
      object_123.view s1 = object_123.view store_123 ∧
      object_123.view
          (b.mutate_all s1
            [Mutation.push_back 9, Mutation.assign 0 7, Mutation.erase ⟨1⟩,
             Mutation.resize_value 6 5, Mutation.resize 8]).2
        = object_123.view store_123 :=
  have h := copy_constructed_is_independent store_123 object_123 [1, 2, 3] ⟨rfl, rfl⟩
    (fun p hp => by cases hp; decide) (by decide)
  h.elim (fun b hb => hb.elim (fun s1 hs =>
    ⟨b, s1, hs.1, hs.2.1, hs.2.2.2.1, hs.2.2.2.2.1, hs.2.2.2.2.2 _⟩))

/-- A copy followed by `push_back(9)`, `v[0] = 7` and `erase(begin() + 1)`, evaluated:
the copy `B` of `Vector<int>{1, 2, 3}` lives in a block of its own, the calls change
`B` (its element 0 becomes 7, and `push_back` moves it to a third block), and the block
of `A` is as before. -/
theorem copy_then_mutate_example :
    ctor_copy store_123 object_123
      = (Except.ok { data_ := some 1, size_ := 3, capacity_ := 3 },
         [[some 1, some 2, some 3], [some 1, some 2, some 3]]) ∧
    (({ data_ := some 1, size_ := 3, capacity_ := 3 } : VectorObject Int).mutate_all
        [[some 1, some 2, some 3], [some 1, some 2, some 3]]
        [Mutation.push_back 9, Mutation.assign 0 7, Mutation.erase ⟨1⟩]).1
      = { data_ := some 2, size_ := 3, capacity_ := 6 } ∧
    (({ data_ := some 1, size_ := 3, capacity_ := 3 } : VectorObject Int).mutate_all
        [[some 1, some 2, some 3], [some 1, some 2, some 3]]
        [Mutation.push_back 9, Mutation.assign 0 7, Mutation.erase ⟨1⟩]).2
      = [[some 1, some 2, some 3], [some 1, some 2, some 3],
         [some 7, some 3, some 9, some 9, none, none]] :=
  ⟨rfl, rfl, rfl⟩

end VectorObject

end HadVector
